import Mathlib

/-!
# datarange: rounded numeric ranges with a stepsize

A verification development for the Go package `datarange` (`datarange.go`).

The package is modelled twice.

* The exact model (`DataRange`, `Make`, `ResetBoundaries`, `Enlarge`, `Steps`,
  `Progress`, ...) reads a Go `float64` as an exact rational number (`ℚ`): no rounding,
  no infinity, no NaN.  The places where the Go code would produce an infinity or NaN
  (`math.Log10(0)`, a division by a zero stepsize, an out-of-range conversion to an
  integer type) are modelled by `none`.  Concrete inputs evaluated in this model are
  chosen so that the float64 computation takes the same branches and gives the same
  values (small integers and halves wherever possible).  The lemmas named `exact_...`
  say what the code would compute without rounding and without overflow; they are not
  statements about the float64 program.
* The float64 model (`F64`, `DataRange64`, `Make64`, `ResetBoundaries64`, `Enlarge64`,
  `Steps64`, `Delta64`, `Progress64`) follows IEEE 754 binary64: a value is a finite
  rational, an infinity or NaN, and every operation rounds its exact result to the
  nearest float64, a tie going to the even neighbour, with 53 significant bits,
  subnormal numbers and overflow to an infinity.  Every statement in which rounding or
  overflow decides the outcome is made in this model.

Other conventions.

* A method with a pointer receiver that mutates the range (`ResetBoundaries`,
  `Enlarge`) is modelled as a function returning the updated range.
* `fmt.Sprintf("%.*f", prec, f)` is modelled by `sprintFixed`; the text of
  `fmt.Sprintf("%v", f)`, which no statement below depends on, is a parameter of
  `FormatData`.
-/

namespace Datarange

/-- A `DataRange` bounded with two values, rounded at stepsize level and expressed in
a specific unit (`type DataRange struct`). -/
structure DataRange where
  /-- define the unit of low and high boundaries. For information -/
  unit : String
  /-- zero means no step size -/
  stepsize : ℚ
  /-- low boundary -/
  low : ℚ
  /-- high boundary -/
  high : ℚ
  deriving DecidableEq

/-- Search of the position of the last significant decimal: `d` is returned as soon as
`f * 10 ^ d` has no fractional part. -/
def decimalsFrom (f : ℚ) : ℕ → ℕ → ℕ
  | 0, d => d
  | fuel + 1, d => if (f * 10 ^ d).den = 1 then d else decimalsFrom f fuel (d + 1)

/-- Go `decimals`: the number of digits after the decimal point in the shortest decimal
text of `f` (`strconv.FormatFloat(f, 'f', -1, 64)`), `0` when the text has no point.
For a finite decimal this is the least `d` with `f * 10 ^ d` an integer; the search is
bounded by the denominator of `f`, which is enough for every finite decimal. -/
def decimals (f : ℚ) : ℕ :=
  decimalsFrom f f.den 0

/-- Go `(*DataRange).ResetBoundaries`: sets new boundaries without changing the
stepsize; the low boundary is rounded down, the high boundary is rounded up. -/
def ResetBoundaries (pdr : DataRange) (a b : ℚ) : DataRange :=
  let low := if b > a then a else b
  let high := if b > a then b else a
  if pdr.stepsize ≠ 0 then
    -- round boundaries
    let low1 := (⌊low / pdr.stepsize⌋ : ℚ) * pdr.stepsize
    let high1 := (⌈high / pdr.stepsize⌉ : ℚ) * pdr.stepsize
    -- round decimals to avoid dust
    let ratio : ℚ := 10 ^ decimals pdr.stepsize
    { pdr with low := (⌊low1 * ratio⌋ : ℚ) / ratio, high := (⌈high1 * ratio⌉ : ℚ) / ratio }
  else
    { pdr with low := low, high := high }

/-- Go `int(math.Log10(x) + 1)` for `x > 0`: the conversion truncates toward zero, so
it is `⌊log10 x⌋ + 1` when `log10 x + 1 ≥ 0` (that is `x ≥ 1/10`) and
`⌈log10 x⌉ + 1` otherwise. -/
def intLog10Succ (x : ℚ) : ℤ :=
  if 1 / 10 ≤ x then Int.log 10 x + 1 else Int.clog 10 x + 1

/-- The table `basicstepsizes` of `Make`. -/
def basicstepsizes : List ℚ := [1, 5 / 2, 5, 10, 25, 50]

/-- The test of the loop body of `Make` on one candidate stepsize:
`possiblestepsize*float64(maxsteps) >= roundeddelta`. -/
def budgetTest (a b maxsteps possiblestepsize : ℚ) : Bool :=
  let roundeda := (⌊a / possiblestepsize⌋ : ℚ) * possiblestepsize
  let roundedb := (⌈b / possiblestepsize⌉ : ℚ) * possiblestepsize
  let roundeddelta := roundedb - roundeda
  decide (possiblestepsize * maxsteps ≥ roundeddelta)

/-- The `for ... range basicstepsizes` loop of `Make`: the value of `dr.stepsize` when
the loop is left, which is the first candidate that passes the test, and the zero
value of the field when the loop runs to its end. -/
def selectStepsize (a b maxsteps : ℚ) (exp : ℤ) : List ℚ → ℚ
  | [] => 0
  | basicstepsize :: rest =>
    let possiblestepsize := basicstepsize * (10 : ℚ) ^ exp
    if budgetTest a b maxsteps possiblestepsize then possiblestepsize
    else selectStepsize a b maxsteps exp rest

/-- Go `Make`: a new range with boundaries rounded at stepsize level.  A negative
`stepsize` asks for an automatic stepsize with at most `-stepsize` steps.  With a
negative `stepsize` and `a = b` the code evaluates `int(math.Log10(0) + 1)`, a
conversion of `-Inf` whose result Go leaves to the implementation: `none`. -/
def Make (a b stepsize : ℚ) (unit : String) : Option DataRange :=
  if stepsize ≥ 0 then
    some (ResetBoundaries { unit := unit, stepsize := stepsize, low := 0, high := 0 } a b)
  else
    let maxsteps := -stepsize
    let delta := if b - a < 0 then -(b - a) else b - a
    let rawstep := delta / maxsteps
    if rawstep = 0 then none
    else
      let exp := intLog10Succ rawstep - 1
      some (ResetBoundaries
        { unit := unit, stepsize := selectStepsize a b maxsteps exp basicstepsizes,
          low := 0, high := 0 } a b)

/-- Go `(*DataRange).Enlarge`: boundaries extended by `coef`; with `coef <= 0` the
zero values of `lb` and `hb` are used. -/
def Enlarge (pdr : DataRange) (coef : ℚ) : DataRange :=
  let lb := if coef > 0 then pdr.low / coef else 0
  let hb := if coef > 0 then pdr.high * coef else 0
  ResetBoundaries pdr lb hb

/-- Go `DataRange.Steps`: the number of steps between the boundaries.  The division by
a zero stepsize gives `+Inf` or NaN, and a quotient of `2^64` or more does not fit a
64-bit `uint`; Go leaves those conversions to the implementation: `none`. -/
def Steps (dr : DataRange) : Option ℕ :=
  if dr.stepsize = 0 then none
  else
    let f := (dr.high - dr.low) / dr.stepsize
    let f := if f < 0 then -f else f
    if f < 2 ^ 64 then some ⌊f⌋₊ else none

/-- Go `DataRange.Delta`: the value between boundaries. -/
def Delta (dr : DataRange) : ℚ :=
  dr.high - dr.low

/-- Go `DataRange.Unit`. -/
def Unit (thisdr : DataRange) : String :=
  thisdr.unit

/-- Go `DataRange.Progress`: the rate of `val` within the range, compared with the low
boundary. -/
def Progress (dr : DataRange) (val : ℚ) : ℚ :=
  let rng := dr.high - dr.low
  if rng > 0 then
    let rate := (val - dr.low) / rng
    if rate < 0 then 0 else if rate > 1 then 1 else rate
  else if val < dr.low then 0
  else if val > dr.high then 1
  else 1 / 2

/-- Go `DataRange.Equal`: the comparison the method body makes. -/
def Equal (thisdr another : DataRange) : Bool :=
  decide (thisdr.low = another.low) && decide (thisdr.high = another.high) &&
    decide (thisdr.stepsize = another.stepsize)

/-- Rounding of a non-negative rational to the nearest natural number, a tie going to
the even neighbour: the rounding `strconv` applies when it cuts a decimal expansion. -/
def roundHalfEven (q : ℚ) : ℕ :=
  let n := ⌊q⌋₊
  let r := q - n
  if r < 1 / 2 then n
  else if r > 1 / 2 then n + 1
  else if n % 2 = 0 then n else n + 1

/-- Go `fmt.Sprintf("%.*f", prec, f)`: fixed-point text of `f` with exactly `prec`
digits after the decimal point, zero-padded, and no point when `prec` is 0. -/
def sprintFixed (prec : ℕ) (f : ℚ) : String :=
  let n := roundHalfEven (|f| * 10 ^ prec)
  let intpart := toString (n / 10 ^ prec)
  let digits := toString (n % 10 ^ prec)
  let body :=
    if prec = 0 then intpart
    else intpart ++ "." ++ "".pushn '0' (prec - digits.length) ++ digits
  if f < 0 then "-" ++ body else body

/-- Go `FormatData`: `f` formatted according to a stepsize.  The text of
`fmt.Sprintf("%v", f)`, produced by the Go library for a zero stepsize, is the
parameter `sprintV`. -/
def FormatData (sprintV : ℚ → String) (f stepsize : ℚ) : String :=
  if stepsize ≠ 0 then sprintFixed (decimals stepsize) f
  else sprintV f

/-- The loop of `ExampleDataRange`, `for y := dr.Low(); y <= dr.High(); y += dr.StepSize()`:
the values of `y` visited, for at most `fuel` iterations. -/
def stepThrough (high stepsize : ℚ) : ℕ → ℚ → List ℚ
  | 0, _ => []
  | fuel + 1, y => if y ≤ high then y :: stepThrough high stepsize fuel (y + stepsize) else []

/-- A rational with a finite decimal expansion: some power of ten clears its fraction. -/
def IsFiniteDecimal (f : ℚ) : Prop :=
  ∃ d : ℕ, (f * 10 ^ d).den = 1

/-- Both boundaries are integer multiples of the stepsize, `low = k * s` and
`high = m * s` with `k ≤ m`. -/
def Aligned (dr : DataRange) : Prop :=
  ∃ k m : ℤ, k ≤ m ∧ dr.low = k * dr.stepsize ∧ dr.high = m * dr.stepsize

/-- The step count of a range is exact: `Steps()` returns a count `n` with
`n * stepsize = high - low`, so `low + n * stepsize = high`, and the loop from `low` by
`stepsize` visits `low, low + stepsize, ...` and ends on `high` after `n + 1` values. -/
def StepsExact (dr : DataRange) : Prop :=
  ∃ n : ℕ, Steps dr = some n ∧ (n : ℚ) * dr.stepsize = dr.high - dr.low ∧
    dr.low + (n : ℚ) * dr.stepsize = dr.high ∧
    ∀ k : ℕ, stepThrough dr.high dr.stepsize (n + 1 + k) dr.low =
      (List.range (n + 1)).map (fun j : ℕ => dr.low + (j : ℚ) * dr.stepsize)

/-- The candidate stepsizes of `Make` in the order the loop tries them:
`basicstepsize * math.Pow(10, exp)` for each entry of `basicstepsizes`. -/
def ladder (exp : ℤ) : List ℚ :=
  basicstepsizes.map (fun basicstepsize => basicstepsize * (10 : ℚ) ^ exp)

/-- The ranges a caller can hold: a result of `Make`, later changed by any number of
calls of `ResetBoundaries` and `Enlarge`. -/
inductive Reachable : DataRange → Prop
  | make {a b stepsize : ℚ} {unit : String} {dr : DataRange} :
      Make a b stepsize unit = some dr → Reachable dr
  | reset {dr : DataRange} (a b : ℚ) : Reachable dr → Reachable (ResetBoundaries dr a b)
  | enlarge {dr : DataRange} (coef : ℚ) : Reachable dr → Reachable (Enlarge dr coef)

/-! ## The float64 model -/

/-- Rounding of a rational to the nearest integer, a tie going to the even neighbour. -/
def roundNearestEven (q : ℚ) : ℤ :=
  let n := ⌊q⌋
  let r := q - n
  if r < 1 / 2 then n
  else if 1 / 2 < r then n + 1
  else if n % 2 = 0 then n else n + 1

/-- Binary64 rounding of a non-negative rational `q`, round to nearest, ties to even:
53 significant bits, the exponent of the last bit never below `-1074` (subnormal
numbers) and not bounded above (overflow is decided by `F64.round`). -/
def flAbs (q : ℚ) : ℚ :=
  (roundNearestEven (q / 2 ^ (max (Int.log 2 q) (-1022) - 52)) : ℚ)
    * 2 ^ (max (Int.log 2 q) (-1022) - 52)

/-- Binary64 rounding of a rational, symmetric in the sign. -/
def fl (q : ℚ) : ℚ :=
  if 0 ≤ q then flAbs q else -flAbs (-q)

/-- The largest finite float64, `(2^53 - 1) * 2^971`. -/
def maxFloat : ℚ := (2 ^ 53 - 1) * 2 ^ 971

/-- A float64 value: a finite number, kept as the rational it denotes (the two zeros
are not told apart), an infinity, or NaN. -/
inductive F64 where
  | fin (q : ℚ)
  | posInf
  | negInf
  | nan
  deriving DecidableEq

namespace F64

/-- The float64 result of an operation whose exact result is `q`: the rounded value,
or an infinity when the rounded value exceeds the largest finite float64. -/
def round (q : ℚ) : F64 :=
  if maxFloat < fl q then posInf
  else if fl q < -maxFloat then negInf
  else fin (fl q)

/-- Go unary `-x`. -/
def neg : F64 → F64
  | fin a => fin (-a)
  | posInf => negInf
  | negInf => posInf
  | nan => nan

/-- Go `x - y`. -/
def sub : F64 → F64 → F64
  | fin a, fin b => round (a - b)
  | fin _, posInf => negInf
  | fin _, negInf => posInf
  | posInf, fin _ => posInf
  | posInf, negInf => posInf
  | negInf, fin _ => negInf
  | negInf, posInf => negInf
  | _, _ => nan

/-- Go `x * y`. -/
def mul : F64 → F64 → F64
  | fin a, fin b => round (a * b)
  | fin a, posInf => if a = 0 then nan else if 0 < a then posInf else negInf
  | fin a, negInf => if a = 0 then nan else if 0 < a then negInf else posInf
  | posInf, fin b => if b = 0 then nan else if 0 < b then posInf else negInf
  | negInf, fin b => if b = 0 then nan else if 0 < b then negInf else posInf
  | posInf, posInf => posInf
  | posInf, negInf => negInf
  | negInf, posInf => negInf
  | negInf, negInf => posInf
  | _, _ => nan

/-- Go `x / y`; a zero divisor is taken as `+0`. -/
def div : F64 → F64 → F64
  | fin a, fin b =>
    if b = 0 then (if a = 0 then nan else if 0 < a then posInf else negInf)
    else round (a / b)
  | fin _, posInf => fin 0
  | fin _, negInf => fin 0
  | posInf, fin b => if 0 ≤ b then posInf else negInf
  | negInf, fin b => if 0 ≤ b then negInf else posInf
  | _, _ => nan

/-- Go `math.Floor`. -/
def floor : F64 → F64
  | fin a => fin ⌊a⌋
  | x => x

/-- Go `math.Ceil`. -/
def ceil : F64 → F64
  | fin a => fin ⌈a⌉
  | x => x

/-- Go `x < y`: false as soon as an operand is NaN. -/
def lt : F64 → F64 → Bool
  | fin a, fin b => decide (a < b)
  | fin _, posInf => true
  | negInf, fin _ => true
  | negInf, posInf => true
  | _, _ => false

/-- Go `x <= y`: false as soon as an operand is NaN. -/
def le : F64 → F64 → Bool
  | fin a, fin b => decide (a ≤ b)
  | fin _, posInf => true
  | negInf, fin _ => true
  | negInf, posInf => true
  | posInf, posInf => true
  | negInf, negInf => true
  | _, _ => false

/-- Go `x == y`: false as soon as an operand is NaN. -/
def eq : F64 → F64 → Bool
  | fin a, fin b => decide (a = b)
  | posInf, posInf => true
  | negInf, negInf => true
  | _, _ => false

end F64

/-- The float64 value of a decimal constant of the Go source or of a test: the float64
nearest to `q`. -/
def lit (q : ℚ) : F64 := F64.round q

/-- The float64 image of `DataRange`. -/
structure DataRange64 where
  /-- define the unit of low and high boundaries. For information -/
  unit : String
  /-- zero means no step size -/
  stepsize : F64
  /-- low boundary -/
  low : F64
  /-- high boundary -/
  high : F64
  deriving DecidableEq

/-- Go `math.Pow(10, e)` for an integer `e`: `+Inf` above `10^308`, zero far below the
subnormal numbers, and the float64 nearest to `10^e` otherwise.  The Go function gives
exactly this for `-22 <= e <= 22`; for the other exponents its last bits may differ,
and the statements below use only that the value is `>= 0`, is finite and `>= 1` for
`0 <= e <= 308`, and is `+Inf` for `e >= 309`. -/
def pow10 (e : ℤ) : F64 :=
  if 308 < e then F64.posInf
  else if e < -400 then F64.fin 0
  else F64.round ((10 : ℚ) ^ e)

/-- Whether a decimal with `d` digits after the point reads back as the float64 `x`: one
of the two neighbours of `x` on the grid of step `10^(-d)` rounds to `x`. -/
def roundTrips (x : ℚ) (d : ℕ) : Bool :=
  decide (fl ((⌊x * 10 ^ d⌋ : ℚ) / 10 ^ d) = x) ||
    decide (fl ((⌈x * 10 ^ d⌉ : ℚ) / 10 ^ d) = x)

/-- Search of the least number of decimals that reads back as `x`. -/
def decimalsFrom64 (x : ℚ) : ℕ → ℕ → ℕ
  | 0, d => d
  | fuel + 1, d => if roundTrips x d then d else decimalsFrom64 x fuel (d + 1)

/-- Go `decimals` on a float64: the number of digits after the decimal point in
`strconv.FormatFloat(f, 'f', -1, 64)`, the shortest decimal text that reads back as
`f`; the texts `+Inf`, `-Inf` and `NaN` have no point. -/
def decimals64 : F64 → ℕ
  | F64.fin x => decimalsFrom64 x 1100 0
  | _ => 0

/-- Go `(*DataRange).ResetBoundaries` in float64 arithmetic. -/
def ResetBoundaries64 (pdr : DataRange64) (a b : F64) : DataRange64 :=
  let low := if F64.lt a b then a else b
  let high := if F64.lt a b then b else a
  if !(F64.eq pdr.stepsize (F64.fin 0)) then
    -- round boundaries
    let low1 := F64.mul (F64.floor (F64.div low pdr.stepsize)) pdr.stepsize
    let high1 := F64.mul (F64.ceil (F64.div high pdr.stepsize)) pdr.stepsize
    -- round decimals to avoid dust
    let ratio := pow10 (decimals64 pdr.stepsize)
    { pdr with
      low := F64.div (F64.floor (F64.mul low1 ratio)) ratio,
      high := F64.div (F64.ceil (F64.mul high1 ratio)) ratio }
  else
    { pdr with low := low, high := high }

/-- Go `float64(int(math.Log10(rawstep)+1) - 1)` as an integer.  For a positive finite
`rawstep` the logarithm and the sum are taken exactly; the float64 program can differ
when `rawstep` is within a few units in the last place of a power of ten, which is the
case of no input evaluated below.  For a zero, infinite or NaN `rawstep` the logarithm
is infinite or NaN, the conversion to `int` gives `-2^63` (amd64 and arm64 for `-Inf`)
and the subtraction wraps to `2^63 - 1`. -/
def exponent64 : F64 → ℤ
  | F64.fin q => if 0 < q then intLog10Succ q - 1 else 2 ^ 63 - 1
  | _ => 2 ^ 63 - 1

/-- The test of the loop body of `Make` in float64 arithmetic. -/
def budgetTest64 (a b maxsteps possiblestepsize : F64) : Bool :=
  let roundeda := F64.mul (F64.floor (F64.div a possiblestepsize)) possiblestepsize
  let roundedb := F64.mul (F64.ceil (F64.div b possiblestepsize)) possiblestepsize
  let roundeddelta := F64.sub roundedb roundeda
  F64.le roundeddelta (F64.mul possiblestepsize maxsteps)

/-- The loop of `Make` in float64 arithmetic: the value of `dr.stepsize` when the loop
is left. -/
def selectStepsize64 (a b maxsteps : F64) (exp : ℤ) : List ℚ → F64
  | [] => F64.fin 0
  | basicstepsize :: rest =>
    let possiblestepsize := F64.mul (F64.fin basicstepsize) (pow10 exp)
    if budgetTest64 a b maxsteps possiblestepsize then possiblestepsize
    else selectStepsize64 a b maxsteps exp rest

/-- Go `Make` in float64 arithmetic. -/
def Make64 (a b stepsize : F64) (unit : String) : DataRange64 :=
  if F64.le (F64.fin 0) stepsize then
    ResetBoundaries64
      { unit := unit, stepsize := stepsize, low := F64.fin 0, high := F64.fin 0 } a b
  else
    let maxsteps := F64.neg stepsize
    let delta := F64.sub b a
    let delta := if F64.lt delta (F64.fin 0) then F64.neg delta else delta
    let rawstep := F64.div delta maxsteps
    let exp := exponent64 rawstep
    ResetBoundaries64
      { unit := unit, stepsize := selectStepsize64 a b maxsteps exp basicstepsizes,
        low := F64.fin 0, high := F64.fin 0 } a b

/-- Go `(*DataRange).Enlarge` in float64 arithmetic. -/
def Enlarge64 (pdr : DataRange64) (coef : F64) : DataRange64 :=
  let lb := if F64.lt (F64.fin 0) coef then F64.div pdr.low coef else F64.fin 0
  let hb := if F64.lt (F64.fin 0) coef then F64.mul pdr.high coef else F64.fin 0
  ResetBoundaries64 pdr lb hb

/-- Go `uint(f)` as the amd64 compiler evaluates it for `f >= 0`: the truncation, and
`2^63` when `f` is NaN, infinite or `2^64` or more. -/
def toUint : F64 → ℕ
  | F64.fin q => if q < 2 ^ 64 then ⌊q⌋₊ else 2 ^ 63
  | _ => 2 ^ 63

/-- Go `DataRange.Steps` in float64 arithmetic. -/
def Steps64 (dr : DataRange64) : ℕ :=
  let f := F64.div (F64.sub dr.high dr.low) dr.stepsize
  let f := if F64.lt f (F64.fin 0) then F64.neg f else f
  toUint f

/-- Go `DataRange.Delta` in float64 arithmetic. -/
def Delta64 (dr : DataRange64) : F64 :=
  F64.sub dr.high dr.low

/-- Go `DataRange.Progress` in float64 arithmetic. -/
def Progress64 (dr : DataRange64) (val : F64) : F64 :=
  let rng := F64.sub dr.high dr.low
  if F64.lt (F64.fin 0) rng then
    let rate := F64.div (F64.sub val dr.low) rng
    if F64.lt rate (F64.fin 0) then F64.fin 0
    else if F64.lt (F64.fin 1) rate then F64.fin 1
    else rate
  else if F64.lt val dr.low then F64.fin 0
  else if F64.lt dr.high val then F64.fin 1
  else F64.fin (1 / 2)

/-- A float64 that is `>= 0`: a finite number `>= 0` or `+Inf`. -/
def F64.IsNonNeg : F64 → Prop
  | F64.fin q => 0 ≤ q
  | F64.posInf => True
  | _ => False

/-- Go `x <= y`, or one of the two is NaN. -/
def F64.LeOrNaN (x y : F64) : Prop :=
  x = F64.nan ∨ y = F64.nan ∨ F64.le x y = true

/-- The ranges a caller can obtain in float64 arithmetic: the results of `Make`, on any
bounds and any directive, and of `ResetBoundaries` and `Enlarge`, with any arguments, on
such a range. -/
inductive Reachable64 : DataRange64 → Prop
  | make (a b stepsize : F64) (unit : String) : Reachable64 (Make64 a b stepsize unit)
  | reset (dr : DataRange64) (a b : F64) :
      Reachable64 dr → Reachable64 (ResetBoundaries64 dr a b)
  | enlarge (dr : DataRange64) (coef : F64) :
      Reachable64 dr → Reachable64 (Enlarge64 dr coef)

/-! ## Evaluation lemmas -/

theorem ceil_eq_neg_floor_neg (x : ℚ) : ⌈x⌉ = -⌊-x⌋ := by
  rw [Int.floor_neg, neg_neg]

theorem intLog10Succ_of_ge {x : ℚ} (k : ℤ) (h0 : 1 / 10 ≤ x) (h1 : (10 : ℚ) ^ k ≤ x)
    (h2 : x < (10 : ℚ) ^ (k + 1)) : intLog10Succ x = k + 1 := by
  have hx : 0 < x := lt_of_lt_of_le (by norm_num) h0
  have hb : 1 < (10 : ℕ) := by norm_num
  have e : Int.log 10 x = k := by
    apply le_antisymm
    · have := (Int.lt_zpow_iff_log_lt hb hx).1 (by exact_mod_cast h2)
      omega
    · exact (Int.zpow_le_iff_le_log hb hx).1 (by exact_mod_cast h1)
  rw [intLog10Succ, if_pos h0, e]

theorem intLog10Succ_of_lt {x : ℚ} (k : ℤ) (hx : 0 < x) (h0 : x < 1 / 10)
    (h1 : (10 : ℚ) ^ (k - 1) < x) (h2 : x ≤ (10 : ℚ) ^ k) : intLog10Succ x = k + 1 := by
  have hb : 1 < (10 : ℕ) := by norm_num
  have e : Int.clog 10 x = k := by
    apply le_antisymm
    · exact (Int.le_zpow_iff_clog_le hb hx).1 (by exact_mod_cast h2)
    · have := (Int.zpow_lt_iff_lt_clog hb hx).1 (by exact_mod_cast h1)
      omega
  rw [intLog10Succ, if_neg (not_le.2 h0), e]

/-! ## Adequacy of `intLog10Succ` -/

theorem zpow_le_cast_iff (x : ℚ) (k : ℤ) : (10 : ℝ) ^ k ≤ (x : ℝ) ↔ (10 : ℚ) ^ k ≤ x := by
  have h : (((10 : ℚ) ^ k : ℚ) : ℝ) = (10 : ℝ) ^ k := by push_cast; rfl
  rw [← h, Rat.cast_le]

theorem cast_le_zpow_iff (x : ℚ) (k : ℤ) : (x : ℝ) ≤ (10 : ℝ) ^ k ↔ x ≤ (10 : ℚ) ^ k := by
  have h : (((10 : ℚ) ^ k : ℚ) : ℝ) = (10 : ℝ) ^ k := by push_cast; rfl
  rw [← h, Rat.cast_le]

theorem Int_log_cast_real (x : ℚ) (hx : 0 < x) : Int.log 10 (x : ℝ) = Int.log 10 x := by
  have hb : 1 < (10 : ℕ) := by norm_num
  have hxr : (0 : ℝ) < x := by exact_mod_cast hx
  apply le_antisymm
  · apply (Int.zpow_le_iff_le_log hb hx).1
    have := Int.zpow_log_le_self hb hxr
    exact (zpow_le_cast_iff x _).1 (by exact_mod_cast this)
  · apply (Int.zpow_le_iff_le_log hb hxr).1
    have := Int.zpow_log_le_self hb hx
    have h2 := (zpow_le_cast_iff x _).2 (by exact_mod_cast this)
    exact_mod_cast h2

theorem Int_clog_cast_real (x : ℚ) (hx : 0 < x) : Int.clog 10 (x : ℝ) = Int.clog 10 x := by
  have hb : 1 < (10 : ℕ) := by norm_num
  have hxr : (0 : ℝ) < x := by exact_mod_cast hx
  apply le_antisymm
  · apply (Int.le_zpow_iff_clog_le hb hxr).1
    have := Int.self_le_zpow_clog hb x
    have h2 := (cast_le_zpow_iff x _).2 (by exact_mod_cast this)
    exact_mod_cast h2
  · apply (Int.le_zpow_iff_clog_le hb hx).1
    have := Int.self_le_zpow_clog hb (x : ℝ)
    exact (cast_le_zpow_iff x _).1 (by exact_mod_cast this)

/-- The integer `intLog10Succ x` is the truncation toward zero of the real number
`log10 x + 1`, which is what `int(math.Log10(x) + 1)` denotes. -/
theorem intLog10Succ_eq_trunc (x : ℚ) (hx : 0 < x) :
    intLog10Succ x =
      if 0 ≤ Real.logb 10 (x : ℝ) + 1 then ⌊Real.logb 10 (x : ℝ) + 1⌋
      else ⌈Real.logb 10 (x : ℝ) + 1⌉ := by
  have hxr : (0 : ℝ) < x := by exact_mod_cast hx
  have hfl : ⌊Real.logb 10 (x : ℝ)⌋ = Int.log 10 x := by
    have := Real.floor_logb_natCast (b := 10) hxr.le
    rw [← Int_log_cast_real x hx, ← this]; norm_num
  have hcl : ⌈Real.logb 10 (x : ℝ)⌉ = Int.clog 10 x := by
    have := Real.ceil_logb_natCast (b := 10) hxr.le
    rw [← Int_clog_cast_real x hx, ← this]; norm_num
  have hiff : 0 ≤ Real.logb 10 (x : ℝ) + 1 ↔ 1 / 10 ≤ x := by
    have h1 : (-1 : ℝ) ≤ Real.logb 10 (x : ℝ) ↔ (10 : ℝ) ^ (-1 : ℝ) ≤ x :=
      Real.le_logb_iff_rpow_le (by norm_num) hxr
    have h2 : (10 : ℝ) ^ (-1 : ℝ) = 1 / 10 := by
      rw [Real.rpow_neg_one]; norm_num
    rw [h2] at h1
    constructor
    · intro h
      have : (1 / 10 : ℝ) ≤ x := h1.1 (by linarith)
      have h3 : ((1 / 10 : ℚ) : ℝ) ≤ x := by push_cast; exact this
      exact Rat.cast_le.1 h3
    · intro h
      have h3 : ((1 / 10 : ℚ) : ℝ) ≤ x := Rat.cast_le.2 h
      have : (1 / 10 : ℝ) ≤ x := by push_cast at h3; exact h3
      linarith [h1.2 this]
  by_cases h : 1 / 10 ≤ x
  · rw [intLog10Succ, if_pos h, if_pos (hiff.2 h), Int.floor_add_one, hfl]
  · rw [intLog10Succ, if_neg h, if_neg (fun h' => h (hiff.1 h')), Int.ceil_add_one, hcl]

/-! ## The number of decimals of a finite decimal -/

theorem den_mul_pow_eq_one_iff (f : ℚ) (d : ℕ) : (f * 10 ^ d).den = 1 ↔ f.den ∣ 10 ^ d := by
  constructor
  · intro h
    have h1 : ((f * 10 ^ d).num : ℚ) = f * 10 ^ d := (Rat.den_eq_one_iff _).1 h
    have h2 : Rat.divInt (f * 10 ^ d).num (10 ^ d) = f := by
      rw [Rat.divInt_eq_div, h1]; push_cast; field_simp
    have h3 := Rat.den_dvd (f * 10 ^ d).num (10 ^ d)
    rw [h2] at h3
    exact_mod_cast h3
  · rintro ⟨c, hc⟩
    have h1 : f * 10 ^ d = ((f.num * c : ℤ) : ℚ) := by
      have : (10 : ℚ) ^ d = (f.den : ℚ) * c := by exact_mod_cast congrArg (Nat.cast : ℕ → ℚ) hc
      rw [this, ← mul_assoc, Rat.mul_den_eq_num]; push_cast; ring
    rw [h1]; exact Rat.den_intCast _

theorem dvd_ten_pow_self {n d : ℕ} (hn : n ≠ 0) (h : n ∣ 10 ^ d) : n ∣ 10 ^ n := by
  rw [← Nat.factorization_le_iff_dvd hn (by positivity)] at h ⊢
  intro p
  have hp := h p
  simp only [Nat.factorization_pow, Finsupp.smul_apply, smul_eq_mul] at hp ⊢
  by_cases h0 : (Nat.factorization 10) p = 0
  · rw [h0] at hp ⊢; exact hp
  · have h1 : n.factorization p < n := Nat.factorization_lt p hn
    calc n.factorization p ≤ n * 1 := by omega
      _ ≤ n * (Nat.factorization 10 p) := Nat.mul_le_mul_left _ (Nat.one_le_iff_ne_zero.2 h0)

theorem decimalsFrom_spec (f : ℚ) : ∀ (fuel d0 : ℕ),
    (∃ d, d0 ≤ d ∧ d ≤ d0 + fuel ∧ (f * 10 ^ d).den = 1) →
    (f * 10 ^ decimalsFrom f fuel d0).den = 1 ∧
      ∀ k, d0 ≤ k → k < decimalsFrom f fuel d0 → (f * 10 ^ k).den ≠ 1 := by
  intro fuel
  induction fuel with
  | zero =>
    rintro d0 ⟨d, h1, h2, h3⟩
    have : d = d0 := by omega
    subst this
    exact ⟨h3, fun k hk hk2 => by simp [decimalsFrom] at hk2; omega⟩
  | succ fuel ih =>
    rintro d0 ⟨d, h1, h2, h3⟩
    by_cases hd : (f * 10 ^ d0).den = 1
    · rw [decimalsFrom, if_pos hd]
      exact ⟨hd, fun k hk hk2 => by omega⟩
    · rw [decimalsFrom, if_neg hd]
      have hne : d ≠ d0 := fun e => hd (e ▸ h3)
      obtain ⟨r1, r2⟩ := ih (d0 + 1) ⟨d, by omega, by omega, h3⟩
      refine ⟨r1, fun k hk hk2 => ?_⟩
      rcases Nat.eq_or_lt_of_le hk with e | e
      · exact e ▸ hd
      · exact r2 k e hk2

theorem decimals_spec {f : ℚ} (h : IsFiniteDecimal f) :
    (f * 10 ^ decimals f).den = 1 ∧ ∀ k, k < decimals f → (f * 10 ^ k).den ≠ 1 := by
  obtain ⟨d, hd⟩ := h
  have h1 : f.den ∣ 10 ^ f.den :=
    dvd_ten_pow_self f.den_nz ((den_mul_pow_eq_one_iff f d).1 hd)
  have h2 := decimalsFrom_spec f f.den 0
    ⟨f.den, Nat.zero_le _, by omega, (den_mul_pow_eq_one_iff f f.den).2 h1⟩
  exact ⟨h2.1, fun k hk => h2.2 k (Nat.zero_le _) hk⟩

theorem exists_int_eq_mul_ratio {f : ℚ} (h : IsFiniteDecimal f) :
    ∃ N : ℤ, f * 10 ^ decimals f = N :=
  ⟨(f * 10 ^ decimals f).num, ((Rat.den_eq_one_iff _).1 (decimals_spec h).1).symm⟩


/-! ## Boundary rounding -/

theorem ite_gt_eq_min (a b : ℚ) : (if b > a then a else b) = min a b := by
  rcases lt_or_le a b with h | h
  · rw [if_pos h, min_eq_left h.le]
  · rw [if_neg (not_lt.2 h), min_eq_right h]

theorem ite_gt_eq_max (a b : ℚ) : (if b > a then b else a) = max a b := by
  rcases lt_or_le a b with h | h
  · rw [if_pos h, max_eq_right h.le]
  · rw [if_neg (not_lt.2 h), max_eq_left h]

theorem ResetBoundaries_stepsize (dr : DataRange) (a b : ℚ) :
    (ResetBoundaries dr a b).stepsize = dr.stepsize := by
  by_cases hs : dr.stepsize ≠ 0
  · simp only [ResetBoundaries, if_pos hs]
  · simp only [ResetBoundaries, if_neg hs]

theorem ResetBoundaries_unit (dr : DataRange) (a b : ℚ) :
    (ResetBoundaries dr a b).unit = dr.unit := by
  by_cases hs : dr.stepsize ≠ 0
  · simp only [ResetBoundaries, if_pos hs]
  · simp only [ResetBoundaries, if_neg hs]

theorem ResetBoundaries_low (dr : DataRange) (a b : ℚ) (hs : dr.stepsize ≠ 0) :
    (ResetBoundaries dr a b).low =
      (⌊(⌊min a b / dr.stepsize⌋ : ℚ) * dr.stepsize * 10 ^ decimals dr.stepsize⌋ : ℚ)
        / 10 ^ decimals dr.stepsize := by
  simp only [ResetBoundaries, ite_gt_eq_min, if_pos hs]

theorem ResetBoundaries_high (dr : DataRange) (a b : ℚ) (hs : dr.stepsize ≠ 0) :
    (ResetBoundaries dr a b).high =
      (⌈(⌈max a b / dr.stepsize⌉ : ℚ) * dr.stepsize * 10 ^ decimals dr.stepsize⌉ : ℚ)
        / 10 ^ decimals dr.stepsize := by
  simp only [ResetBoundaries, ite_gt_eq_max, if_pos hs]

theorem ResetBoundaries_of_stepsize_zero (dr : DataRange) (a b : ℚ) (hs : dr.stepsize = 0) :
    (ResetBoundaries dr a b).low = min a b ∧ (ResetBoundaries dr a b).high = max a b := by
  simp only [ResetBoundaries, ite_gt_eq_min, ite_gt_eq_max, hs, ne_eq, not_true_eq_false,
    if_false, and_self]

/-- The dust cleanup moves neither bound when the stepsize is a finite decimal. -/
theorem ResetBoundaries_exact (dr : DataRange) (a b : ℚ) (hs : dr.stepsize ≠ 0)
    (hd : IsFiniteDecimal dr.stepsize) :
    (ResetBoundaries dr a b).low = (⌊min a b / dr.stepsize⌋ : ℚ) * dr.stepsize ∧
    (ResetBoundaries dr a b).high = (⌈max a b / dr.stepsize⌉ : ℚ) * dr.stepsize := by
  obtain ⟨N, hN⟩ := exists_int_eq_mul_ratio hd
  have hr : (10 : ℚ) ^ decimals dr.stepsize ≠ 0 := by positivity
  constructor
  · rw [ResetBoundaries_low dr a b hs, mul_assoc, hN]
    have : ((⌊min a b / dr.stepsize⌋ : ℚ) * (N : ℚ)) = ((⌊min a b / dr.stepsize⌋ * N : ℤ) : ℚ) := by
      push_cast; ring
    rw [this, Int.floor_intCast]
    push_cast
    rw [← hN]
    field_simp
    ring
  · rw [ResetBoundaries_high dr a b hs, mul_assoc, hN]
    have : ((⌈max a b / dr.stepsize⌉ : ℚ) * (N : ℚ)) = ((⌈max a b / dr.stepsize⌉ * N : ℤ) : ℚ) := by
      push_cast; ring
    rw [this, Int.ceil_intCast]
    push_cast
    rw [← hN]
    field_simp
    ring

theorem ResetBoundaries_low_le_high (dr : DataRange) (a b : ℚ) (hs : 0 ≤ dr.stepsize) :
    (ResetBoundaries dr a b).low ≤ (ResetBoundaries dr a b).high := by
  rcases eq_or_lt_of_le hs with h0 | hpos
  · obtain ⟨h1, h2⟩ := ResetBoundaries_of_stepsize_zero dr a b h0.symm
    rw [h1, h2]; exact min_le_max
  · have hne : dr.stepsize ≠ 0 := ne_of_gt hpos
    have hr : (0 : ℚ) < 10 ^ decimals dr.stepsize := by positivity
    rw [ResetBoundaries_low dr a b hne, ResetBoundaries_high dr a b hne]
    apply div_le_div_of_nonneg_right _ hr.le
    have h1 : (⌊min a b / dr.stepsize⌋ : ℚ) ≤ (⌈max a b / dr.stepsize⌉ : ℚ) :=
      calc (⌊min a b / dr.stepsize⌋ : ℚ) ≤ min a b / dr.stepsize := Int.floor_le _
        _ ≤ max a b / dr.stepsize := div_le_div_of_nonneg_right min_le_max hpos.le
        _ ≤ ⌈max a b / dr.stepsize⌉ := Int.le_ceil _
    calc ((⌊(⌊min a b / dr.stepsize⌋ : ℚ) * dr.stepsize * 10 ^ decimals dr.stepsize⌋ : ℤ) : ℚ)
        ≤ (⌊min a b / dr.stepsize⌋ : ℚ) * dr.stepsize * 10 ^ decimals dr.stepsize :=
          Int.floor_le _
      _ ≤ (⌈max a b / dr.stepsize⌉ : ℚ) * dr.stepsize * 10 ^ decimals dr.stepsize := by
          gcongr
      _ ≤ _ := Int.le_ceil _

theorem ResetBoundaries_comm (dr : DataRange) (a b : ℚ) :
    ResetBoundaries dr a b = ResetBoundaries dr b a := by
  simp only [ResetBoundaries, ite_gt_eq_min, ite_gt_eq_max, min_comm b a, max_comm b a]

/-- With a directive that is not negative the order of the two bounds does not matter. -/
theorem Make_comm_of_nonneg (a b stepsize : ℚ) (unit : String) (h : 0 ≤ stepsize) :
    Make a b stepsize unit = Make b a stepsize unit := by
  simp only [Make, ge_iff_le, if_pos h, ResetBoundaries_comm _ a b]

theorem Enlarge_stepsize (dr : DataRange) (coef : ℚ) :
    (Enlarge dr coef).stepsize = dr.stepsize :=
  ResetBoundaries_stepsize dr _ _


/-! ## The automatic stepsize -/

theorem selectStepsize_eq_find (a b maxsteps : ℚ) (exp : ℤ) (l : List ℚ) :
    selectStepsize a b maxsteps exp l =
      ((l.map (fun basicstepsize => basicstepsize * (10 : ℚ) ^ exp)).find?
        (budgetTest a b maxsteps)).getD 0 := by
  induction l with
  | nil => rfl
  | cons x xs ih =>
    by_cases h : budgetTest a b maxsteps (x * (10 : ℚ) ^ exp) = true
    · simp [selectStepsize, List.find?, h]
    · simp [selectStepsize, List.find?, h, ih]

theorem selectStepsize_mem (a b maxsteps : ℚ) (exp : ℤ) (l : List ℚ) :
    selectStepsize a b maxsteps exp l = 0 ∨
      ∃ m ∈ l, selectStepsize a b maxsteps exp l = m * (10 : ℚ) ^ exp := by
  induction l with
  | nil => exact Or.inl rfl
  | cons x xs ih =>
    by_cases h : budgetTest a b maxsteps (x * (10 : ℚ) ^ exp) = true
    · right
      exact ⟨x, List.mem_cons_self _ _, by simp [selectStepsize, h]⟩
    · rcases ih with h0 | ⟨m, hm, e⟩
      · left; simp [selectStepsize, h, h0]
      · right
        exact ⟨m, List.mem_cons_of_mem _ hm, by simp [selectStepsize, h, e]⟩

theorem selectStepsize_nonneg (a b maxsteps : ℚ) (exp : ℤ) :
    0 ≤ selectStepsize a b maxsteps exp basicstepsizes := by
  rcases selectStepsize_mem a b maxsteps exp basicstepsizes with h | ⟨m, hm, e⟩
  · exact h.ge
  · rw [e]
    have hm0 : 0 ≤ m := by
      simp only [basicstepsizes, List.mem_cons, List.mem_singleton, List.not_mem_nil,
        or_false] at hm
      rcases hm with h | h | h | h | h | h <;> rw [h] <;> norm_num
    have : (0 : ℚ) < 10 ^ exp := by positivity
    positivity

theorem abs_delta (a b : ℚ) : (if b - a < 0 then -(b - a) else b - a) = |b - a| := by
  split
  · next h => rw [abs_of_neg h]
  · next h => rw [abs_of_nonneg (not_lt.1 h)]

theorem Make_eq_some (a b stepsize : ℚ) (unit : String) (dr : DataRange)
    (h : Make a b stepsize unit = some dr) :
    ∃ s : ℚ, 0 ≤ s ∧ dr = ResetBoundaries { unit := unit, stepsize := s, low := 0, high := 0 } a b := by
  by_cases hs : stepsize ≥ 0
  · simp only [Make, if_pos hs] at h
    exact ⟨stepsize, hs, (Option.some.inj h).symm⟩
  · simp only [Make, if_neg hs, abs_delta] at h
    by_cases hr : |b - a| / -stepsize = 0
    · rw [if_pos hr] at h
      exact absurd h (by simp)
    · rw [if_neg hr] at h
      exact ⟨_, selectStepsize_nonneg _ _ _ _, (Option.some.inj h).symm⟩

theorem Make_stepsize_nonneg (a b stepsize : ℚ) (unit : String) (dr : DataRange)
    (h : Make a b stepsize unit = some dr) : 0 ≤ dr.stepsize := by
  obtain ⟨s, hs, e⟩ := Make_eq_some a b stepsize unit dr h
  rw [e, ResetBoundaries_stepsize]; exact hs

theorem selectStepsize_eq_ladder (a b maxsteps : ℚ) (exp : ℤ) :
    selectStepsize a b maxsteps exp basicstepsizes =
      ((ladder exp).find? (budgetTest a b maxsteps)).getD 0 :=
  selectStepsize_eq_find a b maxsteps exp basicstepsizes

theorem Make_neg (a b maxsteps : ℚ) (unit : String) (hab : a ≠ b) (hM : 0 < maxsteps) :
    Make a b (-maxsteps) unit = some (ResetBoundaries
      { unit := unit,
        stepsize := selectStepsize a b maxsteps (intLog10Succ (|b - a| / maxsteps) - 1)
          basicstepsizes,
        low := 0, high := 0 } a b) := by
  have hneg : ¬ (-maxsteps ≥ 0) := by
    intro h; linarith
  have hne : |b - a| / maxsteps ≠ 0 :=
    div_ne_zero (abs_ne_zero.2 (sub_ne_zero.2 (Ne.symm hab))) (ne_of_gt hM)
  simp only [Make, if_neg hneg, abs_delta, neg_neg, if_neg hne]

/-- The function `Make` returns a range whenever the directive is not negative or the
bounds differ. -/
theorem Make_isSome (a b stepsize : ℚ) (unit : String) (h : 0 ≤ stepsize ∨ a ≠ b) :
    ∃ dr, Make a b stepsize unit = some dr := by
  by_cases hs : stepsize ≥ 0
  · simp only [Make, if_pos hs]; exact ⟨_, rfl⟩
  · have hab : a ≠ b := h.resolve_left hs
    have hne : |b - a| / -stepsize ≠ 0 :=
      div_ne_zero (abs_ne_zero.2 (sub_ne_zero.2 (Ne.symm hab)))
        (neg_ne_zero.2 (ne_of_lt (not_le.1 hs)))
    simp only [Make, if_neg hs, abs_delta, if_neg hne]
    exact ⟨_, rfl⟩

theorem Reachable_stepsize_nonneg {dr : DataRange} (h : Reachable dr) : 0 ≤ dr.stepsize := by
  induction h with
  | make h => exact Make_stepsize_nonneg _ _ _ _ _ h
  | reset a b _ ih => rw [ResetBoundaries_stepsize]; exact ih
  | enlarge coef _ ih => rw [Enlarge_stepsize]; exact ih

theorem Reachable_low_le_high {dr : DataRange} (h : Reachable dr) : dr.low ≤ dr.high := by
  cases h with
  | make h =>
    obtain ⟨s, hs, e⟩ := Make_eq_some _ _ _ _ _ h
    rw [e]; exact ResetBoundaries_low_le_high _ _ _ hs
  | reset a b h => exact ResetBoundaries_low_le_high _ _ _ (Reachable_stepsize_nonneg h)
  | enlarge coef h => exact ResetBoundaries_low_le_high _ _ _ (Reachable_stepsize_nonneg h)


theorem isFiniteDecimal_mul_zpow (m : ℚ) (exp : ℤ) (hm : (m * 10).den = 1) :
    IsFiniteDecimal (m * (10 : ℚ) ^ exp) := by
  obtain ⟨N, hN⟩ : ∃ N : ℤ, m * 10 = N := ⟨_, ((Rat.den_eq_one_iff _).1 hm).symm⟩
  refine ⟨1 + (-exp).toNat, ?_⟩
  have h10 : (10 : ℚ) ≠ 0 := by norm_num
  have e : m * (10 : ℚ) ^ exp * 10 ^ (1 + (-exp).toNat)
      = ((N * 10 ^ (exp + (-exp).toNat).toNat : ℤ) : ℚ) := by
    have hnn : 0 ≤ exp + ((-exp).toNat : ℤ) := by
      have := Int.self_le_toNat (-exp); omega
    have h1 : ((10 : ℚ) ^ (exp + (-exp).toNat).toNat) = (10 : ℚ) ^ (exp + ((-exp).toNat : ℤ)) := by
      rw [← zpow_natCast, Int.toNat_of_nonneg hnn]
    push_cast
    rw [h1, zpow_add₀ h10, zpow_natCast, pow_add, pow_one, ← hN]
    ring
  rw [e]; exact Rat.den_intCast _

theorem selectStepsize_isFiniteDecimal (a b maxsteps : ℚ) (exp : ℤ) :
    IsFiniteDecimal (selectStepsize a b maxsteps exp basicstepsizes) := by
  rcases selectStepsize_mem a b maxsteps exp basicstepsizes with h | ⟨m, hm, e⟩
  · rw [h]; exact ⟨0, by norm_num⟩
  · rw [e]
    apply isFiniteDecimal_mul_zpow
    simp only [basicstepsizes, List.mem_cons, List.mem_singleton, List.not_mem_nil,
      or_false] at hm
    rcases hm with h | h | h | h | h | h <;> rw [h] <;> norm_num

theorem ResetBoundaries_aligned (dr : DataRange) (a b : ℚ) (hs : 0 < dr.stepsize)
    (hd : IsFiniteDecimal dr.stepsize) : Aligned (ResetBoundaries dr a b) := by
  obtain ⟨h1, h2⟩ := ResetBoundaries_exact dr a b (ne_of_gt hs) hd
  refine ⟨⌊min a b / dr.stepsize⌋, ⌈max a b / dr.stepsize⌉, ?_, ?_, ?_⟩
  · have : (⌊min a b / dr.stepsize⌋ : ℚ) ≤ (⌈max a b / dr.stepsize⌉ : ℚ) :=
      calc (⌊min a b / dr.stepsize⌋ : ℚ) ≤ min a b / dr.stepsize := Int.floor_le _
        _ ≤ max a b / dr.stepsize := div_le_div_of_nonneg_right min_le_max hs.le
        _ ≤ ⌈max a b / dr.stepsize⌉ := Int.le_ceil _
    exact_mod_cast this
  · rw [h1, ResetBoundaries_stepsize]
  · rw [h2, ResetBoundaries_stepsize]

/-! ## The step budget on sorted bounds -/

theorem budgetTest_iff (a b maxsteps c : ℚ) :
    budgetTest a b maxsteps c = true ↔
      (⌈b / c⌉ : ℚ) * c - (⌊a / c⌋ : ℚ) * c ≤ c * maxsteps := by
  simp only [budgetTest, ge_iff_le, decide_eq_true_eq]

theorem lt_ten_mul_zpow_exp (x : ℚ) :
    x < 10 * (10 : ℚ) ^ (intLog10Succ x - 1) := by
  have hb : 1 < (10 : ℕ) := by norm_num
  have h10 : (10 : ℚ) ≠ 0 := by norm_num
  by_cases h : 1 / 10 ≤ x
  · have h1 := Int.lt_zpow_succ_log_self hb x
    rw [intLog10Succ, if_pos h, add_sub_cancel_right]
    rw [zpow_add_one₀ (by exact_mod_cast h10)] at h1
    calc x < ((10 : ℕ) : ℚ) ^ Int.log 10 x * ((10 : ℕ) : ℚ) := h1
      _ = 10 * (10 : ℚ) ^ Int.log 10 x := by push_cast; ring
  · have h1 := Int.self_le_zpow_clog hb x
    rw [intLog10Succ, if_neg h, add_sub_cancel_right]
    have hp : (0 : ℚ) < (10 : ℚ) ^ Int.clog 10 x := by positivity
    calc x ≤ ((10 : ℕ) : ℚ) ^ Int.clog 10 x := h1
      _ = (10 : ℚ) ^ Int.clog 10 x := by push_cast; rfl
      _ < 10 * (10 : ℚ) ^ Int.clog 10 x := by linarith

/-- With sorted bounds `a < b` and a budget of at least 2.5 steps the last candidate of
the ladder, `50 x 10^exp`, passes the budget test. -/
theorem last_candidate_passes (a b maxsteps : ℚ) (hab : a < b) (hM : 5 / 2 ≤ maxsteps) :
    budgetTest a b maxsteps (50 * (10 : ℚ) ^ (intLog10Succ (|b - a| / maxsteps) - 1)) = true := by
  have hMpos : 0 < maxsteps := by linarith
  have hd : |b - a| = b - a := abs_of_pos (sub_pos.2 hab)
  have hlt := lt_ten_mul_zpow_exp (|b - a| / maxsteps)
  set p : ℚ := (10 : ℚ) ^ (intLog10Succ (|b - a| / maxsteps) - 1) with hp
  have hppos : 0 < p := by rw [hp]; positivity
  have hc : (0 : ℚ) < 50 * p := by positivity
  rw [budgetTest_iff]
  have h1 : (⌈b / (50 * p)⌉ : ℚ) * (50 * p) < b + 50 * p := by
    have := Int.ceil_lt_add_one (b / (50 * p))
    calc (⌈b / (50 * p)⌉ : ℚ) * (50 * p) < (b / (50 * p) + 1) * (50 * p) :=
          mul_lt_mul_of_pos_right this hc
      _ = b + 50 * p := by field_simp
  have h2 : a - 50 * p < (⌊a / (50 * p)⌋ : ℚ) * (50 * p) := by
    have := Int.sub_one_lt_floor (a / (50 * p))
    calc a - 50 * p = (a / (50 * p) - 1) * (50 * p) := by field_simp
      _ < (⌊a / (50 * p)⌋ : ℚ) * (50 * p) := mul_lt_mul_of_pos_right this hc
  have h3 : b - a < 10 * p * maxsteps := by
    have := (div_lt_iff₀ hMpos).1 hlt
    rw [hd] at this
    exact this
  nlinarith [mul_pos hppos hMpos]

theorem exists_candidate_passes (a b maxsteps : ℚ) (hab : a < b) (hM : 5 / 2 ≤ maxsteps) :
    ∃ c ∈ ladder (intLog10Succ (|b - a| / maxsteps) - 1), budgetTest a b maxsteps c = true :=
  ⟨_, by simp [ladder, basicstepsizes], last_candidate_passes a b maxsteps hab hM⟩

theorem ladder_pos (exp : ℤ) (c : ℚ) (hc : c ∈ ladder exp) : 0 < c := by
  simp only [ladder, basicstepsizes, List.map_cons, List.map_nil, List.mem_cons,
    List.mem_singleton, List.not_mem_nil, or_false] at hc
  have : (0 : ℚ) < 10 ^ exp := by positivity
  rcases hc with h | h | h | h | h | h <;> rw [h] <;> positivity

theorem selectStepsize_of_pass (a b maxsteps : ℚ) (exp : ℤ)
    (hpass : ∃ c ∈ ladder exp, budgetTest a b maxsteps c = true) :
    ∃ c ∈ ladder exp, budgetTest a b maxsteps c = true ∧
      (ladder exp).find? (budgetTest a b maxsteps) = some c ∧
      selectStepsize a b maxsteps exp basicstepsizes = c := by
  cases hf : (ladder exp).find? (budgetTest a b maxsteps) with
  | none =>
    obtain ⟨c, hc, hp⟩ := hpass
    exact absurd hp (List.find?_eq_none.1 hf c hc)
  | some c =>
    refine ⟨c, List.mem_of_find?_eq_some hf, List.find?_some hf, rfl, ?_⟩
    rw [selectStepsize_eq_ladder, hf]; rfl

/-- With sorted bounds `a < b`, a budget `1 <= maxSteps < 2^64` and a candidate that
passes the budget test, the range `Make(a, b, -maxSteps, unit)` has a step count that
is `> 0` and `<= maxSteps`. -/
theorem Make_steps_within_budget (a b maxsteps : ℚ) (unit : String) (hab : a < b)
    (hM : 1 ≤ maxsteps) (hM2 : maxsteps < 2 ^ 64)
    (hpass : ∃ c ∈ ladder (intLog10Succ (|b - a| / maxsteps) - 1),
      budgetTest a b maxsteps c = true) :
    ∃ dr n, Make a b (-maxsteps) unit = some dr ∧ Steps dr = some n ∧
      0 < n ∧ (n : ℚ) ≤ maxsteps := by
  obtain ⟨c, hc, htest, -, hsel⟩ := selectStepsize_of_pass a b maxsteps _ hpass
  have hcpos : 0 < c := ladder_pos _ c hc
  have hcne : c ≠ 0 := ne_of_gt hcpos
  have hfd : IsFiniteDecimal c := hsel ▸ selectStepsize_isFiniteDecimal a b maxsteps _
  have hmk := Make_neg a b maxsteps unit (ne_of_lt hab) (by linarith)
  rw [hsel] at hmk
  obtain ⟨hlow, hhigh⟩ := ResetBoundaries_exact
    { unit := unit, stepsize := c, low := 0, high := 0 } a b hcne hfd
  simp only [min_eq_left hab.le, max_eq_right hab.le] at hlow hhigh
  have hK : (1 : ℤ) ≤ ⌈b / c⌉ - ⌊a / c⌋ := by
    have h1 : (⌊a / c⌋ : ℚ) < (⌈b / c⌉ : ℚ) :=
      calc (⌊a / c⌋ : ℚ) ≤ a / c := Int.floor_le _
        _ < b / c := div_lt_div_of_pos_right hab hcpos
        _ ≤ ⌈b / c⌉ := Int.le_ceil _
    have h2 : ⌊a / c⌋ < ⌈b / c⌉ := by exact_mod_cast h1
    omega
  have hKM : ((⌈b / c⌉ - ⌊a / c⌋ : ℤ) : ℚ) ≤ maxsteps := by
    have h := (budgetTest_iff a b maxsteps c).1 htest
    have h' : ((⌈b / c⌉ : ℚ) - (⌊a / c⌋ : ℚ)) * c ≤ maxsteps * c := by linarith
    have := le_of_mul_le_mul_right h' hcpos
    push_cast; exact this
  have hf : ((ResetBoundaries { unit := unit, stepsize := c, low := 0, high := 0 } a b).high
      - (ResetBoundaries { unit := unit, stepsize := c, low := 0, high := 0 } a b).low)
      / (ResetBoundaries { unit := unit, stepsize := c, low := 0, high := 0 } a b).stepsize
      = ((⌈b / c⌉ - ⌊a / c⌋ : ℤ) : ℚ) := by
    rw [hlow, hhigh, ResetBoundaries_stepsize]
    push_cast
    field_simp
    ring
  have hnn : ¬ (((⌈b / c⌉ - ⌊a / c⌋ : ℤ) : ℚ) < 0) := by
    have : (0 : ℚ) ≤ ((⌈b / c⌉ - ⌊a / c⌋ : ℤ) : ℚ) := by exact_mod_cast (by omega : (0 : ℤ) ≤ _)
    exact not_lt.2 this
  refine ⟨_, (⌈b / c⌉ - ⌊a / c⌋).toNat, hmk, ?_, ?_, ?_⟩
  · have hs : (ResetBoundaries { unit := unit, stepsize := c, low := 0, high := 0 } a b).stepsize
        ≠ 0 := by rw [ResetBoundaries_stepsize]; exact hcne
    simp only [Steps, if_neg hs, hf, if_neg hnn, if_pos (lt_of_le_of_lt hKM hM2)]
    rw [← Int.floor_toNat, Int.floor_intCast]
  · omega
  · have : (((⌈b / c⌉ - ⌊a / c⌋).toNat : ℤ) : ℚ) = ((⌈b / c⌉ - ⌊a / c⌋ : ℤ) : ℚ) := by
      rw [Int.toNat_of_nonneg (by omega)]
    calc (((⌈b / c⌉ - ⌊a / c⌋).toNat : ℕ) : ℚ) = (((⌈b / c⌉ - ⌊a / c⌋).toNat : ℤ) : ℚ) := by
          push_cast; rfl
      _ = ((⌈b / c⌉ - ⌊a / c⌋ : ℤ) : ℚ) := this
      _ ≤ maxsteps := hKM

/-- With sorted bounds `a < b` and a budget `2.5 <= maxSteps < 2^64` the range
`Make(a, b, -maxSteps, unit)` is returned with a step count `> 0` and `<= maxSteps`. -/
theorem Make_steps_within_budget_of_sorted (a b maxsteps : ℚ) (unit : String) (hab : a < b)
    (hM : 5 / 2 ≤ maxsteps) (hM2 : maxsteps < 2 ^ 64) :
    ∃ dr n, Make a b (-maxsteps) unit = some dr ∧ Steps dr = some n ∧
      0 < n ∧ (n : ℚ) ≤ maxsteps :=
  Make_steps_within_budget a b maxsteps unit hab (by linarith) hM2
    (exists_candidate_passes a b maxsteps hab hM)

/-! ## Claims -/

/-- C1 (the code breaks the step budget): `Make(80, 60, -10, "fuzz")` and the seed
`(8.0, -2.0, 10.0)` of `FuzzBuildAutoStepsize`, that is `Make(8, 6, -10, "fuzz")`, both
have 20 steps, twice the budget of 10: with `a > b` the loop of `Make` rounds the
unsorted bounds, the rounded delta is negative and the first candidate passes. -/
theorem C1_steps_exceed_budget :
    (Make 80 60 (-10) "fuzz").bind Steps = some 20 ∧
    (Make 8 6 (-10) "fuzz").bind Steps = some 20 := by
  have e1 : intLog10Succ (2 : ℚ) = 0 + 1 :=
    intLog10Succ_of_ge 0 (by norm_num) (by norm_num) (by norm_num)
  have e2 : intLog10Succ (1 / 5 : ℚ) = -1 + 1 :=
    intLog10Succ_of_ge (-1) (by norm_num) (by norm_num) (by norm_num)
  constructor
  · norm_num [Make, e1, selectStepsize, budgetTest, basicstepsizes, ResetBoundaries, decimals,
      decimalsFrom, ceil_eq_neg_floor_neg, Steps, ← Int.floor_toNat]
    rfl
  · norm_num [Make, e2, selectStepsize, budgetTest, basicstepsizes, ResetBoundaries, decimals,
      decimalsFrom, ceil_eq_neg_floor_neg, Steps, ← Int.floor_toNat]
    rfl

/-- C2 (the code depends on the order of the bounds): `Make(60, 80, -10, u)` selects the
stepsize 2.5 while `Make(80, 60, -10, u)` selects the stepsize 1, for the same
boundaries 60 and 80. -/
theorem C2_order_changes_stepsize (u : String) :
    Make 60 80 (-10) u = some { unit := u, stepsize := 5 / 2, low := 60, high := 80 } ∧
    Make 80 60 (-10) u = some { unit := u, stepsize := 1, low := 60, high := 80 } := by
  have e1 : intLog10Succ (2 : ℚ) = 0 + 1 :=
    intLog10Succ_of_ge 0 (by norm_num) (by norm_num) (by norm_num)
  constructor <;>
    norm_num [Make, e1, selectStepsize, budgetTest, basicstepsizes, ResetBoundaries, decimals,
      decimalsFrom, ceil_eq_neg_floor_neg]

/-- C3 (the code has no fallback): for `Make(-1, 1, -1, u)` none of the six candidates
1, 2.5, 5, 10, 25, 50 passes the budget test, and the range is returned with the
stepsize left at zero and the raw bounds unrounded. -/
theorem C3_stepsize_left_at_zero (u : String) :
    (∀ c ∈ ladder (intLog10Succ ((1 - (-1)) / 1) - 1), budgetTest (-1) 1 1 c = false) ∧
    Make (-1) 1 (-1) u = some { unit := u, stepsize := 0, low := -1, high := 1 } := by
  have e1 : intLog10Succ (2 : ℚ) = 0 + 1 :=
    intLog10Succ_of_ge 0 (by norm_num) (by norm_num) (by norm_num)
  constructor
  · norm_num [e1, ladder, basicstepsizes, budgetTest, ceil_eq_neg_floor_neg]
  · norm_num [Make, e1, selectStepsize, budgetTest, basicstepsizes, ResetBoundaries,
      ceil_eq_neg_floor_neg]

/-- Without rounding the bounds are aligned on the stepsize: in exact arithmetic, for a
range whose stepsize `s` is a positive finite decimal, after `ResetBoundaries(a, b)`,
after `Enlarge(coef)` and when the range is itself the result of `Make`, `low = k*s` and
`high = m*s` for integers `k <= m`.  The float64 program does not keep this alignment. -/
theorem exact_alignment_invariant (dr : DataRange) (a b coef : ℚ) (hs : 0 < dr.stepsize)
    (hd : IsFiniteDecimal dr.stepsize) :
    Aligned (ResetBoundaries dr a b) ∧ Aligned (Enlarge dr coef) ∧
    (∀ (stepsize : ℚ) (unit : String), Make a b stepsize unit = some dr → Aligned dr) := by
  refine ⟨ResetBoundaries_aligned dr a b hs hd, ResetBoundaries_aligned dr _ _ hs hd, ?_⟩
  intro stepsize unit h
  obtain ⟨s, _, e⟩ := Make_eq_some a b stepsize unit dr h
  have es : s = dr.stepsize := by rw [e, ResetBoundaries_stepsize]
  rw [e]
  exact ResetBoundaries_aligned _ a b (by rw [es]; exact hs) (by rw [es]; exact hd)

/-- Without rounding the dust cleanup moves neither bound: in exact arithmetic, for a
stepsize `s > 0` that is a finite decimal, after `ResetBoundaries(a, b)`
`low = floor(min(a,b)/s)*s` and `high = ceil(max(a,b)/s)*s`; `low` is the greatest
integer multiple of `s` that is `<= min(a, b)`, `high` is the least integer multiple of
`s` that is `>= max(a, b)`, and the range contains both `a` and `b`.  In the float64
program the cleanup can move a bound by a whole step. -/
theorem exact_boundary_rounding (dr : DataRange) (a b : ℚ) (hs : 0 < dr.stepsize)
    (hd : IsFiniteDecimal dr.stepsize) :
    (ResetBoundaries dr a b).low = (⌊min a b / dr.stepsize⌋ : ℚ) * dr.stepsize ∧
    (ResetBoundaries dr a b).high = (⌈max a b / dr.stepsize⌉ : ℚ) * dr.stepsize ∧
    (ResetBoundaries dr a b).low ≤ min a b ∧
    (∀ k : ℤ, (k : ℚ) * dr.stepsize ≤ min a b →
      (k : ℚ) * dr.stepsize ≤ (ResetBoundaries dr a b).low) ∧
    max a b ≤ (ResetBoundaries dr a b).high ∧
    (∀ m : ℤ, max a b ≤ (m : ℚ) * dr.stepsize →
      (ResetBoundaries dr a b).high ≤ (m : ℚ) * dr.stepsize) ∧
    ((ResetBoundaries dr a b).low ≤ a ∧ a ≤ (ResetBoundaries dr a b).high) ∧
    ((ResetBoundaries dr a b).low ≤ b ∧ b ≤ (ResetBoundaries dr a b).high) := by
  obtain ⟨h1, h2⟩ := ResetBoundaries_exact dr a b (ne_of_gt hs) hd
  have hlo : (⌊min a b / dr.stepsize⌋ : ℚ) * dr.stepsize ≤ min a b :=
    (le_div_iff₀ hs).1 (Int.floor_le _)
  have hhi : max a b ≤ (⌈max a b / dr.stepsize⌉ : ℚ) * dr.stepsize :=
    (div_le_iff₀ hs).1 (Int.le_ceil _)
  rw [h1, h2]
  refine ⟨rfl, rfl, hlo, ?_, hhi, ?_, ⟨?_, ?_⟩, ⟨?_, ?_⟩⟩
  · intro k hk
    have : k ≤ ⌊min a b / dr.stepsize⌋ := Int.le_floor.2 ((le_div_iff₀ hs).2 hk)
    exact mul_le_mul_of_nonneg_right (by exact_mod_cast this) hs.le
  · intro m hm
    have : ⌈max a b / dr.stepsize⌉ ≤ m := Int.ceil_le.2 ((div_le_iff₀ hs).2 hm)
    exact mul_le_mul_of_nonneg_right (by exact_mod_cast this) hs.le
  · exact hlo.trans (min_le_left _ _)
  · exact (le_max_left _ _).trans hhi
  · exact hlo.trans (min_le_right _ _)
  · exact (le_max_right _ _).trans hhi

/-- C7: with a stepsize directive of exactly 0 nothing is rounded: for all `a`, `b`,
`Make(a, b, 0, unit)` has stepsize 0, `low = min(a, b)` and `high = max(a, b)`. -/
theorem C7_zero_directive_no_rounding (a b : ℚ) (unit : String) :
    Make a b 0 unit = some { unit := unit, stepsize := 0, low := min a b, high := max a b } := by
  rcases lt_or_le a b with h | h
  · simp [Make, ResetBoundaries, h, min_eq_left h.le, max_eq_right h.le]
  · simp [Make, ResetBoundaries, not_lt.2 h, min_eq_right h, max_eq_left h]

/-- C8 (the claim as stated fails): for `a = 10.123456` and `b = 100.98765` none of the
four pairs `(low, high)` of `TestNew` is the one `Make` returns: not `(10.1, 101)` for
the directive 1, not `(10, 110)` for -1, not `(10.123, 100.988)` for 3 and not
`(10, 101)` for 0. -/
theorem C8_TestNew_values_refuted :
    (Make 10.123456 100.98765 1 "meter").map (fun dr => (dr.low, dr.high)) ≠ some (10.1, 101) ∧
    (Make 10.123456 100.98765 (-1) "meter").map (fun dr => (dr.low, dr.high)) ≠ some (10, 110) ∧
    (Make 10.123456 100.98765 3 "meter").map (fun dr => (dr.low, dr.high))
      ≠ some (10.123, 100.988) ∧
    (Make 10.123456 100.98765 0 "meter").map (fun dr => (dr.low, dr.high)) ≠ some (10, 101) := by
  have e : intLog10Succ (45432097 / 500000 : ℚ) = 1 + 1 :=
    intLog10Succ_of_ge 1 (by norm_num) (by norm_num) (by norm_num)
  refine ⟨?_, ?_, ?_, ?_⟩
  · norm_num [Make, ResetBoundaries, decimals, decimalsFrom, ceil_eq_neg_floor_neg]
  · norm_num [Make, e, selectStepsize, budgetTest, basicstepsizes, ResetBoundaries, decimals,
      decimalsFrom, ceil_eq_neg_floor_neg]
  · norm_num [Make, ResetBoundaries, decimals, decimalsFrom, ceil_eq_neg_floor_neg]
  · norm_num [Make, ResetBoundaries]

/-- C8 (amended): for `a = 10.123456` and `b = 100.98765`, `Make(a, b, 1, "meter")` has
low 10 and high 101; `Make(a, b, -1, "meter")` has stepsize 250, low 0 and high 250;
`Make(a, b, 3, "meter")` has low 9 and high 102; `Make(a, b, 0, "meter")` has the raw
bounds, low 10.123456 and high 100.98765. -/
theorem C8_TestNew_values_of_code :
    Make 10.123456 100.98765 1 "meter"
      = some { unit := "meter", stepsize := 1, low := 10, high := 101 } ∧
    Make 10.123456 100.98765 (-1) "meter"
      = some { unit := "meter", stepsize := 250, low := 0, high := 250 } ∧
    Make 10.123456 100.98765 3 "meter"
      = some { unit := "meter", stepsize := 3, low := 9, high := 102 } ∧
    Make 10.123456 100.98765 0 "meter"
      = some { unit := "meter", stepsize := 0, low := 10.123456, high := 100.98765 } := by
  have e : intLog10Succ (45432097 / 500000 : ℚ) = 1 + 1 :=
    intLog10Succ_of_ge 1 (by norm_num) (by norm_num) (by norm_num)
  refine ⟨?_, ?_, ?_, ?_⟩
  · norm_num [Make, ResetBoundaries, decimals, decimalsFrom, ceil_eq_neg_floor_neg]
  · norm_num [Make, e, selectStepsize, budgetTest, basicstepsizes, ResetBoundaries, decimals,
      decimalsFrom, ceil_eq_neg_floor_neg]
  · norm_num [Make, ResetBoundaries, decimals, decimalsFrom, ceil_eq_neg_floor_neg]
  · norm_num [Make, ResetBoundaries]

/-- C9: `Make(25.56, 10850.12, -10, "amount")` has stepsize 2500, low 0 and high 12500,
and the loop from low to high in increments of the stepsize visits exactly the 6
values 0, 2500, 5000, 7500, 10000, 12500, whatever the number of iterations allowed
beyond 6. -/
theorem C9_automatic_scale_example (n : ℕ) :
    Make 25.56 10850.12 (-10) "amount"
      = some { unit := "amount", stepsize := 2500, low := 0, high := 12500 } ∧
    stepThrough 12500 2500 (n + 6) 0 = [0, 2500, 5000, 7500, 10000, 12500] := by
  have e : intLog10Succ (135307 / 125 : ℚ) = 3 + 1 :=
    intLog10Succ_of_ge 3 (by norm_num) (by norm_num) (by norm_num)
  constructor
  · norm_num [Make, e, selectStepsize, budgetTest, basicstepsizes, ResetBoundaries, decimals,
      decimalsFrom, ceil_eq_neg_floor_neg]
  · cases n <;> norm_num [stepThrough]

/-- Without rounding the automatic stepsize is a nice number: in exact arithmetic, for
`a != b` and `maxSteps >= 1` such that some candidate of the ladder
`{1, 2.5, 5, 10, 25, 50} x 10^exp` passes the budget test, `Make(a, b, -maxSteps, unit)`
returns a range whose stepsize is the first candidate of the ascending ladder that
passes the test, and equals `m x 10^k` for some `m` in `{1, 2.5, 5}` and some integer
`k`.  In the float64 program the product `2.5 * math.Pow(10, exp)` is rounded. -/
theorem exact_nice_stepsize (a b maxsteps : ℚ) (unit : String) (hab : a ≠ b)
    (hM : 1 ≤ maxsteps)
    (hpass : ∃ c ∈ ladder (intLog10Succ (|b - a| / maxsteps) - 1),
      budgetTest a b maxsteps c = true) :
    ∃ dr, Make a b (-maxsteps) unit = some dr ∧
      (ladder (intLog10Succ (|b - a| / maxsteps) - 1)).find? (budgetTest a b maxsteps)
        = some dr.stepsize ∧
      ∃ (m : ℚ) (k : ℤ), (m = 1 ∨ m = 5 / 2 ∨ m = 5) ∧ dr.stepsize = m * (10 : ℚ) ^ k := by
  obtain ⟨c, hc, hfind⟩ : ∃ c, c ∈ ladder (intLog10Succ (|b - a| / maxsteps) - 1) ∧
      (ladder (intLog10Succ (|b - a| / maxsteps) - 1)).find? (budgetTest a b maxsteps)
        = some c := by
    cases hf : (ladder (intLog10Succ (|b - a| / maxsteps) - 1)).find? (budgetTest a b maxsteps)
      with
    | none =>
      obtain ⟨c, hc, hp⟩ := hpass
      have := List.find?_eq_none.1 hf c hc
      exact absurd hp this
    | some c => exact ⟨c, List.mem_of_find?_eq_some hf, rfl⟩
  have hsel : selectStepsize a b maxsteps (intLog10Succ (|b - a| / maxsteps) - 1)
      basicstepsizes = c := by
    rw [selectStepsize_eq_ladder, hfind]; rfl
  refine ⟨_, Make_neg a b maxsteps unit hab (by linarith), ?_, ?_⟩
  · rw [ResetBoundaries_stepsize, hsel, hfind]
  · rw [ResetBoundaries_stepsize, hsel]
    simp only [ladder, basicstepsizes, List.map_cons, List.map_nil, List.mem_cons,
      List.mem_singleton, List.not_mem_nil, or_false] at hc
    have h10 : (10 : ℚ) ≠ 0 := by norm_num
    have hz := zpow_add_one₀ h10 (intLog10Succ (|b - a| / maxsteps) - 1)
    rcases hc with h | h | h | h | h | h
    · exact ⟨1, _, Or.inl rfl, h⟩
    · exact ⟨5 / 2, _, Or.inr (Or.inl rfl), h⟩
    · exact ⟨5, _, Or.inr (Or.inr rfl), h⟩
    · exact ⟨1, intLog10Succ (|b - a| / maxsteps) - 1 + 1, Or.inl rfl, by rw [h, hz]; ring⟩
    · exact ⟨5 / 2, intLog10Succ (|b - a| / maxsteps) - 1 + 1, Or.inr (Or.inl rfl),
        by rw [h, hz]; ring⟩
    · exact ⟨5, intLog10Succ (|b - a| / maxsteps) - 1 + 1, Or.inr (Or.inr rfl),
        by rw [h, hz]; ring⟩

/-! ## Progress, equality and enlargement -/

/-- Without rounding and overflow `Progress` is the clamped linear interpolation: in
exact arithmetic, for a range with `low < high` and every value `v`, `Progress(v) = 0`
when `v <= low`, `Progress(v) = 1` when `v >= high` and
`Progress(v) = (v - low)/(high - low)` when `low < v < high`; so `Progress(low) = 0`,
`Progress(high) = 1` and the result lies in `[0, 1]`. -/
theorem exact_progress_clamped_interpolation (dr : DataRange) (v : ℚ) (u : String)
    (h : dr.low < dr.high) :
    (v ≤ dr.low → Progress dr v = 0) ∧
    (dr.high ≤ v → Progress dr v = 1) ∧
    (dr.low < v → v < dr.high → Progress dr v = (v - dr.low) / (dr.high - dr.low)) ∧
    Progress dr dr.low = 0 ∧ Progress dr dr.high = 1 ∧
    (0 ≤ Progress dr v ∧ Progress dr v ≤ 1) ∧
    (Make 0 100 1 u).map (fun r => Progress r 10) = some (1 / 10) ∧
    (Make 10000 20000 1 u).map (fun r => Progress r 12000) = some (1 / 5) := by
  have hr : dr.high - dr.low > 0 := sub_pos.2 h
  have key : ∀ w : ℚ, Progress dr w =
      if (w - dr.low) / (dr.high - dr.low) < 0 then 0
      else if (w - dr.low) / (dr.high - dr.low) > 1 then 1
      else (w - dr.low) / (dr.high - dr.low) := by
    intro w
    simp only [Progress, if_pos hr]
  have hneg : ∀ w : ℚ, (w - dr.low) / (dr.high - dr.low) < 0 ↔ w < dr.low := by
    intro w
    rw [div_lt_iff₀ hr, zero_mul, sub_neg]
  have hgt : ∀ w : ℚ, (w - dr.low) / (dr.high - dr.low) > 1 ↔ dr.high < w := by
    intro w
    rw [gt_iff_lt, lt_div_iff₀ hr, one_mul, sub_lt_sub_iff_right]
  have hlow : ∀ w : ℚ, w ≤ dr.low → Progress dr w = 0 := by
    intro w hw
    rw [key]
    rcases eq_or_lt_of_le hw with e | e
    · have h0 : (w - dr.low) / (dr.high - dr.low) = 0 := by rw [e, sub_self, zero_div]
      rw [h0]; norm_num
    · rw [if_pos ((hneg w).2 e)]
  have hhigh : ∀ w : ℚ, dr.high ≤ w → Progress dr w = 1 := by
    intro w hw
    rw [key, if_neg (fun hc => absurd ((hneg w).1 hc) (not_lt.2 (h.le.trans hw)))]
    rcases eq_or_lt_of_le hw with e | e
    · have h1 : (w - dr.low) / (dr.high - dr.low) = 1 := by rw [← e]; exact div_self (ne_of_gt hr)
      rw [h1]; norm_num
    · rw [if_pos ((hgt w).2 e)]
  have hmid : ∀ w : ℚ, dr.low ≤ w → w ≤ dr.high →
      Progress dr w = (w - dr.low) / (dr.high - dr.low) := by
    intro w h1 h2
    rw [key, if_neg (fun hc => absurd ((hneg w).1 hc) (not_lt.2 h1)),
      if_neg (fun hc => absurd ((hgt w).1 hc) (not_lt.2 h2))]
  refine ⟨hlow v, hhigh v, fun h1 h2 => hmid v h1.le h2.le, hlow _ le_rfl, hhigh _ le_rfl, ?_, ?_, ?_⟩
  · rcases le_or_lt v dr.low with h1 | h1
    · rw [hlow v h1]; norm_num
    · rcases le_or_lt dr.high v with h2 | h2
      · rw [hhigh v h2]; norm_num
      · rw [hmid v h1.le h2.le]
        exact ⟨div_nonneg (sub_nonneg.2 h1.le) hr.le,
          (div_le_one hr).2 (sub_le_sub_right h2.le _)⟩
  · norm_num [Make, ResetBoundaries, decimals, decimalsFrom, ceil_eq_neg_floor_neg, Progress]
  · norm_num [Make, ResetBoundaries, decimals, decimalsFrom, ceil_eq_neg_floor_neg, Progress]

/-- C12: degenerate `Progress`: for a range with `high == low` and every value `v`,
`Progress(v)` is 0 if `v < low`, 1 if `v > high`, and 0.5 if `v` equals the single
boundary value. -/
theorem C12_progress_degenerate (dr : DataRange) (v : ℚ) (h : dr.high = dr.low) :
    (v < dr.low → Progress dr v = 0) ∧
    (v > dr.high → Progress dr v = 1) ∧
    (v = dr.low → Progress dr v = 1 / 2) := by
  have hr : ¬ (dr.high - dr.low > 0) := by rw [h, sub_self]; exact lt_irrefl 0
  refine ⟨fun h1 => ?_, fun h1 => ?_, fun h1 => ?_⟩
  · simp only [Progress, if_neg hr, if_pos h1]
  · have h2 : ¬ v < dr.low := not_lt.2 (h ▸ (le_of_lt h1))
    simp only [Progress, if_neg hr, if_neg h2, if_pos h1]
  · have h2 : ¬ v < dr.low := by rw [h1]; exact lt_irrefl _
    have h3 : ¬ v > dr.high := by rw [h1, h]; exact lt_irrefl _
    simp only [Progress, if_neg hr, if_neg h2, if_neg h3]

theorem C12_progress_degenerate_witness :
    Progress { unit := "meter", stepsize := 10, low := 10, high := 10 } 10 = 1 / 2 :=
  (C12_progress_degenerate { unit := "meter", stepsize := 10, low := 10, high := 10 } 10
    rfl).2.2 rfl

/-- C13: `Equal` excludes the unit: `r1.Equal(r2)` is true if and only if
`r1.low == r2.low`, `r1.high == r2.high` and `r1.stepsize == r2.stepsize`; two ranges
with the same numeric fields and different unit labels are `Equal`. -/
theorem C13_equal_excludes_unit (r1 r2 : DataRange) (u1 u2 : String) (s lo hi : ℚ) :
    (Equal r1 r2 = true ↔
      r1.low = r2.low ∧ r1.high = r2.high ∧ r1.stepsize = r2.stepsize) ∧
    Equal { unit := u1, stepsize := s, low := lo, high := hi }
      { unit := u2, stepsize := s, low := lo, high := hi } = true := by
  constructor
  · simp only [Equal, Bool.and_eq_true, decide_eq_true_eq, and_assoc]
  · simp only [Equal, decide_True, Bool.and_self]

/-- C14 (the code does not compare the units): the ranges `meter[0 :1: 10]` and
`feet[0 :1: 10]` are `Equal` although their units differ. -/
theorem C14_equal_ignores_unit :
    Equal { unit := "meter", stepsize := 1, low := 0, high := 10 }
      { unit := "feet", stepsize := 1, low := 0, high := 10 } = true ∧
    Unit { unit := "meter", stepsize := 1, low := 0, high := 10 }
      ≠ Unit { unit := "feet", stepsize := 1, low := 0, high := 10 } := by
  constructor
  · simp only [Equal, decide_True, Bool.and_self]
  · simp only [Unit]; decide

/-- Without overflow `Enlarge` with a coefficient `<= 0` resets the boundaries to 0: in
exact arithmetic, for every range, whatever its stepsize, after `Enlarge(coef)`
`low = 0` and `high = 0`. -/
theorem exact_enlarge_nonpositive_resets (dr : DataRange) (coef : ℚ) (h : coef ≤ 0) :
    (Enlarge dr coef).low = 0 ∧ (Enlarge dr coef).high = 0 := by
  have hc : ¬ coef > 0 := not_lt.2 h
  by_cases hs : dr.stepsize = 0
  · have := ResetBoundaries_of_stepsize_zero dr 0 0 hs
    simpa only [Enlarge, if_neg hc, min_self, max_self] using this
  · have h1 := ResetBoundaries_low dr 0 0 hs
    have h2 := ResetBoundaries_high dr 0 0 hs
    simp only [Enlarge, if_neg hc]
    rw [h1, h2]
    simp

/-- C17: the stepsize is immutable after construction: `ResetBoundaries(a, b)` and
`Enlarge(coef)` leave `stepsize` and `unit` unchanged, for every range and all
arguments. -/
theorem C17_stepsize_and_unit_unchanged (dr : DataRange) (a b coef : ℚ) :
    (ResetBoundaries dr a b).stepsize = dr.stepsize ∧
    (ResetBoundaries dr a b).unit = dr.unit ∧
    (Enlarge dr coef).stepsize = dr.stepsize ∧
    (Enlarge dr coef).unit = dr.unit :=
  ⟨ResetBoundaries_stepsize dr a b, ResetBoundaries_unit dr a b,
    ResetBoundaries_stepsize dr _ _, ResetBoundaries_unit dr _ _⟩

theorem ResetBoundaries_low_le_min (dr : DataRange) (a b : ℚ) (hs : 0 ≤ dr.stepsize) :
    (ResetBoundaries dr a b).low ≤ min a b := by
  rcases eq_or_lt_of_le hs with h0 | hpos
  · rw [(ResetBoundaries_of_stepsize_zero dr a b h0.symm).1]
  · have hr : (0 : ℚ) < 10 ^ decimals dr.stepsize := by positivity
    rw [ResetBoundaries_low dr a b (ne_of_gt hpos), div_le_iff₀ hr]
    calc ((⌊(⌊min a b / dr.stepsize⌋ : ℚ) * dr.stepsize * 10 ^ decimals dr.stepsize⌋ : ℤ) : ℚ)
        ≤ (⌊min a b / dr.stepsize⌋ : ℚ) * dr.stepsize * 10 ^ decimals dr.stepsize :=
          Int.floor_le _
      _ ≤ min a b * 10 ^ decimals dr.stepsize :=
          mul_le_mul_of_nonneg_right ((le_div_iff₀ hpos).1 (Int.floor_le _)) hr.le

theorem ResetBoundaries_max_le_high (dr : DataRange) (a b : ℚ) (hs : 0 ≤ dr.stepsize) :
    max a b ≤ (ResetBoundaries dr a b).high := by
  rcases eq_or_lt_of_le hs with h0 | hpos
  · rw [(ResetBoundaries_of_stepsize_zero dr a b h0.symm).2]
  · have hr : (0 : ℚ) < 10 ^ decimals dr.stepsize := by positivity
    rw [ResetBoundaries_high dr a b (ne_of_gt hpos), le_div_iff₀ hr]
    calc max a b * 10 ^ decimals dr.stepsize
        ≤ (⌈max a b / dr.stepsize⌉ : ℚ) * dr.stepsize * 10 ^ decimals dr.stepsize :=
          mul_le_mul_of_nonneg_right ((div_le_iff₀ hpos).1 (Int.le_ceil _)) hr.le
      _ ≤ _ := Int.le_ceil _

/-- On a range with `0 <= low <= high` a coefficient `> 1` does enlarge the span. -/
theorem Enlarge_delta_ge_of_nonneg (dr : DataRange) (coef : ℚ) (hs : 0 ≤ dr.stepsize)
    (hlow : 0 ≤ dr.low) (hle : dr.low ≤ dr.high) (hc : 1 < coef) :
    Delta dr ≤ Delta (Enlarge dr coef) := by
  have hc0 : coef > 0 := by linarith
  have h1 : dr.low / coef ≤ dr.low := div_le_self hlow hc.le
  have h2 : dr.high ≤ dr.high * coef := le_mul_of_one_le_right (hlow.trans hle) hc.le
  have hmin := ResetBoundaries_low_le_min dr (dr.low / coef) (dr.high * coef) hs
  have hmax := ResetBoundaries_max_le_high dr (dr.low / coef) (dr.high * coef) hs
  have h3 : min (dr.low / coef) (dr.high * coef) ≤ dr.low := (min_le_left _ _).trans h1
  have h4 : dr.high ≤ max (dr.low / coef) (dr.high * coef) := h2.trans (le_max_right _ _)
  simp only [Delta, Enlarge, if_pos hc0]
  linarith

/-- C16 (the code does not always enlarge or reduce): on the range `[-10, -1]` with
stepsize 1, which is `Make(-10, -1, 1, u)`, `Enlarge(2)` gives `[-5, -2]` and the span
drops from 9 to 3; on the range `[10, 11]`, which is `Make(10, 11, 1, u)`,
`Enlarge(0.5)` gives `[5, 20]` and the span grows from 1 to 15. -/
theorem C16_enlarge_wrong_direction (u : String) :
    Make (-10) (-1) 1 u = some { unit := u, stepsize := 1, low := -10, high := -1 } ∧
    Enlarge { unit := u, stepsize := 1, low := -10, high := -1 } 2
      = { unit := u, stepsize := 1, low := -5, high := -2 } ∧
    Delta (Enlarge { unit := u, stepsize := 1, low := -10, high := -1 } 2)
      < Delta { unit := u, stepsize := 1, low := -10, high := -1 } ∧
    Make 10 11 1 u = some { unit := u, stepsize := 1, low := 10, high := 11 } ∧
    Enlarge { unit := u, stepsize := 1, low := 10, high := 11 } (1 / 2)
      = { unit := u, stepsize := 1, low := 5, high := 20 } ∧
    Delta { unit := u, stepsize := 1, low := 10, high := 11 }
      < Delta (Enlarge { unit := u, stepsize := 1, low := 10, high := 11 } (1 / 2)) := by
  refine ⟨?_, ?_, ?_, ?_, ?_, ?_⟩ <;>
    norm_num [Make, Enlarge, Delta, ResetBoundaries, decimals, decimalsFrom,
      ceil_eq_neg_floor_neg]

/-! ## Formatting -/

theorem sprintFixed_of_round (prec : ℕ) (f : ℚ) (n : ℕ) (hf : 0 ≤ f)
    (h : roundHalfEven (f * 10 ^ prec) = n) :
    sprintFixed prec f =
      if prec = 0 then toString (n / 10 ^ prec)
      else toString (n / 10 ^ prec) ++ "." ++
        "".pushn '0' (prec - (toString (n % 10 ^ prec)).length) ++ toString (n % 10 ^ prec) := by
  simp only [sprintFixed, abs_of_nonneg hf, h, if_neg (not_lt.2 hf)]

/-- C18 (the third documented example fails): `FormatData(11.2, 0.1)` is `"11.2"` and
`FormatData(11.2, 1)` is `"11"`, but `FormatData(11.2, 5)` is `"11"` and not `"10"`:
the stepsize only fixes the number of decimals, the value is not rounded to a
multiple of it. -/
theorem C18_FormatData_examples (sprintV : ℚ → String) :
    FormatData sprintV 11.2 0.1 = "11.2" ∧
    FormatData sprintV 11.2 1 = "11" ∧
    FormatData sprintV 11.2 5 = "11" ∧
    FormatData sprintV 11.2 5 ≠ "10" := by
  have d1 : decimals (0.1 : ℚ) = 1 := by norm_num [decimals, decimalsFrom]
  have d2 : decimals (1 : ℚ) = 0 := by norm_num [decimals, decimalsFrom]
  have d3 : decimals (5 : ℚ) = 0 := by norm_num [decimals, decimalsFrom]
  have r1 : roundHalfEven ((11.2 : ℚ) * 10 ^ 1) = 112 := by
    norm_num [roundHalfEven, ← Int.floor_toNat]
  have t : Int.toNat 11 = 11 := rfl
  have r0 : roundHalfEven ((11.2 : ℚ) * 10 ^ 0) = 11 := by
    norm_num [roundHalfEven, ← Int.floor_toNat, t]
  have h1 : FormatData sprintV 11.2 0.1 = "11.2" := by
    rw [FormatData, if_pos (by norm_num), d1,
      sprintFixed_of_round 1 11.2 112 (by norm_num) r1]
    rfl
  have h2 : FormatData sprintV 11.2 1 = "11" := by
    rw [FormatData, if_pos (by norm_num), d2,
      sprintFixed_of_round 0 11.2 11 (by norm_num) r0]
    rfl
  have h3 : FormatData sprintV 11.2 5 = "11" := by
    rw [FormatData, if_pos (by norm_num), d3,
      sprintFixed_of_round 0 11.2 11 (by norm_num) r0]
    rfl
  refine ⟨h1, h2, h3, ?_⟩
  rw [h3]; decide

/-! ## The exponent of the automatic stepsize -/

theorem floor_logb_eq_Int_log (x : ℚ) (hx : 0 < x) :
    ⌊Real.logb 10 (x : ℝ)⌋ = Int.log 10 x := by
  have hxr : (0 : ℝ) < x := by exact_mod_cast hx
  have := Real.floor_logb_natCast (b := 10) hxr.le
  rw [← Int_log_cast_real x hx, ← this]; norm_num

/-- From a raw step of 1/10 on, the exponent `int(log10(rawStep) + 1) - 1` is
`floor(log10(rawStep))`, and `10^exp <= rawStep < 10^(exp+1)`. -/
theorem exponent_eq_floor_of_ge (x : ℚ) (h : 1 / 10 ≤ x) :
    intLog10Succ x - 1 = ⌊Real.logb 10 (x : ℝ)⌋ ∧
    (10 : ℚ) ^ (intLog10Succ x - 1) ≤ x ∧ x < (10 : ℚ) ^ (intLog10Succ x - 1 + 1) := by
  have hx : 0 < x := lt_of_lt_of_le (by norm_num) h
  have hb : 1 < (10 : ℕ) := by norm_num
  have e : intLog10Succ x - 1 = Int.log 10 x := by
    rw [intLog10Succ, if_pos h, add_sub_cancel_right]
  rw [e, floor_logb_eq_Int_log x hx]
  refine ⟨rfl, ?_, ?_⟩
  · have := Int.zpow_log_le_self hb hx
    exact_mod_cast this
  · have := Int.lt_zpow_succ_log_self hb x
    exact_mod_cast this

/-- Below 1/10 the exponent `int(log10(rawStep) + 1) - 1` is the ceiling of
`log10(rawStep)`: `10^(exp-1) < rawStep <= 10^exp`. -/
theorem exponent_eq_ceil_of_lt (x : ℚ) (hx : 0 < x) (h : x < 1 / 10) :
    (10 : ℚ) ^ (intLog10Succ x - 1 - 1) < x ∧ x ≤ (10 : ℚ) ^ (intLog10Succ x - 1) := by
  have hb : 1 < (10 : ℕ) := by norm_num
  have e : intLog10Succ x - 1 = Int.clog 10 x := by
    rw [intLog10Succ, if_neg (not_le.2 h), add_sub_cancel_right]
  rw [e]
  constructor
  · have := Int.zpow_pred_clog_lt_self hb hx
    exact_mod_cast this
  · have := Int.self_le_zpow_clog hb x
    exact_mod_cast this

/-- C19 (the exponent is not the floor below 1/10): for the raw step 0.05, the one of
`Make(0, 0.5, -10, u)`, the code computes `int(log10(0.05) + 1) - 1 = -1` while
`floor(log10(0.05)) = -2`; `10^exp = 0.1` is larger than the raw step, and `Make`
returns the stepsize 0.1. -/
theorem C19_exponent_above_floor (u : String) :
    intLog10Succ (1 / 20) - 1 = -1 ∧
    ⌊Real.logb 10 ((1 / 20 : ℚ) : ℝ)⌋ = -2 ∧
    ¬ ((10 : ℚ) ^ (intLog10Succ (1 / 20) - 1) ≤ 1 / 20) ∧
    Make 0 (1 / 2) (-10) u = some { unit := u, stepsize := 1 / 10, low := 0, high := 1 / 2 } := by
  have e : intLog10Succ (1 / 20 : ℚ) = -1 + 1 :=
    intLog10Succ_of_lt (-1) (by norm_num) (by norm_num) (by norm_num) (by norm_num)
  have hb : 1 < (10 : ℕ) := by norm_num
  have hlog : Int.log 10 (1 / 20 : ℚ) = -2 := by
    apply le_antisymm
    · have := (Int.lt_zpow_iff_log_lt hb (by norm_num : (0 : ℚ) < 1 / 20)).1
        (show (1 / 20 : ℚ) < ((10 : ℕ) : ℚ) ^ (-1 : ℤ) by norm_num)
      omega
    · exact (Int.zpow_le_iff_le_log hb (by norm_num : (0 : ℚ) < 1 / 20)).1 (by norm_num)
  refine ⟨by rw [e]; norm_num, ?_, by rw [e]; norm_num, ?_⟩
  · rw [floor_logb_eq_Int_log _ (by norm_num), hlog]
  · norm_num [Make, e, selectStepsize, budgetTest, basicstepsizes, ResetBoundaries, decimals,
      decimalsFrom, ceil_eq_neg_floor_neg]

/-! ## The step count -/

theorem stepThrough_eq_map (high stepsize : ℚ) (hs : 0 < stepsize) :
    ∀ (m fuel : ℕ) (y : ℚ), y + (m : ℚ) * stepsize = high → m < fuel →
      stepThrough high stepsize fuel y =
        (List.range (m + 1)).map (fun j : ℕ => y + (j : ℚ) * stepsize) := by
  intro m
  induction m with
  | zero =>
    intro fuel y hy hf
    obtain ⟨f, rfl⟩ : ∃ f, fuel = f + 1 := ⟨fuel - 1, by omega⟩
    have hy' : y = high := by simpa using hy
    have h1 : y ≤ high := hy'.le
    have h2 : ¬ (y + stepsize ≤ high) := by rw [hy']; linarith
    have hr : (List.range (0 + 1)).map (fun j : ℕ => y + (j : ℚ) * stepsize) = [y] := by
      simp [List.range_succ]
    rw [hr]
    cases f with
    | zero => simp [stepThrough, h1]
    | succ f => simp [stepThrough, h1, h2]
  | succ m ih =>
    intro fuel y hy hf
    obtain ⟨f, rfl⟩ : ∃ f, fuel = f + 1 := ⟨fuel - 1, by omega⟩
    have hm : (0 : ℚ) ≤ ((m + 1 : ℕ) : ℚ) * stepsize := by positivity
    have h1 : y ≤ high := by linarith
    have h3 : y + stepsize + (m : ℚ) * stepsize = high := by
      rw [← hy]; push_cast; ring
    rw [stepThrough, if_pos h1, ih f (y + stepsize) h3 (by omega),
      List.range_succ_eq_map (m + 1), List.map_cons, List.map_map]
    congr 1
    · simp
    · apply List.map_congr_left
      intro j _
      simp only [Function.comp, Nat.succ_eq_add_one]
      push_cast; ring

theorem StepsExact_of_aligned (dr : DataRange) (hs : 0 < dr.stepsize) (ha : Aligned dr)
    (hfit : (dr.high - dr.low) / dr.stepsize < 2 ^ 64) : StepsExact dr := by
  obtain ⟨k, m, hkm, hlow, hhigh⟩ := ha
  have hne : dr.stepsize ≠ 0 := ne_of_gt hs
  have hf : (dr.high - dr.low) / dr.stepsize = ((m - k : ℤ) : ℚ) := by
    rw [hlow, hhigh]; push_cast; field_simp; ring
  have hnn : ¬ (((m - k : ℤ) : ℚ) < 0) := by
    have : (0 : ℚ) ≤ ((m - k : ℤ) : ℚ) := by exact_mod_cast (by omega : (0 : ℤ) ≤ m - k)
    exact not_lt.2 this
  have hcast : (((m - k).toNat : ℕ) : ℚ) = ((m - k : ℤ) : ℚ) := by
    have : (((m - k).toNat : ℤ) : ℚ) = ((m - k : ℤ) : ℚ) := by
      rw [Int.toNat_of_nonneg (by omega)]
    rw [← this]; push_cast; rfl
  have hmul : (((m - k).toNat : ℕ) : ℚ) * dr.stepsize = dr.high - dr.low := by
    rw [hcast, ← hf]; field_simp
  have hsum : dr.low + (((m - k).toNat : ℕ) : ℚ) * dr.stepsize = dr.high := by
    rw [hmul]; ring
  refine ⟨(m - k).toNat, ?_, hmul, hsum, fun j => ?_⟩
  · rw [hf] at hfit
    simp only [Steps, if_neg hne, hf, if_neg hnn, if_pos hfit]
    rw [← Int.floor_toNat, Int.floor_intCast]
  · exact stepThrough_eq_map dr.high dr.stepsize hs (m - k).toNat _ dr.low hsum (by omega)

/-- Without rounding the step count is exact: in exact arithmetic, for a stepsize
`s > 0` that is a finite decimal, a range produced by `ResetBoundaries` or by `Make`
whose quotient `(high - low) / s` is below `2^64` has `Steps() * s == high - low`,
`low + Steps() * s == high`, and iterating from `low` by `s` lands exactly on `high`.
In the float64 program the quotient is rounded and then truncated. -/
theorem exact_steps_exact_within_uint (dr : DataRange) (a b : ℚ) (hs : 0 < dr.stepsize)
    (hd : IsFiniteDecimal dr.stepsize) :
    (((ResetBoundaries dr a b).high - (ResetBoundaries dr a b).low) / dr.stepsize < 2 ^ 64 →
      StepsExact (ResetBoundaries dr a b)) ∧
    (∀ (stepsize : ℚ) (unit : String), Make a b stepsize unit = some dr →
      (dr.high - dr.low) / dr.stepsize < 2 ^ 64 → StepsExact dr) := by
  constructor
  · intro hfit
    apply StepsExact_of_aligned _ (by rw [ResetBoundaries_stepsize]; exact hs)
      (ResetBoundaries_aligned dr a b hs hd)
    rw [ResetBoundaries_stepsize]; exact hfit
  · intro stepsize unit h hfit
    obtain ⟨s, _, e⟩ := Make_eq_some a b stepsize unit dr h
    have es : s = dr.stepsize := by rw [e, ResetBoundaries_stepsize]
    have hal : Aligned dr := by
      rw [e]
      exact ResetBoundaries_aligned _ a b (by rw [es]; exact hs) (by rw [es]; exact hd)
    exact StepsExact_of_aligned dr hs hal hfit

/-! # The float64 program -/

/-! ## Rounding -/

theorem roundNearestEven_bounds (q : ℚ) :
    (roundNearestEven q : ℚ) - 1 / 2 ≤ q ∧ q ≤ (roundNearestEven q : ℚ) + 1 / 2 := by
  have h1 : (⌊q⌋ : ℚ) ≤ q := Int.floor_le q
  have h2 : q < (⌊q⌋ : ℚ) + 1 := Int.lt_floor_add_one q
  unfold roundNearestEven
  simp only
  split_ifs with c1 c2 c3
  · constructor <;> linarith
  · push_cast; constructor <;> linarith
  · have : q - ⌊q⌋ = 1 / 2 := le_antisymm (not_lt.1 c2) (not_lt.1 c1)
    constructor <;> linarith
  · have : q - ⌊q⌋ = 1 / 2 := le_antisymm (not_lt.1 c2) (not_lt.1 c1)
    push_cast; constructor <;> linarith

theorem roundNearestEven_mono {p q : ℚ} (h : p ≤ q) : roundNearestEven p ≤ roundNearestEven q := by
  by_contra hc
  have hc' : roundNearestEven q + 1 ≤ roundNearestEven p := by omega
  have hc2 : (roundNearestEven q : ℚ) + 1 ≤ (roundNearestEven p : ℚ) := by exact_mod_cast hc'
  have b1 := (roundNearestEven_bounds p).1
  have b2 := (roundNearestEven_bounds q).2
  have e : p = q := le_antisymm h (by linarith)
  rw [e] at hc
  exact hc le_rfl

theorem roundNearestEven_intCast (n : ℤ) : roundNearestEven (n : ℚ) = n := by
  simp [roundNearestEven]

theorem roundNearestEven_of_lt (q : ℚ) (m : ℤ) (h1 : (m : ℚ) - 1 / 2 < q)
    (h2 : q < (m : ℚ) + 1 / 2) : roundNearestEven q = m := by
  have b := roundNearestEven_bounds q
  have l1 : (roundNearestEven q : ℚ) < (m : ℚ) + 1 := by linarith [b.1]
  have l2 : (m : ℚ) - 1 < (roundNearestEven q : ℚ) := by linarith [b.2]
  have l1' : roundNearestEven q < m + 1 := by exact_mod_cast l1
  have l2' : m - 1 < roundNearestEven q := by exact_mod_cast l2
  omega


theorem roundNearestEven_nonneg {q : ℚ} (h : 0 ≤ q) : 0 ≤ roundNearestEven q := by
  have := roundNearestEven_mono h
  rwa [show roundNearestEven (0 : ℚ) = 0 from roundNearestEven_intCast 0] at this

theorem two_zpow_pos (e : ℤ) : (0 : ℚ) < 2 ^ e := by positivity

theorem log_two_bounds {q : ℚ} (hq : 0 < q) :
    (2 : ℚ) ^ Int.log 2 q ≤ q ∧ q < (2 : ℚ) ^ (Int.log 2 q + 1) := by
  have hb : 1 < (2 : ℕ) := by norm_num
  have h1 := Int.zpow_log_le_self hb hq
  have h2 := Int.lt_zpow_succ_log_self hb q
  exact ⟨by exact_mod_cast h1, by exact_mod_cast h2⟩

theorem log_two_eq {q : ℚ} (E : ℤ) (h1 : (2 : ℚ) ^ E ≤ q) (h2 : q < (2 : ℚ) ^ (E + 1)) :
    Int.log 2 q = E := by
  have hq : 0 < q := lt_of_lt_of_le (two_zpow_pos E) h1
  have hb : 1 < (2 : ℕ) := by norm_num
  apply le_antisymm
  · have := (Int.lt_zpow_iff_log_lt hb hq).1 (by exact_mod_cast h2)
    omega
  · exact (Int.zpow_le_iff_le_log hb hq).1 (by exact_mod_cast h1)

theorem log_two_mono {p q : ℚ} (hp : 0 < p) (h : p ≤ q) : Int.log 2 p ≤ Int.log 2 q :=
  Int.log_mono_right hp h

theorem flAbs_zero : flAbs 0 = 0 := by
  simp [flAbs, roundNearestEven]

theorem flAbs_nonneg {q : ℚ} (h : 0 ≤ q) : 0 ≤ flAbs q := by
  unfold flAbs
  have h1 : 0 ≤ q / 2 ^ (max (Int.log 2 q) (-1022) - 52) :=
    div_nonneg h (two_zpow_pos _).le
  have h2 : (0 : ℚ) ≤ (roundNearestEven (q / 2 ^ (max (Int.log 2 q) (-1022) - 52)) : ℚ) := by
    exact_mod_cast roundNearestEven_nonneg h1
  exact mul_nonneg h2 (two_zpow_pos _).le

/-- The rounded value stays below the next power of two. -/
theorem flAbs_le_pow {q : ℚ} (hq : 0 < q) :
    flAbs q ≤ 2 ^ (max (Int.log 2 q) (-1022) + 1) := by
  unfold flAbs
  set E := max (Int.log 2 q) (-1022) with hE
  have hp : (0 : ℚ) < 2 ^ (E - 52) := two_zpow_pos _
  have hlt : q < (2 : ℚ) ^ (E + 1) := by
    have h1 := (log_two_bounds hq).2
    have h2 : (2 : ℚ) ^ (Int.log 2 q + 1) ≤ 2 ^ (E + 1) :=
      zpow_le_zpow_right₀ (by norm_num) (by have := le_max_left (Int.log 2 q) (-1022); omega)
    exact lt_of_lt_of_le h1 h2
  have hsplit : (2 : ℚ) ^ (E + 1) = ((2 ^ 53 : ℤ) : ℚ) * 2 ^ (E - 52) := by
    have : E + 1 = 53 + (E - 52) := by ring
    rw [this, zpow_add₀ (by norm_num : (2 : ℚ) ≠ 0)]
    norm_num
  have h3 : q / 2 ^ (E - 52) ≤ ((2 ^ 53 : ℤ) : ℚ) := by
    rw [div_le_iff₀ hp, ← hsplit]; exact hlt.le
  have h4 := roundNearestEven_mono h3
  rw [roundNearestEven_intCast] at h4
  have h5 : (roundNearestEven (q / 2 ^ (E - 52)) : ℚ) ≤ ((2 ^ 53 : ℤ) : ℚ) := by exact_mod_cast h4
  rw [hsplit]
  exact mul_le_mul_of_nonneg_right h5 hp.le

/-- A normal number is not rounded below the power of two under it. -/
theorem flAbs_ge_pow {q : ℚ} (hq : 0 < q) (hn : -1022 ≤ Int.log 2 q) :
    (2 : ℚ) ^ Int.log 2 q ≤ flAbs q := by
  unfold flAbs
  rw [max_eq_left hn]
  set E := Int.log 2 q with hE
  have hp : (0 : ℚ) < 2 ^ (E - 52) := two_zpow_pos _
  have hsplit : (2 : ℚ) ^ E = ((2 ^ 52 : ℤ) : ℚ) * 2 ^ (E - 52) := by
    have : E = 52 + (E - 52) := by ring
    nth_rewrite 1 [this]
    rw [zpow_add₀ (by norm_num : (2 : ℚ) ≠ 0)]
    norm_num
  have h3 : ((2 ^ 52 : ℤ) : ℚ) ≤ q / 2 ^ (E - 52) := by
    rw [le_div_iff₀ hp, ← hsplit]; exact (log_two_bounds hq).1
  have h4 := roundNearestEven_mono h3
  rw [roundNearestEven_intCast] at h4
  have h5 : ((2 ^ 52 : ℤ) : ℚ) ≤ (roundNearestEven (q / 2 ^ (E - 52)) : ℚ) := by exact_mod_cast h4
  rw [hsplit]
  exact mul_le_mul_of_nonneg_right h5 hp.le

theorem flAbs_mono {p q : ℚ} (hp : 0 ≤ p) (h : p ≤ q) : flAbs p ≤ flAbs q := by
  rcases eq_or_lt_of_le hp with h0 | hpos
  · rw [← h0, flAbs_zero]; exact flAbs_nonneg (hp.trans h)
  have hq : 0 < q := lt_of_lt_of_le hpos h
  have hlog := log_two_mono hpos h
  by_cases he : max (Int.log 2 p) (-1022) = max (Int.log 2 q) (-1022)
  · unfold flAbs
    rw [he]
    have hpw : (0 : ℚ) < 2 ^ (max (Int.log 2 q) (-1022) - 52) := two_zpow_pos _
    have h1 : p / 2 ^ (max (Int.log 2 q) (-1022) - 52) ≤ q / 2 ^ (max (Int.log 2 q) (-1022) - 52) :=
      div_le_div_of_nonneg_right h hpw.le
    have h2 := roundNearestEven_mono h1
    exact mul_le_mul_of_nonneg_right (by exact_mod_cast h2) hpw.le
  · have hlt : max (Int.log 2 p) (-1022) < max (Int.log 2 q) (-1022) :=
      lt_of_le_of_ne (max_le_max hlog le_rfl) he
    have hn : -1022 ≤ Int.log 2 q := by
      by_contra hc
      have h1 : max (Int.log 2 q) (-1022) = -1022 := max_eq_right (by omega)
      have h2 : -1022 ≤ max (Int.log 2 p) (-1022) := le_max_right _ _
      omega
    have hEq : max (Int.log 2 q) (-1022) = Int.log 2 q := max_eq_left hn
    calc flAbs p ≤ 2 ^ (max (Int.log 2 p) (-1022) + 1) := flAbs_le_pow hpos
      _ ≤ 2 ^ Int.log 2 q := zpow_le_zpow_right₀ (by norm_num) (by omega)
      _ ≤ flAbs q := flAbs_ge_pow hq hn

theorem fl_zero : fl 0 = 0 := by
  simp [fl, flAbs_zero]

theorem fl_of_nonneg {q : ℚ} (h : 0 ≤ q) : fl q = flAbs q := by
  rw [fl, if_pos h]

theorem fl_neg (q : ℚ) : fl (-q) = -fl q := by
  rcases lt_trichotomy q 0 with h | h | h
  · have h1 : 0 ≤ -q := by linarith
    have h2 : ¬ (0 ≤ q) := not_le.2 h
    rw [fl, if_pos h1, fl, if_neg h2, neg_neg]
  · rw [h, neg_zero, fl_zero, neg_zero]
  · have h1 : ¬ (0 ≤ -q) := by
      intro hc; linarith
    rw [fl, if_neg h1, neg_neg, fl, if_pos h.le]

theorem fl_nonneg {q : ℚ} (h : 0 ≤ q) : 0 ≤ fl q := by
  rw [fl_of_nonneg h]; exact flAbs_nonneg h

theorem fl_nonpos {q : ℚ} (h : q ≤ 0) : fl q ≤ 0 := by
  have := fl_nonneg (show 0 ≤ -q by linarith)
  rw [fl_neg] at this
  linarith

/-- Binary64 rounding is monotone. -/
theorem fl_mono {p q : ℚ} (h : p ≤ q) : fl p ≤ fl q := by
  rcases le_or_lt 0 p with hp | hp
  · rw [fl_of_nonneg hp, fl_of_nonneg (hp.trans h)]
    exact flAbs_mono hp h
  · rcases le_or_lt 0 q with hq | hq
    · exact (fl_nonpos hp.le).trans (fl_nonneg hq)
    · have h1 : fl (-q) ≤ fl (-p) := by
        rw [fl_of_nonneg (by linarith : 0 ≤ -q), fl_of_nonneg (by linarith : 0 ≤ -p)]
        exact flAbs_mono (by linarith) (by linarith)
      rw [fl_neg, fl_neg] at h1
      linarith

/-- Evaluation of the rounding of a positive normal number: `m` is the integer nearest
to `q / 2^(E-52)`. -/
theorem fl_eval (q : ℚ) (E m : ℤ) (hE1 : (2 : ℚ) ^ E ≤ q) (hE2 : q < (2 : ℚ) ^ (E + 1))
    (hn : -1022 ≤ E) (hm1 : (m : ℚ) - 1 / 2 < q / 2 ^ (E - 52))
    (hm2 : q / 2 ^ (E - 52) < (m : ℚ) + 1 / 2) : fl q = (m : ℚ) * 2 ^ (E - 52) := by
  have hq : 0 < q := lt_of_lt_of_le (two_zpow_pos E) hE1
  rw [fl_of_nonneg hq.le, flAbs, log_two_eq E hE1 hE2, max_eq_left hn,
    roundNearestEven_of_lt _ m hm1 hm2]

/-- Evaluation of the rounding of a positive subnormal number. -/
theorem fl_eval_subnormal (q : ℚ) (m : ℤ) (h0 : 0 < q) (hE2 : q < (2 : ℚ) ^ (-1022 : ℤ))
    (hm1 : (m : ℚ) - 1 / 2 < q / 2 ^ (-1074 : ℤ))
    (hm2 : q / 2 ^ (-1074 : ℤ) < (m : ℚ) + 1 / 2) : fl q = (m : ℚ) * 2 ^ (-1074 : ℤ) := by
  have hb : 1 < (2 : ℕ) := by norm_num
  have hlog : Int.log 2 q < -1022 :=
    (Int.lt_zpow_iff_log_lt hb h0).1 (by exact_mod_cast hE2)
  have hmax : max (Int.log 2 q) (-1022) - 52 = -1074 := by
    rw [max_eq_right (by omega)]; norm_num
  rw [fl_of_nonneg h0.le, flAbs, hmax, roundNearestEven_of_lt _ m hm1 hm2]

/-- An integer of at most 53 bits is a float64. -/
theorem fl_intCast (n : ℤ) (h : |n| ≤ 2 ^ 53) : fl (n : ℚ) = n := by
  have key : ∀ k : ℤ, 0 < k → k ≤ 2 ^ 53 → flAbs (k : ℚ) = k := by
    intro k hk hk2
    have hkq : (0 : ℚ) < k := by exact_mod_cast hk
    unfold flAbs
    set E := Int.log 2 (k : ℚ) with hE
    have hb := log_two_bounds hkq
    have hE0 : 0 ≤ E := by
      have : (1 : ℚ) ≤ k := by exact_mod_cast hk
      rw [hE]
      have h1 := log_two_mono (by norm_num : (0 : ℚ) < 1) this
      have h2 : Int.log 2 (1 : ℚ) = 0 := Int.log_one_right 2
      omega
    have hE53 : E ≤ 53 := by
      have hb2 : 1 < (2 : ℕ) := by norm_num
      have h1 : (k : ℚ) ≤ ((2 : ℕ) : ℚ) ^ (53 : ℤ) := by
        have : (k : ℚ) ≤ ((2 ^ 53 : ℤ) : ℚ) := by exact_mod_cast hk2
        calc (k : ℚ) ≤ ((2 ^ 53 : ℤ) : ℚ) := this
          _ = ((2 : ℕ) : ℚ) ^ (53 : ℤ) := by norm_num
      have h2 := log_two_mono hkq h1
      have h3 : Int.log 2 (((2 : ℕ) : ℚ) ^ (53 : ℤ)) = 53 := Int.log_zpow hb2 53
      omega
    rw [max_eq_left (by omega : (-1022 : ℤ) ≤ E)]
    by_cases h52 : E ≤ 52
    · obtain ⟨j, hj⟩ : ∃ j : ℕ, (j : ℤ) = 52 - E := ⟨(52 - E).toNat, Int.toNat_of_nonneg (by omega)⟩
      have hpow : (2 : ℚ) ^ (E - 52) = ((2 : ℚ) ^ j)⁻¹ := by
        have : E - 52 = -(j : ℤ) := by omega
        rw [this, zpow_neg, zpow_natCast]
      have hint : (k : ℚ) / 2 ^ (E - 52) = ((k * 2 ^ j : ℤ) : ℚ) := by
        rw [hpow]; push_cast; field_simp
      rw [hint, roundNearestEven_intCast, hpow]
      push_cast; field_simp
    · have hE' : E = 53 := by omega
      have hk' : k = 2 ^ 53 := by
        have h1 := hb.1
        rw [← hE, hE'] at h1
        have h2 : ((2 ^ 53 : ℤ) : ℚ) ≤ (k : ℚ) := by
          calc ((2 ^ 53 : ℤ) : ℚ) = (2 : ℚ) ^ (53 : ℤ) := by norm_num
            _ ≤ k := h1
        have h3 : (2 ^ 53 : ℤ) ≤ k := by exact_mod_cast h2
        omega
      rw [hE', hk']
      have : ((2 ^ 53 : ℤ) : ℚ) / 2 ^ ((53 : ℤ) - 52) = ((2 ^ 52 : ℤ) : ℚ) := by norm_num
      rw [this, roundNearestEven_intCast]
      norm_num
  rcases lt_trichotomy n 0 with hn | hn | hn
  · have h1 : |n| = -n := abs_of_neg hn
    have h2 := key (-n) (by omega) (by omega)
    have h3 : fl ((-n : ℤ) : ℚ) = ((-n : ℤ) : ℚ) := by
      rw [fl_of_nonneg (by exact_mod_cast (by omega : (0 : ℤ) ≤ -n))]; exact h2
    have h4 : fl (-(n : ℚ)) = -(n : ℚ) := by
      have : ((-n : ℤ) : ℚ) = -(n : ℚ) := by push_cast; ring
      rw [this] at h3; exact h3
    rw [fl_neg] at h4
    linarith
  · rw [hn]; simpa using fl_zero
  · have h1 : |n| = n := abs_of_pos hn
    rw [fl_of_nonneg (by exact_mod_cast hn.le)]
    exact key n hn (by omega)

/-! ## Evaluation of float64 operations -/

theorem maxFloat_ge : (2 : ℚ) ^ (1001 : ℤ) ≤ maxFloat := by
  norm_num [maxFloat]

theorem round_of_fl_bounds (q v : ℚ) (h : fl q = v) (h1 : -maxFloat ≤ v) (h2 : v ≤ maxFloat) :
    F64.round q = F64.fin v := by
  rw [F64.round, h, if_neg (not_lt.2 h2), if_neg (not_lt.2 h1)]

theorem round_of_eq_zero (q : ℚ) (h : q = 0) : F64.round q = F64.fin 0 := by
  rw [h]
  exact round_of_fl_bounds 0 0 fl_zero (by norm_num [maxFloat]) (by norm_num [maxFloat])

theorem roundNearestEven_tie (q : ℚ) (n m : ℤ) (h : q = (n : ℚ) + 1 / 2)
    (hm : (if n % 2 = 0 then n else n + 1) = m) : roundNearestEven q = m := by
  have hf : ⌊q⌋ = n := by
    rw [Int.floor_eq_iff, h]; constructor <;> linarith
  have hr : q - (n : ℚ) = 1 / 2 := by rw [h]; ring
  simp only [roundNearestEven, hf, hr, lt_irrefl, if_false]
  exact hm

theorem fl_eval_of_round (q : ℚ) (E m : ℤ) (hE1 : (2 : ℚ) ^ E ≤ q)
    (hE2 : q < (2 : ℚ) ^ (E + 1)) (hn : -1022 ≤ E)
    (hm : roundNearestEven (q / 2 ^ (E - 52)) = m) : fl q = (m : ℚ) * 2 ^ (E - 52) := by
  have hq : 0 < q := lt_of_lt_of_le (two_zpow_pos E) hE1
  rw [fl_of_nonneg hq.le, flAbs, log_two_eq E hE1 hE2, max_eq_left hn, hm]

theorem fl_eval_subnormal_of_round (q : ℚ) (m : ℤ) (h0 : 0 < q)
    (hE2 : q < (2 : ℚ) ^ (-1022 : ℤ))
    (hm : roundNearestEven (q / 2 ^ (-1074 : ℤ)) = m) : fl q = (m : ℚ) * 2 ^ (-1074 : ℤ) := by
  have hb : 1 < (2 : ℕ) := by norm_num
  have hlog : Int.log 2 q < -1022 :=
    (Int.lt_zpow_iff_log_lt hb h0).1 (by exact_mod_cast hE2)
  have hmax : max (Int.log 2 q) (-1022) - 52 = -1074 := by
    rw [max_eq_right (by omega)]; norm_num
  rw [fl_of_nonneg h0.le, flAbs, hmax, hm]

theorem round_pos (q v : ℚ) (E m : ℤ) (hE1 : (2 : ℚ) ^ E ≤ q) (hE2 : q < (2 : ℚ) ^ (E + 1))
    (hn : -1022 ≤ E) (hx : E ≤ 1000) (hm : roundNearestEven (q / 2 ^ (E - 52)) = m)
    (hv : (m : ℚ) * 2 ^ (E - 52) = v) :
    F64.round q = F64.fin v := by
  have hq : 0 < q := lt_of_lt_of_le (two_zpow_pos E) hE1
  have hfl : fl q = v := (fl_eval_of_round q E m hE1 hE2 hn hm).trans hv
  have h0 : 0 ≤ v := hfl ▸ fl_nonneg hq.le
  have hle : v ≤ maxFloat := by
    have h1 := flAbs_le_pow hq
    rw [← fl_of_nonneg hq.le, hfl, log_two_eq E hE1 hE2, max_eq_left hn] at h1
    have h2 : (2 : ℚ) ^ (E + 1) ≤ 2 ^ (1001 : ℤ) :=
      zpow_le_zpow_right₀ (by norm_num) (by omega)
    exact h1.trans (h2.trans maxFloat_ge)
  have hmax : (0 : ℚ) ≤ maxFloat := h0.trans hle
  exact round_of_fl_bounds q v hfl (by linarith) hle

theorem round_neg (q v : ℚ) (E m : ℤ) (hE1 : (2 : ℚ) ^ E ≤ -q) (hE2 : -q < (2 : ℚ) ^ (E + 1))
    (hn : -1022 ≤ E) (hx : E ≤ 1000) (hm : roundNearestEven (-q / 2 ^ (E - 52)) = m)
    (hv : -((m : ℚ) * 2 ^ (E - 52)) = v) :
    F64.round q = F64.fin v := by
  have h := round_pos (-q) (-v) E m hE1 hE2 hn hx hm (by rw [← hv, neg_neg])
  have hfl : fl (-q) = -v :=
    (fl_eval_of_round (-q) E m hE1 hE2 hn hm).trans (by rw [← hv, neg_neg])
  have hfl' : fl q = v := by
    rw [fl_neg] at hfl; linarith
  unfold F64.round at h
  split_ifs at h with c1 c2
  rw [hfl] at c1 c2
  have e := F64.fin.inj h
  exact round_of_fl_bounds q v hfl' (by linarith [not_lt.1 c1]) (by linarith [not_lt.1 c2])

theorem round_pos_subnormal (q v : ℚ) (m : ℤ) (h0 : 0 < q) (hE2 : q < (2 : ℚ) ^ (-1022 : ℤ))
    (hm : roundNearestEven (q / 2 ^ (-1074 : ℤ)) = m) (hv : (m : ℚ) * 2 ^ (-1074 : ℤ) = v) :
    F64.round q = F64.fin v := by
  have hfl : fl q = v := (fl_eval_subnormal_of_round q m h0 hE2 hm).trans hv
  have h0' : 0 ≤ v := hfl ▸ fl_nonneg h0.le
  have hle : v ≤ maxFloat := by
    have h1 : fl q ≤ fl ((1 : ℤ) : ℚ) := fl_mono (by
      have : (2 : ℚ) ^ (-1022 : ℤ) ≤ 1 := zpow_le_one_of_nonpos₀ (by norm_num) (by norm_num)
      push_cast; linarith)
    rw [fl_intCast 1 (by norm_num), hfl] at h1
    have : (1 : ℚ) ≤ maxFloat := by norm_num [maxFloat]
    push_cast at h1; linarith
  exact round_of_fl_bounds q v hfl (by linarith [h0'.trans hle]) hle

namespace F64

theorem div_fin_fin (a b : ℚ) (hb : b ≠ 0) : div (fin a) (fin b) = round (a / b) := by
  simp only [div, if_neg hb]

theorem mul_fin_fin (a b : ℚ) : mul (fin a) (fin b) = round (a * b) := rfl

theorem sub_fin_fin (a b : ℚ) : sub (fin a) (fin b) = round (a - b) := rfl

theorem floor_fin (a : ℚ) : floor (fin a) = fin ⌊a⌋ := rfl

theorem ceil_fin (a : ℚ) : ceil (fin a) = fin ⌈a⌉ := rfl

theorem lt_fin_fin (a b : ℚ) : lt (fin a) (fin b) = decide (a < b) := rfl

theorem le_fin_fin (a b : ℚ) : le (fin a) (fin b) = decide (a ≤ b) := rfl

theorem eq_fin_fin (a b : ℚ) : eq (fin a) (fin b) = decide (a = b) := rfl

end F64

theorem fl_of_round {q v : ℚ} (h : F64.round q = F64.fin v) : fl q = v := by
  unfold F64.round at h
  split_ifs at h
  exact F64.fin.inj h

theorem roundTrips_of_floor (x : ℚ) (d : ℕ) (n : ℤ) (hf : ⌊x * 10 ^ d⌋ = n)
    (h : fl ((n : ℚ) / 10 ^ d) = x) : roundTrips x d = true := by
  simp only [roundTrips, hf, h, decide_True, Bool.true_or]

theorem roundTrips_of_ceil (x : ℚ) (d : ℕ) (n : ℤ) (hc : ⌈x * 10 ^ d⌉ = n)
    (h : fl ((n : ℚ) / 10 ^ d) = x) : roundTrips x d = true := by
  simp only [roundTrips, hc, h, decide_True, Bool.or_true]

theorem roundTrips_false (x : ℚ) (d : ℕ) (n m : ℤ) (hf : ⌊x * 10 ^ d⌋ = n)
    (hc : ⌈x * 10 ^ d⌉ = m) (h1 : fl ((n : ℚ) / 10 ^ d) ≠ x)
    (h2 : fl ((m : ℚ) / 10 ^ d) ≠ x) : roundTrips x d = false := by
  simp only [roundTrips, hf, hc, h1, h2, decide_False, Bool.or_self]

theorem decimalsFrom64_eq (x : ℚ) : ∀ (fuel d0 d : ℕ), d0 ≤ d → d ≤ d0 + fuel →
    roundTrips x d = true → (∀ k, d0 ≤ k → k < d → roundTrips x k = false) →
    decimalsFrom64 x fuel d0 = d := by
  intro fuel
  induction fuel with
  | zero =>
    intro d0 d h1 h2 _ _
    simp only [decimalsFrom64]; omega
  | succ fuel ih =>
    intro d0 d h1 h2 ht hmin
    rcases Nat.eq_or_lt_of_le h1 with e | e
    · subst e
      simp only [decimalsFrom64, ht, if_true]
    · have hf := hmin d0 le_rfl e
      simp only [decimalsFrom64, hf, Bool.false_eq_true, if_false]
      exact ih (d0 + 1) d (by omega) (by omega) ht (fun k hk hk2 => hmin k (by omega) hk2)

theorem decimals64_eq (x : ℚ) (d : ℕ) (hd : d ≤ 1100) (ht : roundTrips x d = true)
    (hmin : ∀ k, k < d → roundTrips x k = false) : decimals64 (F64.fin x) = d :=
  decimalsFrom64_eq x 1100 0 d (Nat.zero_le _) (by omega) ht (fun k _ hk => hmin k hk)

theorem fl_one : fl 1 = 1 := by
  have := fl_intCast 1 (by norm_num)
  simpa using this

/-- A float64 strictly between 0 and 1 that reads back from a one-decimal text has one
decimal. -/
theorem decimals64_eq_one (x : ℚ) (n : ℤ) (h0 : 0 < x) (h1 : x < 1)
    (hf : ⌊x * 10 ^ 1⌋ = n) (h : fl ((n : ℚ) / 10 ^ 1) = x) : decimals64 (F64.fin x) = 1 := by
  apply decimals64_eq x 1 (by norm_num) (roundTrips_of_floor x 1 n hf h)
  intro k hk
  have hk0 : k = 0 := by omega
  subst hk0
  have e0 : ⌊x * 10 ^ 0⌋ = 0 := by
    rw [Int.floor_eq_iff]; constructor <;> norm_num <;> linarith
  have e1 : ⌈x * 10 ^ 0⌉ = 1 := by
    rw [Int.ceil_eq_iff]; constructor <;> norm_num <;> linarith
  apply roundTrips_false x 0 0 1 e0 e1
  · have : fl (((0 : ℤ) : ℚ) / 10 ^ 0) = 0 := by simpa using fl_zero
    rw [this]; exact ne_of_lt h0
  · have : fl (((1 : ℤ) : ℚ) / 10 ^ 0) = 1 := by simpa using fl_one
    rw [this]; exact ne_of_gt h1

theorem pow10_one : pow10 1 = F64.fin 10 := by
  have h : F64.round ((10 : ℚ) ^ (1 : ℤ)) = F64.fin 10 :=
    round_of_fl_bounds _ 10 (by simpa using fl_intCast 10 (by norm_num))
      (by norm_num [maxFloat]) (by norm_num [maxFloat])
  simp only [pow10, h]
  norm_num

theorem pow10_zero : pow10 0 = F64.fin 1 := by
  have h : F64.round ((10 : ℚ) ^ (0 : ℤ)) = F64.fin 1 :=
    round_of_fl_bounds _ 1 (by simpa using fl_one)
      (by norm_num [maxFloat]) (by norm_num [maxFloat])
  simp only [pow10, h]
  norm_num

theorem Make64_of_nonneg (a b stepsize : F64) (unit : String)
    (h : F64.le (F64.fin 0) stepsize = true) :
    Make64 a b stepsize unit = ResetBoundaries64
      { unit := unit, stepsize := stepsize, low := F64.fin 0, high := F64.fin 0 } a b := by
  simp only [Make64, h, if_true]

theorem lit_zero : lit 0 = F64.fin 0 := round_of_eq_zero 0 rfl

/-! ## Finite results and overflow -/

theorem maxFloat_pos : (0 : ℚ) < maxFloat := by norm_num [maxFloat]

theorem round_cases (q : ℚ) :
    (F64.round q = F64.fin (fl q) ∧ -maxFloat ≤ fl q ∧ fl q ≤ maxFloat) ∨
    (F64.round q = F64.posInf ∧ maxFloat < fl q) ∨
    (F64.round q = F64.negInf ∧ fl q < -maxFloat) := by
  unfold F64.round
  split_ifs with c1 c2
  · exact Or.inr (Or.inl ⟨rfl, c1⟩)
  · exact Or.inr (Or.inr ⟨rfl, c2⟩)
  · exact Or.inl ⟨rfl, not_lt.1 c2, not_lt.1 c1⟩

theorem round_eq_fin_iff {q v : ℚ} :
    F64.round q = F64.fin v ↔ fl q = v ∧ -maxFloat ≤ v ∧ v ≤ maxFloat := by
  constructor
  · intro h
    rcases round_cases q with ⟨e, h1, h2⟩ | ⟨e, _⟩ | ⟨e, _⟩
    · rw [e] at h
      have := F64.fin.inj h
      subst this
      exact ⟨rfl, h1, h2⟩
    · rw [e] at h; exact absurd h (by simp)
    · rw [e] at h; exact absurd h (by simp)
  · rintro ⟨h1, h2, h3⟩
    exact round_of_fl_bounds q v h1 h2 h3

/-- A float64 is an integer multiple of `2^(-1074)`. -/
theorem exists_int_mul_of_fl_eq {q : ℚ} (hq : fl q = q) :
    ∃ N : ℤ, q = (N : ℚ) * 2 ^ (-1074 : ℤ) := by
  have key : ∀ p : ℚ, ∃ N : ℤ, flAbs p = (N : ℚ) * 2 ^ (-1074 : ℤ) := by
    intro p
    unfold flAbs
    set E := max (Int.log 2 p) (-1022) with hE
    have hE0 : -1022 ≤ E := le_max_right _ _
    obtain ⟨k, hk⟩ : ∃ k : ℕ, (k : ℤ) = E - 52 + 1074 :=
      ⟨(E - 52 + 1074).toNat, Int.toNat_of_nonneg (by omega)⟩
    refine ⟨roundNearestEven (p / 2 ^ (E - 52)) * 2 ^ k, ?_⟩
    have : (2 : ℚ) ^ (E - 52) = 2 ^ k * 2 ^ (-1074 : ℤ) := by
      rw [← zpow_natCast, ← zpow_add₀ (by norm_num : (2 : ℚ) ≠ 0), hk]
      congr 1; ring
    rw [this]; push_cast; ring
  rcases le_or_lt 0 q with h | h
  · obtain ⟨N, hN⟩ := key q
    exact ⟨N, by rw [← hN, ← fl_of_nonneg h, hq]⟩
  · obtain ⟨N, hN⟩ := key (-q)
    refine ⟨-N, ?_⟩
    have h1 : fl q = -flAbs (-q) := by rw [fl, if_neg (not_le.2 h)]
    rw [hq] at h1
    rw [h1, hN]; push_cast; ring

theorem fl_min_subnormal : fl (2 ^ (-1074 : ℤ)) = 2 ^ (-1074 : ℤ) := by
  have := fl_eval_subnormal_of_round (2 ^ (-1074 : ℤ)) 1 (by positivity)
    (zpow_lt_zpow_right₀ (by norm_num) (by norm_num))
    (by
      have : (2 : ℚ) ^ (-1074 : ℤ) / 2 ^ (-1074 : ℤ) = ((1 : ℤ) : ℚ) := by
        rw [div_self (by positivity)]; norm_num
      rw [this, roundNearestEven_intCast])
  simpa using this

/-- The difference of two distinct float64 is not rounded to zero. -/
theorem fl_sub_pos {l h : ℚ} (hl : fl l = l) (hh : fl h = h) (hlt : l < h) : 0 < fl (h - l) := by
  obtain ⟨N, hN⟩ := exists_int_mul_of_fl_eq hl
  obtain ⟨M, hM⟩ := exists_int_mul_of_fl_eq hh
  have hp : (0 : ℚ) < 2 ^ (-1074 : ℤ) := by positivity
  have hNM : N < M := by
    have : (N : ℚ) * 2 ^ (-1074 : ℤ) < (M : ℚ) * 2 ^ (-1074 : ℤ) := by rw [← hN, ← hM]; exact hlt
    have := lt_of_mul_lt_mul_right this hp.le
    exact_mod_cast this
  have h1 : (1 : ℚ) ≤ (M : ℚ) - N := by
    have : (1 : ℤ) ≤ M - N := by omega
    exact_mod_cast this
  have h2 : (2 : ℚ) ^ (-1074 : ℤ) ≤ h - l := by
    rw [hN, hM]; nlinarith
  have := fl_mono h2
  rw [fl_min_subnormal] at this
  linarith

/-! ## Progress in float64 arithmetic -/

theorem clamp_round_nonpos {q : ℚ} (hq : q ≤ 0) :
    (if F64.lt (F64.round q) (F64.fin 0) then F64.fin 0
      else if F64.lt (F64.fin 1) (F64.round q) then F64.fin 1 else F64.round q) = F64.fin 0 := by
  have h0 := fl_nonpos hq
  have hM := maxFloat_pos
  rcases round_cases q with ⟨e, _, _⟩ | ⟨e, h1⟩ | ⟨e, _⟩
  · rw [e]
    rcases lt_or_eq_of_le h0 with h | h
    · simp [F64.lt, h]
    · simp [F64.lt, h]
  · linarith
  · rw [e]; simp [F64.lt]

theorem clamp_round_ge_one {q : ℚ} (hq : 1 ≤ q) :
    (if F64.lt (F64.round q) (F64.fin 0) then F64.fin 0
      else if F64.lt (F64.fin 1) (F64.round q) then F64.fin 1 else F64.round q) = F64.fin 1 := by
  have h0 := fl_mono hq
  rw [fl_one] at h0
  have hM := maxFloat_pos
  rcases round_cases q with ⟨e, _, _⟩ | ⟨e, _⟩ | ⟨e, h1⟩
  · rw [e]
    have hn : ¬ fl q < 0 := by linarith
    rcases lt_or_eq_of_le h0 with h | h
    · simp [F64.lt, h, hn]
    · simp [F64.lt, ← h]
  · rw [e]; simp [F64.lt]
  · linarith

theorem clamp_round_mid {q : ℚ} (h0 : 0 ≤ q) (h1 : q ≤ 1) :
    (if F64.lt (F64.round q) (F64.fin 0) then F64.fin 0
      else if F64.lt (F64.fin 1) (F64.round q) then F64.fin 1 else F64.round q) = F64.round q ∧
    ∃ r : ℚ, F64.round q = F64.fin r ∧ 0 ≤ r ∧ r ≤ 1 := by
  have a0 := fl_nonneg h0
  have a1 := fl_mono h1
  rw [fl_one] at a1
  have hM : (1 : ℚ) ≤ maxFloat := by norm_num [maxFloat]
  have e : F64.round q = F64.fin (fl q) :=
    round_of_fl_bounds q (fl q) rfl (by linarith) (by linarith)
  rw [e]
  refine ⟨?_, fl q, rfl, a0, a1⟩
  have hn : ¬ fl q < 0 := by linarith
  have hn1 : ¬ 1 < fl q := by linarith
  simp [F64.lt, hn, hn1]

theorem Progress64_of_span {dr : DataRange64} {l h rng : ℚ} (hlow : dr.low = F64.fin l)
    (hhigh : dr.high = F64.fin h) (hr : F64.round (h - l) = F64.fin rng) (hpos : 0 < rng)
    (val : F64) :
    Progress64 dr val =
      if F64.lt (F64.div (F64.sub val (F64.fin l)) (F64.fin rng)) (F64.fin 0) then F64.fin 0
      else if F64.lt (F64.fin 1) (F64.div (F64.sub val (F64.fin l)) (F64.fin rng)) then F64.fin 1
      else F64.div (F64.sub val (F64.fin l)) (F64.fin rng) := by
  simp only [Progress64, hlow, hhigh, F64.sub_fin_fin, hr, F64.lt_fin_fin, hpos, decide_True,
    if_true]

theorem Progress64_le_low {dr : DataRange64} {l h rng x : ℚ} (hlow : dr.low = F64.fin l)
    (hhigh : dr.high = F64.fin h) (hr : F64.round (h - l) = F64.fin rng) (hpos : 0 < rng)
    (hx : x ≤ l) : Progress64 dr (F64.fin x) = F64.fin 0 := by
  rw [Progress64_of_span hlow hhigh hr hpos, F64.sub_fin_fin]
  have h0 := fl_nonpos (sub_nonpos.2 hx)
  have hM := maxFloat_pos
  rcases round_cases (x - l) with ⟨e, _, _⟩ | ⟨e, h1⟩ | ⟨e, _⟩
  · rw [e, F64.div_fin_fin _ _ hpos.ne']
    exact clamp_round_nonpos (div_nonpos_of_nonpos_of_nonneg h0 hpos.le)
  · linarith
  · rw [e]; simp [F64.div, F64.lt, hpos.le]

theorem Progress64_ge_high {dr : DataRange64} {l h rng x : ℚ} (hlow : dr.low = F64.fin l)
    (hhigh : dr.high = F64.fin h) (hr : F64.round (h - l) = F64.fin rng) (hpos : 0 < rng)
    (hx : h ≤ x) : Progress64 dr (F64.fin x) = F64.fin 1 := by
  rw [Progress64_of_span hlow hhigh hr hpos, F64.sub_fin_fin]
  have h0 : rng ≤ fl (x - l) := by
    rw [← fl_of_round hr]; exact fl_mono (by linarith)
  have hM := maxFloat_pos
  rcases round_cases (x - l) with ⟨e, _, _⟩ | ⟨e, _⟩ | ⟨e, h1⟩
  · rw [e, F64.div_fin_fin _ _ hpos.ne']
    exact clamp_round_ge_one ((one_le_div hpos).2 h0)
  · rw [e]; simp [F64.div, F64.lt, hpos.le]
  · linarith

theorem Progress64_between {dr : DataRange64} {l h rng x : ℚ} (hlow : dr.low = F64.fin l)
    (hhigh : dr.high = F64.fin h) (hr : F64.round (h - l) = F64.fin rng) (hpos : 0 < rng)
    (h1 : l ≤ x) (h2 : x ≤ h) :
    Progress64 dr (F64.fin x) = F64.div (F64.sub (F64.fin x) dr.low) (F64.sub dr.high dr.low) ∧
    ∃ r : ℚ, Progress64 dr (F64.fin x) = F64.fin r ∧ 0 ≤ r ∧ r ≤ 1 := by
  rw [Progress64_of_span hlow hhigh hr hpos, hlow, hhigh, F64.sub_fin_fin, F64.sub_fin_fin, hr]
  have a0 : 0 ≤ fl (x - l) := fl_nonneg (by linarith)
  have a1 : fl (x - l) ≤ rng := by
    rw [← fl_of_round hr]; exact fl_mono (by linarith)
  have hR := (round_eq_fin_iff.1 hr).2.2
  have hM := maxFloat_pos
  have e : F64.round (x - l) = F64.fin (fl (x - l)) :=
    round_of_fl_bounds _ _ rfl (by linarith) (by linarith)
  rw [e, F64.div_fin_fin _ _ hpos.ne']
  obtain ⟨c1, r, c2, c3, c4⟩ := clamp_round_mid (div_nonneg a0 hpos.le) ((div_le_one hpos).2 a1)
  exact ⟨c1, r, c1.trans c2, c3, c4⟩

theorem span_of_not_overflow {l h : ℚ} (hl : fl l = l) (hh : fl h = h) (hlt : l < h)
    (hfin : F64.sub (F64.fin h) (F64.fin l) ≠ F64.posInf) :
    ∃ rng : ℚ, F64.round (h - l) = F64.fin rng ∧ 0 < rng := by
  have hp := fl_sub_pos hl hh hlt
  have hM := maxFloat_pos
  rw [F64.sub_fin_fin] at hfin
  rcases round_cases (h - l) with ⟨e, _, _⟩ | ⟨e, _⟩ | ⟨e, h1⟩
  · exact ⟨_, e, hp⟩
  · exact absurd e hfin
  · linarith

theorem decimals64_one : decimals64 (F64.fin 1) = 0 :=
  decimals64_eq 1 0 (by norm_num)
    (roundTrips_of_floor 1 0 1 (by norm_num) (by simpa using fl_one))
    (fun k hk => absurd hk (Nat.not_lt_zero k))

/-- The first case of `TestProgress` in float64 arithmetic: `Make(0, 100, 1, u).Progress(10)` is `0.1`. -/
theorem Progress64_example_tenth (u : String) :
    Progress64 (Make64 (lit 0) (lit 100) (lit 1) u) (lit 10) = lit (1 / 10) := by
  have hl1 : lit 100 = F64.fin 100 :=
    (round_pos 100 100 (6) 7036874417766400 (by norm_num) (by norm_num) (by norm_num) (by norm_num)
        (roundNearestEven_of_lt _ _ (by norm_num) (by norm_num)) (by norm_num))
  have hl2 : lit 1 = F64.fin 1 :=
    (round_pos 1 1 (0) 4503599627370496 (by norm_num) (by norm_num) (by norm_num) (by norm_num)
        (roundNearestEven_of_lt _ _ (by norm_num) (by norm_num)) (by norm_num))
  have hl3 : lit 10 = F64.fin 10 :=
    (round_pos 10 10 (3) 5629499534213120 (by norm_num) (by norm_num) (by norm_num) (by norm_num)
        (roundNearestEven_of_lt _ _ (by norm_num) (by norm_num)) (by norm_num))
  have hl4 : lit (1 / 10) = F64.fin (3602879701896397 / 36028797018963968) :=
    (round_pos (1 / 10) (3602879701896397 / 36028797018963968) (-4) 7205759403792794 (by norm_num)
        (by norm_num) (by norm_num) (by norm_num) (roundNearestEven_of_lt _ _ (by norm_num) (by
        norm_num)) (by norm_num))
  have hb5 : decide ((0 : ℚ) < 100) = true :=
    by norm_num
  have hb6 : decide ((1 : ℚ) = 0) = false :=
    by norm_num
  have h7 : F64.div (F64.fin 0) (F64.fin 1) = F64.fin 0 :=
    (F64.div_fin_fin 0 1 (by norm_num)).trans (round_of_eq_zero (0 / 1) (by norm_num))
  have hf8 : ⌊(0 : ℚ)⌋ = 0 :=
    by norm_num
  have h9 : F64.mul (F64.fin 0) (F64.fin 1) = F64.fin 0 :=
    (F64.mul_fin_fin 0 1).trans (round_of_eq_zero (0 * 1) (by norm_num))
  have h13 : F64.div (F64.fin 100) (F64.fin 1) = F64.fin 100 :=
    (F64.div_fin_fin 100 1 (by norm_num)).trans (round_pos (100 / 1) 100 (6) 7036874417766400 (by
        norm_num) (by norm_num) (by norm_num) (by norm_num) (roundNearestEven_of_lt _ _ (by
        norm_num) (by norm_num)) (by norm_num))
  have hc14 : ⌈(100 : ℚ)⌉ = 100 :=
    by norm_num [ceil_eq_neg_floor_neg]
  have h15 : F64.mul (F64.fin 100) (F64.fin 1) = F64.fin 100 :=
    (F64.mul_fin_fin 100 1).trans (round_pos (100 * 1) 100 (6) 7036874417766400 (by norm_num) (by
        norm_num) (by norm_num) (by norm_num) (roundNearestEven_of_lt _ _ (by norm_num) (by
        norm_num)) (by norm_num))
  have h19 : F64.sub (F64.fin 100) (F64.fin 0) = F64.fin 100 :=
    (F64.sub_fin_fin 100 0).trans (round_pos (100 - 0) 100 (6) 7036874417766400 (by norm_num) (by
        norm_num) (by norm_num) (by norm_num) (roundNearestEven_of_lt _ _ (by norm_num) (by
        norm_num)) (by norm_num))
  have h21 : F64.sub (F64.fin 10) (F64.fin 0) = F64.fin 10 :=
    (F64.sub_fin_fin 10 0).trans (round_pos (10 - 0) 10 (3) 5629499534213120 (by norm_num) (by
        norm_num) (by norm_num) (by norm_num) (roundNearestEven_of_lt _ _ (by norm_num) (by
        norm_num)) (by norm_num))
  have h22 : F64.div (F64.fin 10) (F64.fin 100) = F64.fin (3602879701896397 / 36028797018963968) :=
    (F64.div_fin_fin 10 100 (by norm_num)).trans (round_pos (10 / 100) (3602879701896397 /
        36028797018963968) (-4) 7205759403792794 (by norm_num) (by norm_num) (by norm_num) (by
        norm_num) (roundNearestEven_of_lt _ _ (by norm_num) (by norm_num)) (by norm_num))
  have hb23 : decide (((3602879701896397 / 36028797018963968) : ℚ) < 0) = false :=
    by norm_num
  have hb24 : decide ((1 : ℚ) < (3602879701896397 / 36028797018963968)) = false :=
    by norm_num
  have hd : decimals64 (F64.fin 1) = 0 := decimals64_one
  rw [Make64_of_nonneg _ _ _ _ (by rw [hl2, F64.le_fin_fin]; norm_num)]
  simp only [Progress64, ResetBoundaries64, lit_zero, hl1, hl2, hl3, hl4, hb5, hb6, h7, hf8, h9,
      h13, hc14, h15, h19, h21, h22, hb23, hb24, hd, pow10_zero, Nat.cast_zero, F64.lt_fin_fin,
      F64.le_fin_fin, F64.eq_fin_fin, F64.floor_fin, F64.ceil_fin, Int.cast_ofNat, Int.cast_zero,
      Int.cast_one, Int.floor_zero, Bool.not_false, Bool.not_true, if_true, if_false,
      Bool.false_eq_true]

/-- The second case of `TestProgress` in float64 arithmetic: `Make(10000, 20000, 1, u).Progress(12000)` is `0.2`. -/
theorem Progress64_example_fifth (u : String) :
    Progress64 (Make64 (lit 10000) (lit 20000) (lit 1) u) (lit 12000) = lit (1 / 5) := by
  have hl1 : lit 10000 = F64.fin 10000 :=
    (round_pos 10000 10000 (13) 5497558138880000 (by norm_num) (by norm_num) (by norm_num) (by
        norm_num) (roundNearestEven_of_lt _ _ (by norm_num) (by norm_num)) (by norm_num))
  have hl2 : lit 20000 = F64.fin 20000 :=
    (round_pos 20000 20000 (14) 5497558138880000 (by norm_num) (by norm_num) (by norm_num) (by
        norm_num) (roundNearestEven_of_lt _ _ (by norm_num) (by norm_num)) (by norm_num))
  have hl3 : lit 1 = F64.fin 1 :=
    (round_pos 1 1 (0) 4503599627370496 (by norm_num) (by norm_num) (by norm_num) (by norm_num)
        (roundNearestEven_of_lt _ _ (by norm_num) (by norm_num)) (by norm_num))
  have hl4 : lit 12000 = F64.fin 12000 :=
    (round_pos 12000 12000 (13) 6597069766656000 (by norm_num) (by norm_num) (by norm_num) (by
        norm_num) (roundNearestEven_of_lt _ _ (by norm_num) (by norm_num)) (by norm_num))
  have hl5 : lit (1 / 5) = F64.fin (3602879701896397 / 18014398509481984) :=
    (round_pos (1 / 5) (3602879701896397 / 18014398509481984) (-3) 7205759403792794 (by norm_num)
        (by norm_num) (by norm_num) (by norm_num) (roundNearestEven_of_lt _ _ (by norm_num) (by
        norm_num)) (by norm_num))
  have hb6 : decide ((10000 : ℚ) < 20000) = true :=
    by norm_num
  have hb7 : decide ((1 : ℚ) = 0) = false :=
    by norm_num
  have h8 : F64.div (F64.fin 10000) (F64.fin 1) = F64.fin 10000 :=
    (F64.div_fin_fin 10000 1 (by norm_num)).trans (round_pos (10000 / 1) 10000 (13) 5497558138880000
        (by norm_num) (by norm_num) (by norm_num) (by norm_num) (roundNearestEven_of_lt _ _ (by
        norm_num) (by norm_num)) (by norm_num))
  have hf9 : ⌊(10000 : ℚ)⌋ = 10000 :=
    by norm_num
  have h10 : F64.mul (F64.fin 10000) (F64.fin 1) = F64.fin 10000 :=
    (F64.mul_fin_fin 10000 1).trans (round_pos (10000 * 1) 10000 (13) 5497558138880000 (by norm_num)
        (by norm_num) (by norm_num) (by norm_num) (roundNearestEven_of_lt _ _ (by norm_num) (by
        norm_num)) (by norm_num))
  have h14 : F64.div (F64.fin 20000) (F64.fin 1) = F64.fin 20000 :=
    (F64.div_fin_fin 20000 1 (by norm_num)).trans (round_pos (20000 / 1) 20000 (14) 5497558138880000
        (by norm_num) (by norm_num) (by norm_num) (by norm_num) (roundNearestEven_of_lt _ _ (by
        norm_num) (by norm_num)) (by norm_num))
  have hc15 : ⌈(20000 : ℚ)⌉ = 20000 :=
    by norm_num [ceil_eq_neg_floor_neg]
  have h16 : F64.mul (F64.fin 20000) (F64.fin 1) = F64.fin 20000 :=
    (F64.mul_fin_fin 20000 1).trans (round_pos (20000 * 1) 20000 (14) 5497558138880000 (by norm_num)
        (by norm_num) (by norm_num) (by norm_num) (roundNearestEven_of_lt _ _ (by norm_num) (by
        norm_num)) (by norm_num))
  have h20 : F64.sub (F64.fin 20000) (F64.fin 10000) = F64.fin 10000 :=
    (F64.sub_fin_fin 20000 10000).trans (round_pos (20000 - 10000) 10000 (13) 5497558138880000 (by
        norm_num) (by norm_num) (by norm_num) (by norm_num) (roundNearestEven_of_lt _ _ (by
        norm_num) (by norm_num)) (by norm_num))
  have hb21 : decide ((0 : ℚ) < 10000) = true :=
    by norm_num
  have h22 : F64.sub (F64.fin 12000) (F64.fin 10000) = F64.fin 2000 :=
    (F64.sub_fin_fin 12000 10000).trans (round_pos (12000 - 10000) 2000 (10) 8796093022208000 (by
        norm_num) (by norm_num) (by norm_num) (by norm_num) (roundNearestEven_of_lt _ _ (by
        norm_num) (by norm_num)) (by norm_num))
  have h23 : F64.div (F64.fin 2000) (F64.fin 10000) = F64.fin (3602879701896397 / 18014398509481984)
      :=
    (F64.div_fin_fin 2000 10000 (by norm_num)).trans (round_pos (2000 / 10000) (3602879701896397 /
        18014398509481984) (-3) 7205759403792794 (by norm_num) (by norm_num) (by norm_num) (by
        norm_num) (roundNearestEven_of_lt _ _ (by norm_num) (by norm_num)) (by norm_num))
  have hb24 : decide (((3602879701896397 / 18014398509481984) : ℚ) < 0) = false :=
    by norm_num
  have hb25 : decide ((1 : ℚ) < (3602879701896397 / 18014398509481984)) = false :=
    by norm_num
  have hd : decimals64 (F64.fin 1) = 0 := decimals64_one
  rw [Make64_of_nonneg _ _ _ _ (by rw [hl3, F64.le_fin_fin]; norm_num)]
  simp only [Progress64, ResetBoundaries64, lit_zero, hl1, hl2, hl3, hl4, hl5, hb6, hb7, h8, hf9,
      h10, h14, hc15, h16, h20, hb21, h22, h23, hb24, hb25, hd, pow10_zero, Nat.cast_zero,
      F64.lt_fin_fin, F64.le_fin_fin, F64.eq_fin_fin, F64.floor_fin, F64.ceil_fin, Int.cast_ofNat,
      Int.cast_zero, Int.cast_one, Int.floor_zero, Bool.not_false, Bool.not_true, if_true, if_false,
      Bool.false_eq_true]

theorem fl_two_zpow (e : ℤ) (he : -1022 ≤ e) : fl ((2 : ℚ) ^ e) = 2 ^ e := by
  have hm : roundNearestEven ((2 : ℚ) ^ e / 2 ^ (e - 52)) = 2 ^ 52 := by
    have : (2 : ℚ) ^ e / 2 ^ (e - 52) = ((2 ^ 52 : ℤ) : ℚ) := by
      rw [← zpow_sub₀ (by norm_num : (2 : ℚ) ≠ 0)]
      have : e - (e - 52) = 52 := by ring
      rw [this]; norm_num
    rw [this, roundNearestEven_intCast]
  rw [fl_eval_of_round ((2 : ℚ) ^ e) e (2 ^ 52) le_rfl
    (zpow_lt_zpow_right₀ (by norm_num) (by omega)) he hm]
  have : e = 52 + (e - 52) := by ring
  conv_rhs => rw [this, zpow_add₀ (by norm_num : (2 : ℚ) ≠ 0)]
  norm_num

/-- A result of `2^1024` or more overflows to `+Inf`. -/
theorem round_overflow {q : ℚ} (h : (2 : ℚ) ^ (1024 : ℤ) ≤ q) : F64.round q = F64.posInf := by
  have h1 := fl_mono h
  rw [fl_two_zpow 1024 (by norm_num)] at h1
  have h2 : maxFloat < (2 : ℚ) ^ (1024 : ℤ) := by norm_num [maxFloat]
  rw [F64.round, if_pos (lt_of_lt_of_le h2 h1)]

/-- On a range `[-P, P]` whose span overflows, `Progress(P)` is NaN. -/
theorem Progress64_nan_of_overflow (u : String) (P : ℚ) (hP : 0 < P)
    (hov : F64.round (P - -P) = F64.posInf) :
    Make64 (F64.fin (-P)) (F64.fin P) (F64.fin 0) u
      = { unit := u, stepsize := F64.fin 0, low := F64.fin (-P), high := F64.fin P } ∧
    Progress64 (Make64 (F64.fin (-P)) (F64.fin P) (F64.fin 0) u) (F64.fin P) = F64.nan := by
  have hb : decide (-P < P) = true := decide_eq_true (neg_lt_self hP)
  have hmk : Make64 (F64.fin (-P)) (F64.fin P) (F64.fin 0) u
      = { unit := u, stepsize := F64.fin 0, low := F64.fin (-P), high := F64.fin P } := by
    simp only [Make64, ResetBoundaries64, F64.le_fin_fin, F64.lt_fin_fin, F64.eq_fin_fin, hb,
      le_refl, decide_True, Bool.not_true, if_true, if_false, Bool.false_eq_true]
  refine ⟨hmk, ?_⟩
  rw [hmk]
  simp only [Progress64, F64.sub_fin_fin, hov, F64.lt, F64.div, if_true, if_false,
    Bool.false_eq_true]

/-! ## Enlarge with a coefficient that is not positive -/

theorem ResetBoundaries64_stepsize (pdr : DataRange64) (a b : F64) :
    (ResetBoundaries64 pdr a b).stepsize = pdr.stepsize := by
  unfold ResetBoundaries64
  simp only []
  split_ifs <;> rfl

theorem ResetBoundaries64_unit (pdr : DataRange64) (a b : F64) :
    (ResetBoundaries64 pdr a b).unit = pdr.unit := by
  unfold ResetBoundaries64
  simp only []
  split_ifs <;> rfl

/-- The largest finite float64 is a float64. -/
theorem fl_maxFloat : fl maxFloat = maxFloat := by
  have hm : roundNearestEven (maxFloat / 2 ^ ((1023 : ℤ) - 52)) = 2 ^ 53 - 1 := by
    have : maxFloat / 2 ^ ((1023 : ℤ) - 52) = ((2 ^ 53 - 1 : ℤ) : ℚ) := by
      norm_num [maxFloat]
    rw [this, roundNearestEven_intCast]
  rw [fl_eval_of_round maxFloat 1023 (2 ^ 53 - 1) (by norm_num [maxFloat])
    (by norm_num [maxFloat]) (by norm_num) hm]
  norm_num [maxFloat]

/-- The power `math.Pow(10, d)` is finite and at least 1 for `0 <= d <= 308`. -/
theorem pow10_of_le (d : ℕ) (hd : d ≤ 308) : ∃ r : ℚ, pow10 d = F64.fin r ∧ 1 ≤ r := by
  have h1 : (1 : ℚ) ≤ (10 : ℚ) ^ ((d : ℕ) : ℤ) := by
    rw [zpow_natCast]; exact one_le_pow₀ (by norm_num)
  have h2 : (10 : ℚ) ^ ((d : ℕ) : ℤ) ≤ maxFloat := by
    rw [zpow_natCast]
    calc (10 : ℚ) ^ d ≤ 10 ^ 308 := pow_le_pow_right₀ (by norm_num) hd
      _ ≤ maxFloat := by norm_num [maxFloat]
  have a1 := fl_mono h1
  rw [fl_one] at a1
  have a2 := fl_mono h2
  rw [fl_maxFloat] at a2
  have hM0 := maxFloat_pos
  refine ⟨fl ((10 : ℚ) ^ ((d : ℕ) : ℤ)), ?_, a1⟩
  have c1 : ¬ (308 : ℤ) < (d : ℤ) := by omega
  have c2 : ¬ ((d : ℕ) : ℤ) < -400 := by omega
  rw [pow10, if_neg c1, if_neg c2]
  exact round_of_fl_bounds _ _ rfl (by linarith) (by linarith)

/-- The call `ResetBoundaries(0, 0)` on a finite stepsize of at most 308 decimals leaves both
bounds at 0. -/
theorem ResetBoundaries64_zero_zero (pdr : DataRange64) (s : ℚ) (hs : pdr.stepsize = F64.fin s)
    (hd : decimals64 pdr.stepsize ≤ 308) :
    (ResetBoundaries64 pdr (F64.fin 0) (F64.fin 0)).low = F64.fin 0 ∧
    (ResetBoundaries64 pdr (F64.fin 0) (F64.fin 0)).high = F64.fin 0 := by
  obtain ⟨r, hr, hr1⟩ := pow10_of_le _ hd
  rw [hs] at hr
  have hr0 : r ≠ 0 := by linarith
  by_cases h0 : s = 0
  · simp [ResetBoundaries64, hs, h0, F64.eq, F64.lt]
  · have e1 : F64.div (F64.fin 0) (F64.fin s) = F64.fin 0 :=
      (F64.div_fin_fin 0 s h0).trans (round_of_eq_zero _ (by simp))
    have e2 : F64.mul (F64.fin 0) (F64.fin s) = F64.fin 0 :=
      (F64.mul_fin_fin 0 s).trans (round_of_eq_zero _ (by simp))
    have e3 : F64.mul (F64.fin 0) (F64.fin r) = F64.fin 0 :=
      (F64.mul_fin_fin 0 r).trans (round_of_eq_zero _ (by simp))
    have e4 : F64.div (F64.fin 0) (F64.fin r) = F64.fin 0 :=
      (F64.div_fin_fin 0 r hr0).trans (round_of_eq_zero _ (by simp))
    have hb : decide (s = 0) = false := decide_eq_false h0
    simp only [ResetBoundaries64, hr, hs, F64.eq_fin_fin, hb, F64.lt_fin_fin, lt_irrefl,
      decide_False, e1, e2, e3, e4, F64.floor_fin, F64.ceil_fin, Int.floor_zero, Int.ceil_zero,
      Int.cast_zero, Bool.not_false, if_true, if_false, Bool.false_eq_true, and_self]

theorem Enlarge64_of_not_pos (dr : DataRange64) (coef : F64)
    (hc : F64.lt (F64.fin 0) coef = false) :
    Enlarge64 dr coef = ResetBoundaries64 dr (F64.fin 0) (F64.fin 0) := by
  simp only [Enlarge64, hc, Bool.false_eq_true, if_false]

theorem F64.not_pos_of_le_zero (c : F64) (h : F64.le c (F64.fin 0) = true) :
    F64.lt (F64.fin 0) c = false := by
  cases c with
  | fin q =>
    rw [F64.le_fin_fin] at h
    rw [F64.lt_fin_fin]
    exact decide_eq_false (not_lt.2 (of_decide_eq_true h))
  | posInf => simp [F64.le] at h
  | negInf => rfl
  | nan => rfl

/-- The float64 nearest to `1e-310`, a subnormal number. -/
theorem lit_tiny : lit (1 / 10 ^ 310) = F64.fin (20240225330731 * 2 ^ (-1074 : ℤ)) :=
  round_pos_subnormal _ _ 20240225330731 (by norm_num) (by norm_num)
    (roundNearestEven_of_lt _ _ (by norm_num) (by norm_num)) (by norm_num)

/-- The shortest decimal text of the float64 `1e-310` has 310 decimals. -/
theorem decimals64_tiny : decimals64 (lit (1 / 10 ^ 310)) = 310 := by
  rw [lit_tiny]
  have hx : fl (1 / 10 ^ 310) = 20240225330731 * 2 ^ (-1074 : ℤ) := fl_of_round lit_tiny
  have hy : fl (1 / 10 ^ 309) = 202402253307311 * 2 ^ (-1074 : ℤ) :=
    fl_of_round (round_pos_subnormal _ _ 202402253307311 (by norm_num) (by norm_num)
      (roundNearestEven_of_lt _ _ (by norm_num) (by norm_num)) (by norm_num))
  apply decimals64_eq _ 310 (by norm_num)
  · apply roundTrips_of_ceil _ 310 1 (by norm_num [ceil_eq_neg_floor_neg])
    rw [← hx]; norm_num
  · intro k hk
    have hk9 : (10 : ℚ) ^ k ≤ 10 ^ 309 := pow_le_pow_right₀ (by norm_num) (by omega)
    have hk0 : (0 : ℚ) < 10 ^ k := by positivity
    have hxp : (0 : ℚ) < 20240225330731 * 2 ^ (-1074 : ℤ) := by positivity
    have hx9 : (20240225330731 * 2 ^ (-1074 : ℤ) : ℚ) * 10 ^ 309 < 1 := by norm_num
    have hlt : (20240225330731 * 2 ^ (-1074 : ℤ) : ℚ) * 10 ^ k < 1 :=
      lt_of_le_of_lt (mul_le_mul_of_nonneg_left hk9 hxp.le) hx9
    have hpos : (0 : ℚ) < 20240225330731 * 2 ^ (-1074 : ℤ) * 10 ^ k := mul_pos hxp hk0
    have e0 : ⌊(20240225330731 * 2 ^ (-1074 : ℤ) : ℚ) * 10 ^ k⌋ = 0 := by
      rw [Int.floor_eq_iff]; constructor
      · simpa using hpos.le
      · simpa using hlt
    have e1 : ⌈(20240225330731 * 2 ^ (-1074 : ℤ) : ℚ) * 10 ^ k⌉ = 1 := by
      rw [Int.ceil_eq_iff]; constructor
      · simpa using hpos
      · simpa using hlt.le
    apply roundTrips_false _ k 0 1 e0 e1
    · have : fl (((0 : ℤ) : ℚ) / 10 ^ k) = 0 := by simpa using fl_zero
      rw [this]; exact ne_of_lt hxp
    · have h9 : (1 : ℚ) / 10 ^ 309 ≤ ((1 : ℤ) : ℚ) / 10 ^ k := by
        rw [Int.cast_one]
        exact one_div_le_one_div_of_le hk0 hk9
      have := fl_mono h9
      rw [hy] at this
      have hxy : (20240225330731 * 2 ^ (-1074 : ℤ) : ℚ) < 202402253307311 * 2 ^ (-1074 : ℤ) := by
          norm_num
      exact ne_of_gt (lt_of_lt_of_le hxy this)

/-- With the stepsize `1e-310` the cleanup ratio `math.Pow(10, 310)` is `+Inf`, and
`ResetBoundaries(0, 0)` leaves NaN in both bounds. -/
theorem ResetBoundaries64_tiny (pdr : DataRange64) (hs : pdr.stepsize = lit (1 / 10 ^ 310)) :
    ResetBoundaries64 pdr (F64.fin 0) (F64.fin 0)
      = { pdr with low := F64.nan, high := F64.nan } := by
  have hd : decimals64 pdr.stepsize = 310 := by rw [hs]; exact decimals64_tiny
  have hne : (20240225330731 * 2 ^ (-1074 : ℤ) : ℚ) ≠ 0 := by norm_num
  have e1 : F64.div (F64.fin 0) (F64.fin (20240225330731 * 2 ^ (-1074 : ℤ))) = F64.fin 0 :=
    (F64.div_fin_fin 0 _ hne).trans (round_of_eq_zero _ (by simp))
  have e2 : F64.mul (F64.fin 0) (F64.fin (20240225330731 * 2 ^ (-1074 : ℤ))) = F64.fin 0 :=
    (F64.mul_fin_fin 0 _).trans (round_of_eq_zero _ (by simp))
  have hp : pow10 ((310 : ℕ) : ℤ) = F64.posInf := by
    rw [pow10, if_pos (by norm_num)]
  have hb : decide ((20240225330731 * 2 ^ (-1074 : ℤ) : ℚ) = 0) = false := decide_eq_false hne
  have hs2 : pdr.stepsize = F64.fin (20240225330731 * 2 ^ (-1074 : ℤ)) := hs.trans lit_tiny
  rw [hs2] at hd
  have m1 : F64.mul (F64.fin 0) F64.posInf = F64.nan := by simp [F64.mul]
  have f1 : F64.floor F64.nan = F64.nan := rfl
  have c1 : F64.ceil F64.nan = F64.nan := rfl
  have d1 : F64.div F64.nan F64.posInf = F64.nan := rfl
  simp only [ResetBoundaries64, hd, hp, hs2, F64.eq_fin_fin, hb, F64.lt_fin_fin, lt_irrefl,
    decide_False, e1, e2, F64.floor_fin, F64.ceil_fin, Int.floor_zero, Int.ceil_zero,
    Int.cast_zero, Bool.not_false, if_true, if_false, Bool.false_eq_true, m1, f1, c1, d1]

/-! ## The order of the bounds in float64 arithmetic -/

theorem round_ne_nan (q : ℚ) : F64.round q ≠ F64.nan := by
  rcases round_cases q with ⟨e, _⟩ | ⟨e, _⟩ | ⟨e, _⟩ <;> rw [e] <;> exact fun h => F64.noConfusion h

theorem round_le_round {p q : ℚ} (h : p ≤ q) : F64.le (F64.round p) (F64.round q) = true := by
  have hm := fl_mono h
  have hM := maxFloat_pos
  rcases round_cases p with ⟨e, a1, a2⟩ | ⟨e, a1⟩ | ⟨e, a1⟩ <;>
    rcases round_cases q with ⟨e', b1, b2⟩ | ⟨e', b1⟩ | ⟨e', b1⟩ <;> rw [e, e'] <;>
    first
      | rfl
      | exact decide_eq_true hm
      | (exfalso; linarith)

theorem round_nonneg {q : ℚ} (h : 0 ≤ q) : (F64.round q).IsNonNeg := by
  have h0 := fl_nonneg h
  have hM := maxFloat_pos
  rcases round_cases q with ⟨e, _, _⟩ | ⟨e, _⟩ | ⟨e, a1⟩
  · rw [e]; exact h0
  · rw [e]; trivial
  · exfalso; linarith

theorem F64.le_posInf {x : F64} (h : x ≠ F64.nan) : F64.le x F64.posInf = true := by
  cases x <;> first | rfl | exact absurd rfl h

theorem F64.negInf_le {x : F64} (h : x ≠ F64.nan) : F64.le F64.negInf x = true := by
  cases x <;> first | rfl | exact absurd rfl h

theorem F64.LeOrNaN_of_le {x y : F64} (h : F64.le x y = true) : F64.LeOrNaN x y :=
  Or.inr (Or.inr h)

theorem F64.LeOrNaN_posInf (x : F64) : F64.LeOrNaN x F64.posInf := by
  by_cases h : x = F64.nan
  · exact Or.inl h
  · exact Or.inr (Or.inr (F64.le_posInf h))

theorem F64.LeOrNaN_negInf (x : F64) : F64.LeOrNaN F64.negInf x := by
  by_cases h : x = F64.nan
  · exact Or.inr (Or.inl h)
  · exact Or.inr (Or.inr (F64.negInf_le h))

theorem F64.le_fin_of_true {a b : ℚ} (h : F64.le (F64.fin a) (F64.fin b) = true) : a ≤ b :=
  of_decide_eq_true h

theorem F64.mul_posInf_zero : F64.mul F64.posInf (F64.fin 0) = F64.nan := by
  simp only [F64.mul, if_true]

theorem F64.mul_negInf_zero : F64.mul F64.negInf (F64.fin 0) = F64.nan := by
  simp only [F64.mul, if_true]

/-- Multiplying by a float64 `>= 0` keeps the order, up to NaN. -/
theorem F64.LeOrNaN_mul {x y w : F64} (hw : w.IsNonNeg) (h : F64.LeOrNaN x y) :
    F64.LeOrNaN (F64.mul x w) (F64.mul y w) := by
  rcases h with rfl | rfl | h
  · exact Or.inl (by cases w <;> rfl)
  · exact Or.inr (Or.inl (by cases x <;> cases w <;> rfl))
  · cases w with
    | fin c =>
      have hc : 0 ≤ c := hw
      rcases eq_or_lt_of_le hc with h0 | hpos
      · subst h0
        cases x <;> cases y <;>
          first
            | exact absurd h Bool.false_ne_true
            | (refine F64.LeOrNaN_of_le (round_le_round (le_of_eq ?_)); rw [mul_zero, mul_zero])
            | exact Or.inl F64.mul_posInf_zero
            | exact Or.inl F64.mul_negInf_zero
            | exact Or.inr (Or.inl F64.mul_posInf_zero)
      · have hne : c ≠ 0 := hpos.ne'
        cases x <;> cases y <;>
          first
            | exact absurd h Bool.false_ne_true
            | exact F64.LeOrNaN_of_le
                (round_le_round (mul_le_mul_of_nonneg_right (F64.le_fin_of_true h) hc))
            | (simp only [F64.mul, if_neg hne, if_pos hpos]
               first
                 | exact F64.LeOrNaN_posInf _
                 | exact F64.LeOrNaN_negInf _)
    | posInf =>
      cases x with
      | fin a =>
        cases y with
        | fin b =>
          have hab := F64.le_fin_of_true h
          simp only [F64.mul]
          by_cases ha : a = 0
          · exact Or.inl (by rw [if_pos ha])
          · by_cases hb : b = 0
            · exact Or.inr (Or.inl (by rw [if_pos hb]))
            · rw [if_neg ha, if_neg hb]
              by_cases ha' : 0 < a
              · rw [if_pos ha', if_pos (lt_of_lt_of_le ha' hab)]
                exact F64.LeOrNaN_of_le rfl
              · rw [if_neg ha']
                exact F64.LeOrNaN_negInf _
        | posInf => exact F64.LeOrNaN_posInf _
        | negInf => exact absurd h Bool.false_ne_true
        | nan => exact Or.inr (Or.inl rfl)
      | posInf =>
        cases y <;>
          first
            | exact absurd h Bool.false_ne_true
            | exact F64.LeOrNaN_posInf _
      | negInf => exact F64.LeOrNaN_negInf _
      | nan => exact Or.inl rfl
    | negInf => exact absurd hw (by simp [F64.IsNonNeg])
    | nan => exact absurd hw (by simp [F64.IsNonNeg])

/-- Dividing by a float64 `>= 0` keeps the order, up to NaN. -/
theorem F64.LeOrNaN_div {x y w : F64} (hw : w.IsNonNeg) (h : F64.LeOrNaN x y) :
    F64.LeOrNaN (F64.div x w) (F64.div y w) := by
  rcases h with rfl | rfl | h
  · exact Or.inl (by cases w <;> rfl)
  · exact Or.inr (Or.inl (by cases x <;> cases w <;> rfl))
  · cases w with
    | fin c =>
      have hc : 0 ≤ c := hw
      rcases eq_or_lt_of_le hc with h0 | hpos
      · subst h0
        cases x with
        | fin a =>
          cases y with
          | fin b =>
            have hab := F64.le_fin_of_true h
            simp only [F64.div, if_true]
            by_cases ha : a = 0
            · exact Or.inl (by rw [if_pos ha])
            · by_cases hb : b = 0
              · exact Or.inr (Or.inl (by rw [if_pos hb]))
              · rw [if_neg ha, if_neg hb]
                by_cases ha' : 0 < a
                · rw [if_pos ha', if_pos (lt_of_lt_of_le ha' hab)]
                  exact F64.LeOrNaN_of_le rfl
                · rw [if_neg ha']
                  exact F64.LeOrNaN_negInf _
          | posInf =>
            simp only [F64.div, le_refl, if_true]
            exact F64.LeOrNaN_posInf _
          | negInf => exact absurd h Bool.false_ne_true
          | nan => exact Or.inr (Or.inl rfl)
        | posInf =>
          cases y <;>
            first
              | exact absurd h Bool.false_ne_true
              | (simp only [F64.div, le_refl, if_true]; exact F64.LeOrNaN_posInf _)
        | negInf =>
          simp only [F64.div, le_refl, if_true]
          exact F64.LeOrNaN_negInf _
        | nan => exact Or.inl rfl
      · have hne : c ≠ 0 := hpos.ne'
        cases x <;> cases y <;>
          first
            | exact absurd h Bool.false_ne_true
            | (rw [F64.div_fin_fin _ _ hne, F64.div_fin_fin _ _ hne]
               exact F64.LeOrNaN_of_le
                (round_le_round (div_le_div_of_nonneg_right (F64.le_fin_of_true h) hc)))
            | (simp only [F64.div, if_pos hc]
               first
                 | exact F64.LeOrNaN_posInf _
                 | exact F64.LeOrNaN_negInf _)
    | posInf =>
      cases x <;> cases y <;>
        first
          | exact absurd h Bool.false_ne_true
          | exact F64.LeOrNaN_of_le (decide_eq_true (le_refl (0 : ℚ)))
          | exact Or.inl rfl
          | exact Or.inr (Or.inl rfl)
    | negInf => exact absurd hw (by simp [F64.IsNonNeg])
    | nan => exact absurd hw (by simp [F64.IsNonNeg])

/-- Rounding the lower value down and the higher value up keeps the order. -/
theorem F64.LeOrNaN_floor_ceil {x y : F64} (h : F64.LeOrNaN x y) :
    F64.LeOrNaN (F64.floor x) (F64.ceil y) := by
  rcases h with rfl | rfl | h
  · exact Or.inl rfl
  · exact Or.inr (Or.inl rfl)
  · cases x <;> cases y <;>
      first
        | exact absurd h Bool.false_ne_true
        | exact F64.LeOrNaN_of_le h
        | (refine F64.LeOrNaN_of_le (decide_eq_true ?_)
           exact (Int.floor_le _).trans ((F64.le_fin_of_true h).trans (Int.le_ceil _)))

/-- The sort at the head of `ResetBoundaries`. -/
theorem F64.LeOrNaN_sort (a b : F64) :
    F64.LeOrNaN (if F64.lt a b then a else b) (if F64.lt a b then b else a) := by
  cases a <;> cases b <;>
    first
      | exact Or.inl rfl
      | exact Or.inr (Or.inl rfl)
      | exact F64.LeOrNaN_of_le rfl
      | skip
  rename_i p q
  simp only [F64.lt_fin_fin]
  by_cases hpq : p < q
  · simp only [hpq, decide_True, if_true]
    exact F64.LeOrNaN_of_le (decide_eq_true hpq.le)
  · simp only [hpq, decide_False, if_false, Bool.false_eq_true]
    exact F64.LeOrNaN_of_le (decide_eq_true (not_lt.1 hpq))

theorem pow10_nonneg (e : ℤ) : (pow10 e).IsNonNeg := by
  unfold pow10
  split_ifs
  · trivial
  · exact le_refl (0 : ℚ)
  · exact round_nonneg (by positivity)

/-- The method `ResetBoundaries` returns ordered bounds, up to NaN, on every stepsize `>= 0`. -/
theorem ResetBoundaries64_LeOrNaN (pdr : DataRange64) (a b : F64)
    (hs : pdr.stepsize.IsNonNeg) :
    F64.LeOrNaN (ResetBoundaries64 pdr a b).low (ResetBoundaries64 pdr a b).high := by
  have h0 := F64.LeOrNaN_sort a b
  by_cases hz : (!F64.eq pdr.stepsize (F64.fin 0)) = true
  · simp only [ResetBoundaries64, if_pos hz]
    exact F64.LeOrNaN_div (pow10_nonneg _)
      (F64.LeOrNaN_floor_ceil (F64.LeOrNaN_mul (pow10_nonneg _)
        (F64.LeOrNaN_mul hs (F64.LeOrNaN_floor_ceil (F64.LeOrNaN_div hs h0)))))
  · simp only [ResetBoundaries64, if_neg hz]
    exact h0

theorem selectStepsize64_nonneg (a b maxsteps : F64) (exp : ℤ) :
    ∀ l : List ℚ, (∀ x ∈ l, 0 < x) → (selectStepsize64 a b maxsteps exp l).IsNonNeg := by
  intro l
  induction l with
  | nil => intro _; exact le_refl (0 : ℚ)
  | cons c rest ih =>
    intro hl
    have hc : 0 < c := hl c (List.mem_cons_self _ _)
    simp only [selectStepsize64]
    split_ifs
    · have hp := pow10_nonneg exp
      cases hq : pow10 exp with
      | fin r =>
        rw [hq] at hp
        exact round_nonneg (mul_nonneg hc.le hp)
      | posInf => simp only [F64.mul, if_neg hc.ne', if_pos hc]; trivial
      | negInf => rw [hq] at hp; exact absurd hp (by simp [F64.IsNonNeg])
      | nan => rw [hq] at hp; exact absurd hp (by simp [F64.IsNonNeg])
    · exact ih (fun x hx => hl x (List.mem_cons_of_mem _ hx))

theorem F64.isNonNeg_of_le {s : F64} (h : F64.le (F64.fin 0) s = true) : s.IsNonNeg := by
  cases s with
  | fin q => exact F64.le_fin_of_true h
  | posInf => trivial
  | negInf => exact absurd h Bool.false_ne_true
  | nan => exact absurd h Bool.false_ne_true

/-- The stepsize of a range returned by `Make` is `>= 0`. -/
theorem Make64_stepsize_nonneg (a b stepsize : F64) (unit : String) :
    (Make64 a b stepsize unit).stepsize.IsNonNeg := by
  unfold Make64
  split_ifs with h
  · rw [ResetBoundaries64_stepsize]; exact F64.isNonNeg_of_le h
  · simp only [ResetBoundaries64_stepsize]
    apply selectStepsize64_nonneg
    intro x hx
    simp only [basicstepsizes, List.mem_cons, List.mem_singleton, List.not_mem_nil,
      or_false] at hx
    rcases hx with rfl | rfl | rfl | rfl | rfl | rfl <;> norm_num

theorem Reachable64_stepsize_nonneg {dr : DataRange64} (h : Reachable64 dr) :
    dr.stepsize.IsNonNeg := by
  induction h with
  | make a b stepsize unit => exact Make64_stepsize_nonneg a b stepsize unit
  | reset dr a b _ ih => rw [ResetBoundaries64_stepsize]; exact ih
  | enlarge dr coef _ ih =>
    unfold Enlarge64
    simp only [ResetBoundaries64_stepsize]; exact ih

theorem Reachable64_LeOrNaN {dr : DataRange64} (h : Reachable64 dr) :
    F64.LeOrNaN dr.low dr.high := by
  cases h with
  | make a b stepsize unit =>
    unfold Make64
    split_ifs with hc
    · exact ResetBoundaries64_LeOrNaN _ _ _ (F64.isNonNeg_of_le hc)
    · refine ResetBoundaries64_LeOrNaN _ _ _ ?_
      have := Make64_stepsize_nonneg a b stepsize unit
      unfold Make64 at this
      rw [if_neg hc] at this
      simpa only [ResetBoundaries64_stepsize] using this
  | reset dr a b h1 => exact ResetBoundaries64_LeOrNaN _ _ _ (Reachable64_stepsize_nonneg h1)
  | enlarge dr coef h1 =>
    unfold Enlarge64
    exact ResetBoundaries64_LeOrNaN _ _ _ (Reachable64_stepsize_nonneg h1)

/-- The difference of ordered bounds is `>= 0`, up to NaN. -/
theorem Delta64_nonneg_of_le {dr : DataRange64} (h : F64.le dr.low dr.high = true) :
    Delta64 dr = F64.nan ∨ F64.le (F64.fin 0) (Delta64 dr) = true := by
  unfold Delta64
  cases hl : dr.low <;> cases hh : dr.high <;> rw [hl, hh] at h <;>
    first
      | exact absurd h Bool.false_ne_true
      | exact Or.inl rfl
      | exact Or.inr rfl
      | skip
  rename_i p q
  right
  have := round_nonneg (sub_nonneg.2 (F64.le_fin_of_true h))
  rw [F64.sub_fin_fin]
  cases hr : F64.round (q - p) with
  | fin d => rw [hr] at this; exact decide_eq_true this
  | posInf => rfl
  | negInf => rw [hr] at this; exact absurd this (by simp [F64.IsNonNeg])
  | nan => rw [hr] at this; exact absurd this (by simp [F64.IsNonNeg])

/-! ## The automatic stepsize in float64 arithmetic -/

theorem pow10_neg_six : pow10 (-6) = F64.fin (4722366482869645 / 4722366482869645213696) := by
  rw [pow10, if_neg (by norm_num), if_neg (by norm_num)]
  exact (round_pos ((10 : ℚ) ^ (-6 : ℤ)) (4722366482869645 / 4722366482869645213696) (-20)
      4722366482869645 (by norm_num) (by norm_num) (by norm_num) (by norm_num)
      (roundNearestEven_of_lt _ _ (by norm_num) (by norm_num)) (by norm_num))

/-- The stepsize of `Make(5e-7, 3.2e-6, -3, u)`: the second candidate,
`2.5 * math.Pow(10, -6)`, which is the float64 `2.4999999999999998e-06`. -/
theorem Make64_stepsize_example (u : String) :
    (Make64 (lit (5 / 10 ^ 7)) (lit (32 / 10 ^ 7)) (lit (-3)) u).stepsize
      = F64.fin (368934881474191 / 147573952589676412928) := by
  have hl1 : lit (5 / 10 ^ 7) = F64.fin (4722366482869645 / 9444732965739290427392) :=
    (round_pos (5 / 10 ^ 7) (4722366482869645 / 9444732965739290427392) (-21) 4722366482869645 (by
        norm_num) (by norm_num) (by norm_num) (by norm_num) (roundNearestEven_of_lt _ _ (by
        norm_num) (by norm_num)) (by norm_num))
  have hl2 : lit (32 / 10 ^ 7) = F64.fin (944473296573929 / 295147905179352825856) :=
    (round_pos (32 / 10 ^ 7) (944473296573929 / 295147905179352825856) (-19) 7555786372591432 (by
        norm_num) (by norm_num) (by norm_num) (by norm_num) (roundNearestEven_of_lt _ _ (by
        norm_num) (by norm_num)) (by norm_num))
  have hl3 : lit (-3) = F64.fin (-3) :=
    (round_neg (-3) (-3) (1) 6755399441055744 (by norm_num) (by norm_num) (by norm_num) (by
        norm_num) (roundNearestEven_of_lt _ _ (by norm_num) (by norm_num)) (by norm_num))
  have hb4 : decide ((0 : ℚ) ≤ (-3)) = false :=
    by norm_num
  have h5 : F64.sub (F64.fin (944473296573929 / 295147905179352825856)) (F64.fin (4722366482869645 /
      9444732965739290427392)) = F64.fin (6375194751874021 / 2361183241434822606848) :=
    (F64.sub_fin_fin (944473296573929 / 295147905179352825856) (4722366482869645 /
        9444732965739290427392)).trans (round_pos ((944473296573929 / 295147905179352825856) -
        (4722366482869645 / 9444732965739290427392)) (6375194751874021 / 2361183241434822606848)
        (-19) 6375194751874021 (by norm_num) (by norm_num) (by norm_num) (by norm_num)
        (roundNearestEven_of_lt _ _ (by norm_num) (by norm_num)) (by norm_num))
  have hb6 : decide (((6375194751874021 / 2361183241434822606848) : ℚ) < 0) = false :=
    by norm_num
  have h7 : F64.div (F64.fin (6375194751874021 / 2361183241434822606848)) (F64.fin 3) = F64.fin
      (8500259669165361 / 9444732965739290427392) :=
    (F64.div_fin_fin (6375194751874021 / 2361183241434822606848) 3 (by norm_num)).trans (round_pos
        ((6375194751874021 / 2361183241434822606848) / 3) (8500259669165361 /
        9444732965739290427392) (-21) 8500259669165361 (by norm_num) (by norm_num) (by norm_num) (by
        norm_num) (roundNearestEven_of_lt _ _ (by norm_num) (by norm_num)) (by norm_num))
  have h8 : F64.mul (F64.fin 1) (F64.fin (4722366482869645 / 4722366482869645213696)) = F64.fin
      (4722366482869645 / 4722366482869645213696) :=
    (F64.mul_fin_fin 1 (4722366482869645 / 4722366482869645213696)).trans (round_pos (1 *
        (4722366482869645 / 4722366482869645213696)) (4722366482869645 / 4722366482869645213696)
        (-20) 4722366482869645 (by norm_num) (by norm_num) (by norm_num) (by norm_num)
        (roundNearestEven_of_lt _ _ (by norm_num) (by norm_num)) (by norm_num))
  have h9 : F64.div (F64.fin (4722366482869645 / 9444732965739290427392)) (F64.fin (4722366482869645
      / 4722366482869645213696)) = F64.fin (1 / 2) :=
    (F64.div_fin_fin (4722366482869645 / 9444732965739290427392) (4722366482869645 /
        4722366482869645213696) (by norm_num)).trans (round_pos ((4722366482869645 /
        9444732965739290427392) / (4722366482869645 / 4722366482869645213696)) (1 / 2) (-1)
        4503599627370496 (by norm_num) (by norm_num) (by norm_num) (by norm_num)
        (roundNearestEven_of_lt _ _ (by norm_num) (by norm_num)) (by norm_num))
  have hf10 : ⌊((1 / 2) : ℚ)⌋ = 0 :=
    by norm_num
  have h11 : F64.mul (F64.fin 0) (F64.fin (4722366482869645 / 4722366482869645213696)) = F64.fin 0
      :=
    (F64.mul_fin_fin 0 (4722366482869645 / 4722366482869645213696)).trans (round_of_eq_zero (0 *
        (4722366482869645 / 4722366482869645213696)) (by norm_num))
  have h12 : F64.div (F64.fin (944473296573929 / 295147905179352825856)) (F64.fin (4722366482869645
      / 4722366482869645213696)) = F64.fin (3602879701896397 / 1125899906842624) :=
    (F64.div_fin_fin (944473296573929 / 295147905179352825856) (4722366482869645 /
        4722366482869645213696) (by norm_num)).trans (round_pos ((944473296573929 /
        295147905179352825856) / (4722366482869645 / 4722366482869645213696)) (3602879701896397 /
        1125899906842624) (1) 7205759403792794 (by norm_num) (by norm_num) (by norm_num) (by
        norm_num) (roundNearestEven_of_lt _ _ (by norm_num) (by norm_num)) (by norm_num))
  have hc13 : ⌈((3602879701896397 / 1125899906842624) : ℚ)⌉ = 4 :=
    by norm_num [ceil_eq_neg_floor_neg]
  have h14 : F64.mul (F64.fin 4) (F64.fin (4722366482869645 / 4722366482869645213696)) = F64.fin
      (4722366482869645 / 1180591620717411303424) :=
    (F64.mul_fin_fin 4 (4722366482869645 / 4722366482869645213696)).trans (round_pos (4 *
        (4722366482869645 / 4722366482869645213696)) (4722366482869645 / 1180591620717411303424)
        (-18) 4722366482869645 (by norm_num) (by norm_num) (by norm_num) (by norm_num)
        (roundNearestEven_of_lt _ _ (by norm_num) (by norm_num)) (by norm_num))
  have h15 : F64.sub (F64.fin (4722366482869645 / 1180591620717411303424)) (F64.fin 0) = F64.fin
      (4722366482869645 / 1180591620717411303424) :=
    (F64.sub_fin_fin (4722366482869645 / 1180591620717411303424) 0).trans (round_pos
        ((4722366482869645 / 1180591620717411303424) - 0) (4722366482869645 /
        1180591620717411303424) (-18) 4722366482869645 (by norm_num) (by norm_num) (by norm_num) (by
        norm_num) (roundNearestEven_of_lt _ _ (by norm_num) (by norm_num)) (by norm_num))
  have h16 : F64.mul (F64.fin (4722366482869645 / 4722366482869645213696)) (F64.fin 3) = F64.fin
      (1770887431076117 / 590295810358705651712) :=
    (F64.mul_fin_fin (4722366482869645 / 4722366482869645213696) 3).trans (round_pos
        ((4722366482869645 / 4722366482869645213696) * 3) (1770887431076117 / 590295810358705651712)
        (-19) 7083549724304468 (by norm_num) (by norm_num) (by norm_num) (by norm_num)
        (roundNearestEven_tie _ 7083549724304467 _ (by norm_num) (by decide)) (by norm_num))
  have hb17 : decide (((4722366482869645 / 1180591620717411303424) : ℚ) ≤ (1770887431076117 /
      590295810358705651712)) = false :=
    by norm_num
  have h18 : F64.mul (F64.fin (5 / 2)) (F64.fin (4722366482869645 / 4722366482869645213696)) =
      F64.fin (368934881474191 / 147573952589676412928) :=
    (F64.mul_fin_fin (5 / 2) (4722366482869645 / 4722366482869645213696)).trans (round_pos ((5 / 2)
        * (4722366482869645 / 4722366482869645213696)) (368934881474191 / 147573952589676412928)
        (-19) 5902958103587056 (by norm_num) (by norm_num) (by norm_num) (by norm_num)
        (roundNearestEven_of_lt _ _ (by norm_num) (by norm_num)) (by norm_num))
  have h19 : F64.div (F64.fin (4722366482869645 / 9444732965739290427392)) (F64.fin (368934881474191
      / 147573952589676412928)) = F64.fin (3602879701896397 / 18014398509481984) :=
    (F64.div_fin_fin (4722366482869645 / 9444732965739290427392) (368934881474191 /
        147573952589676412928) (by norm_num)).trans (round_pos ((4722366482869645 /
        9444732965739290427392) / (368934881474191 / 147573952589676412928)) (3602879701896397 /
        18014398509481984) (-3) 7205759403792794 (by norm_num) (by norm_num) (by norm_num) (by
        norm_num) (roundNearestEven_of_lt _ _ (by norm_num) (by norm_num)) (by norm_num))
  have hf20 : ⌊((3602879701896397 / 18014398509481984) : ℚ)⌋ = 0 :=
    by norm_num
  have h21 : F64.mul (F64.fin 0) (F64.fin (368934881474191 / 147573952589676412928)) = F64.fin 0 :=
    (F64.mul_fin_fin 0 (368934881474191 / 147573952589676412928)).trans (round_of_eq_zero (0 *
        (368934881474191 / 147573952589676412928)) (by norm_num))
  have h22 : F64.div (F64.fin (944473296573929 / 295147905179352825856)) (F64.fin (368934881474191 /
      147573952589676412928)) = F64.fin (5764607523034235 / 4503599627370496) :=
    (F64.div_fin_fin (944473296573929 / 295147905179352825856) (368934881474191 /
        147573952589676412928) (by norm_num)).trans (round_pos ((944473296573929 /
        295147905179352825856) / (368934881474191 / 147573952589676412928)) (5764607523034235 /
        4503599627370496) (0) 5764607523034235 (by norm_num) (by norm_num) (by norm_num) (by
        norm_num) (roundNearestEven_of_lt _ _ (by norm_num) (by norm_num)) (by norm_num))
  have hc23 : ⌈((5764607523034235 / 4503599627370496) : ℚ)⌉ = 2 :=
    by norm_num [ceil_eq_neg_floor_neg]
  have h24 : F64.mul (F64.fin 2) (F64.fin (368934881474191 / 147573952589676412928)) = F64.fin
      (368934881474191 / 73786976294838206464) :=
    (F64.mul_fin_fin 2 (368934881474191 / 147573952589676412928)).trans (round_pos (2 *
        (368934881474191 / 147573952589676412928)) (368934881474191 / 73786976294838206464) (-18)
        5902958103587056 (by norm_num) (by norm_num) (by norm_num) (by norm_num)
        (roundNearestEven_of_lt _ _ (by norm_num) (by norm_num)) (by norm_num))
  have h25 : F64.sub (F64.fin (368934881474191 / 73786976294838206464)) (F64.fin 0) = F64.fin
      (368934881474191 / 73786976294838206464) :=
    (F64.sub_fin_fin (368934881474191 / 73786976294838206464) 0).trans (round_pos ((368934881474191
        / 73786976294838206464) - 0) (368934881474191 / 73786976294838206464) (-18) 5902958103587056
        (by norm_num) (by norm_num) (by norm_num) (by norm_num) (roundNearestEven_of_lt _ _ (by
        norm_num) (by norm_num)) (by norm_num))
  have h26 : F64.mul (F64.fin (368934881474191 / 147573952589676412928)) (F64.fin 3) = F64.fin
      (1106804644422573 / 147573952589676412928) :=
    (F64.mul_fin_fin (368934881474191 / 147573952589676412928) 3).trans (round_pos ((368934881474191
        / 147573952589676412928) * 3) (1106804644422573 / 147573952589676412928) (-18)
        8854437155380584 (by norm_num) (by norm_num) (by norm_num) (by norm_num)
        (roundNearestEven_of_lt _ _ (by norm_num) (by norm_num)) (by norm_num))
  have hb27 : decide (((368934881474191 / 73786976294838206464) : ℚ) ≤ (1106804644422573 /
      147573952589676412928)) = true :=
    by norm_num
  have hexp : exponent64 (F64.fin (8500259669165361 / 9444732965739290427392)) = -6 := by
    rw [exponent64, if_pos (by norm_num),
      intLog10Succ_of_lt (-6) (by norm_num) (by norm_num) (by norm_num) (by norm_num)]
    norm_num
  have hneg : F64.neg (F64.fin (-3)) = F64.fin 3 := by
    simp only [F64.neg, neg_neg]
  simp only [Make64, ResetBoundaries64_stepsize, basicstepsizes, selectStepsize64, budgetTest64,
    hl1, hl2, hl3, hb4, h5, hb6, h7, h8, h9, hf10, h11, h12, hc13, h14, h15, h16, hb17, h18, h19,
        hf20, h21, h22, hc23, h24, h25, h26, hb27, hneg, hexp, pow10_neg_six, F64.lt_fin_fin,
        F64.le_fin_fin, F64.eq_fin_fin, F64.floor_fin, F64.ceil_fin, Int.cast_ofNat, Int.cast_zero,
        Int.cast_one, Int.floor_zero, Bool.not_false, Bool.not_true, if_true, if_false,
        Bool.false_eq_true]

/-- The float64 `2.4999999999999998e-06` is the float64 nearest to no `m * 10^k` with
`m` in `1, 2.5, 5`, and is itself no such number. -/
theorem stepsize_example_not_nice (k : ℤ) (m : ℚ) (hm : m = 1 ∨ m = 5 / 2 ∨ m = 5) :
    lit (m * 10 ^ k) ≠ F64.fin (368934881474191 / 147573952589676412928) ∧ m * 10 ^ k ≠
        (368934881474191 / 147573952589676412928) := by
  have w1 : fl (5 * (10 : ℚ) ^ (-7 : ℤ)) = (4722366482869645 / 9444732965739290427392) :=
      fl_of_round (round_pos (5 * (10 : ℚ) ^ (-7 : ℤ)) (4722366482869645 / 9444732965739290427392)
      (-21) 4722366482869645 (by norm_num) (by norm_num) (by norm_num) (by norm_num)
      (roundNearestEven_of_lt _ _ (by norm_num) (by norm_num)) (by norm_num))
  have w2 : fl (1 * (10 : ℚ) ^ (-5 : ℤ)) = (5902958103587057 / 590295810358705651712) := fl_of_round
      (round_pos (1 * (10 : ℚ) ^ (-5 : ℤ)) (5902958103587057 / 590295810358705651712) (-17)
      5902958103587057 (by norm_num) (by norm_num) (by norm_num) (by norm_num)
      (roundNearestEven_of_lt _ _ (by norm_num) (by norm_num)) (by norm_num))
  have e1 : fl (1 * (10 : ℚ) ^ (-6 : ℤ)) = (4722366482869645 / 4722366482869645213696) :=
      fl_of_round (round_pos (1 * (10 : ℚ) ^ (-6 : ℤ)) (4722366482869645 / 4722366482869645213696)
      (-20) 4722366482869645 (by norm_num) (by norm_num) (by norm_num) (by norm_num)
      (roundNearestEven_of_lt _ _ (by norm_num) (by norm_num)) (by norm_num))
  have e2 : fl (5 / 2 * (10 : ℚ) ^ (-6 : ℤ)) = (5902958103587057 / 2361183241434822606848) :=
      fl_of_round (round_pos (5 / 2 * (10 : ℚ) ^ (-6 : ℤ)) (5902958103587057 /
      2361183241434822606848) (-19) 5902958103587057 (by norm_num) (by norm_num) (by norm_num) (by
      norm_num) (roundNearestEven_of_lt _ _ (by norm_num) (by norm_num)) (by norm_num))
  have e3 : fl (5 * (10 : ℚ) ^ (-6 : ℤ)) = (5902958103587057 / 1180591620717411303424) :=
      fl_of_round (round_pos (5 * (10 : ℚ) ^ (-6 : ℤ)) (5902958103587057 / 1180591620717411303424)
      (-18) 5902958103587057 (by norm_num) (by norm_num) (by norm_num) (by norm_num)
      (roundNearestEven_of_lt _ _ (by norm_num) (by norm_num)) (by norm_num))
  have hm1 : (1 : ℚ) ≤ m := by rcases hm with h | h | h <;> rw [h] <;> norm_num
  have hm5 : m ≤ 5 := by rcases hm with h | h | h <;> rw [h] <;> norm_num
  have hk0 : (0 : ℚ) < 10 ^ k := by positivity
  rcases (by omega : k ≤ -7 ∨ k = -6 ∨ -5 ≤ k) with hk | hk | hk
  · have h10 : (10 : ℚ) ^ k ≤ 10 ^ (-7 : ℤ) := zpow_le_zpow_right₀ (by norm_num) hk
    have hle : m * 10 ^ k ≤ 5 * (10 : ℚ) ^ (-7 : ℤ) :=
      mul_le_mul hm5 h10 hk0.le (by norm_num)
    have hfl := fl_mono hle
    rw [w1] at hfl
    constructor
    · intro h
      rw [fl_of_round h] at hfl
      norm_num at hfl
    · intro h
      rw [h] at hle
      norm_num at hle
  · subst hk
    rcases hm with h | h | h <;> subst h
    · constructor
      · intro h
        have := (fl_of_round h).symm.trans e1
        norm_num at this
      · norm_num
    · constructor
      · intro h
        have := (fl_of_round h).symm.trans e2
        norm_num at this
      · norm_num
    · constructor
      · intro h
        have := (fl_of_round h).symm.trans e3
        norm_num at this
      · norm_num
  · have h10 : (10 : ℚ) ^ (-5 : ℤ) ≤ 10 ^ k := zpow_le_zpow_right₀ (by norm_num) hk
    have hle : 1 * (10 : ℚ) ^ (-5 : ℤ) ≤ m * 10 ^ k :=
      mul_le_mul hm1 h10 (by positivity) (by linarith)
    have hfl := fl_mono hle
    rw [w2] at hfl
    constructor
    · intro h
      rw [fl_of_round h] at hfl
      norm_num at hfl
    · intro h
      rw [h] at hle
      norm_num at hle

/-! ## Claims in float64 arithmetic -/

/-- C4 (NaN bounds): `Make(0, 0, 1e-310, "m")`, on finite bounds and a finite directive
`>= 0`, returns `low = NaN` and `high = NaN`, so `low <= high` is false, and `Delta()`
is NaN, so `Delta() >= 0` is false.  The stepsize has 310 decimals, the cleanup ratio
`math.Pow(10, 310)` is `+Inf`, and `0 * +Inf` is NaN. -/
theorem C4_bounds_nan_for_tiny_stepsize :
    Make64 (lit 0) (lit 0) (lit (1 / 10 ^ 310)) "m"
      = { unit := "m", stepsize := lit (1 / 10 ^ 310), low := F64.nan, high := F64.nan } ∧
    F64.le (Make64 (lit 0) (lit 0) (lit (1 / 10 ^ 310)) "m").low
      (Make64 (lit 0) (lit 0) (lit (1 / 10 ^ 310)) "m").high = false ∧
    Delta64 (Make64 (lit 0) (lit 0) (lit (1 / 10 ^ 310)) "m") = F64.nan ∧
    F64.le (F64.fin 0) (Delta64 (Make64 (lit 0) (lit 0) (lit (1 / 10 ^ 310)) "m")) = false := by
  have hle : F64.le (F64.fin 0) (lit (1 / 10 ^ 310)) = true := by
    rw [lit_tiny, F64.le_fin_fin]; exact decide_eq_true (by positivity)
  have hmk : Make64 (lit 0) (lit 0) (lit (1 / 10 ^ 310)) "m"
      = { unit := "m", stepsize := lit (1 / 10 ^ 310), low := F64.nan, high := F64.nan } := by
    rw [Make64_of_nonneg _ _ _ _ hle, lit_zero, ResetBoundaries64_tiny _ rfl]
  rw [hmk]
  exact ⟨rfl, rfl, rfl, rfl⟩

/-- C4 (amended): on every range obtained from `Make`, on any bounds and any directive,
by `ResetBoundaries` and `Enlarge` with any arguments: `low <= high` unless `low` or
`high` is NaN, and `Delta() >= 0` unless `Delta()` is NaN; in particular `low <= high`
and `Delta() >= 0` whenever both bounds are finite. -/
theorem C4_low_le_high_unless_nan (dr : DataRange64) (h : Reachable64 dr) :
    (dr.low = F64.nan ∨ dr.high = F64.nan ∨ F64.le dr.low dr.high = true) ∧
    (Delta64 dr = F64.nan ∨ F64.le (F64.fin 0) (Delta64 dr) = true) ∧
    (∀ l h : ℚ, dr.low = F64.fin l → dr.high = F64.fin h →
      l ≤ h ∧ F64.le (F64.fin 0) (Delta64 dr) = true) := by
  have hr : dr.low = F64.nan ∨ dr.high = F64.nan ∨ F64.le dr.low dr.high = true :=
    Reachable64_LeOrNaN h
  have hd : Delta64 dr = F64.nan ∨ F64.le (F64.fin 0) (Delta64 dr) = true := by
    rcases hr with h1 | h1 | h1
    · left; unfold Delta64; rw [h1]; cases dr.high <;> rfl
    · left; unfold Delta64; rw [h1]; cases dr.low <;> rfl
    · exact Delta64_nonneg_of_le h1
  refine ⟨hr, hd, ?_⟩
  intro l h' hl hh
  have hle : F64.le dr.low dr.high = true := by
    rcases hr with h1 | h1 | h1
    · rw [hl] at h1; exact F64.noConfusion h1
    · rw [hh] at h1; exact F64.noConfusion h1
    · exact h1
  refine ⟨?_, ?_⟩
  · rw [hl, hh] at hle; exact F64.le_fin_of_true hle
  · rcases hd with h1 | h1
    · exfalso
      unfold Delta64 at h1
      rw [hl, hh, F64.sub_fin_fin] at h1
      exact round_ne_nan _ h1
    · exact h1

/-- C4 (amended), at the range `Make(0, 100, 1, "m")`. -/
theorem C4_low_le_high_unless_nan_witness :
    Reachable64 (Make64 (lit 0) (lit 100) (lit 1) "m") ∧
    ((Make64 (lit 0) (lit 100) (lit 1) "m").low = F64.nan ∨
      (Make64 (lit 0) (lit 100) (lit 1) "m").high = F64.nan ∨
      F64.le (Make64 (lit 0) (lit 100) (lit 1) "m").low
        (Make64 (lit 0) (lit 100) (lit 1) "m").high = true) :=
  ⟨Reachable64.make _ _ _ _,
    (C4_low_le_high_unless_nan _ (Reachable64.make (lit 0) (lit 100) (lit 1) "m")).1⟩

/-- C5 (the code breaks the alignment): in float64 arithmetic `Make(0, 0.5, 0.2, u)`
returns `low = 0` and `high = 0.7`: `ceil(0.5/0.2) * 0.2` is `0.6000000000000001`, and
the dust cleanup `ceil(0.6000000000000001 * 10) / 10` lifts it to `0.7`, which is no
integer multiple of the stepsize `0.2`, neither as a float64 product nor exactly. -/
theorem C5_high_not_a_multiple (u : String) :
    Make64 (lit 0) (lit (1 / 2)) (lit (1 / 5)) u
      = { unit := u, stepsize := lit (1 / 5), low := F64.fin 0, high := lit (7 / 10) } ∧
    (∀ k : ℤ, F64.mul (F64.fin k) (lit (1 / 5)) ≠ lit (7 / 10)) ∧
    (∃ s h : ℚ, lit (1 / 5) = F64.fin s ∧ lit (7 / 10) = F64.fin h ∧
      ∀ k : ℤ, (k : ℚ) * s ≠ h) := by
  have hl1 : lit (1 / 5) = F64.fin (3602879701896397 / 18014398509481984) :=
    (round_pos (1 / 5) (3602879701896397 / 18014398509481984) (-3) 7205759403792794 (by norm_num)
        (by norm_num) (by norm_num) (by norm_num) (roundNearestEven_of_lt _ _ (by norm_num) (by
        norm_num)) (by norm_num))
  have hl2 : lit (1 / 2) = F64.fin (1 / 2) :=
    (round_pos (1 / 2) (1 / 2) (-1) 4503599627370496 (by norm_num) (by norm_num) (by norm_num) (by
        norm_num) (roundNearestEven_of_lt _ _ (by norm_num) (by norm_num)) (by norm_num))
  have hl3 : lit (7 / 10) = F64.fin (3152519739159347 / 4503599627370496) :=
    (round_pos (7 / 10) (3152519739159347 / 4503599627370496) (-1) 6305039478318694 (by norm_num)
        (by norm_num) (by norm_num) (by norm_num) (roundNearestEven_of_lt _ _ (by norm_num) (by
        norm_num)) (by norm_num))
  have h4 : F64.div (F64.fin (1 / 2)) (F64.fin (3602879701896397 / 18014398509481984)) = F64.fin (5
      / 2) :=
    (F64.div_fin_fin (1 / 2) (3602879701896397 / 18014398509481984) (by norm_num)).trans (round_pos
        ((1 / 2) / (3602879701896397 / 18014398509481984)) (5 / 2) (1) 5629499534213120 (by
        norm_num) (by norm_num) (by norm_num) (by norm_num) (roundNearestEven_of_lt _ _ (by
        norm_num) (by norm_num)) (by norm_num))
  have hc5 : ⌈((5 / 2) : ℚ)⌉ = 3 :=
    by norm_num [ceil_eq_neg_floor_neg]
  have h6 : F64.mul (F64.fin 3) (F64.fin (3602879701896397 / 18014398509481984)) = F64.fin
      (1351079888211149 / 2251799813685248) :=
    (F64.mul_fin_fin 3 (3602879701896397 / 18014398509481984)).trans (round_pos (3 *
        (3602879701896397 / 18014398509481984)) (1351079888211149 / 2251799813685248) (-1)
        5404319552844596 (by norm_num) (by norm_num) (by norm_num) (by norm_num)
        (roundNearestEven_tie _ 5404319552844595 _ (by norm_num) (by decide)) (by norm_num))
  have h7 : F64.mul (F64.fin (1351079888211149 / 2251799813685248)) (F64.fin 10) = F64.fin
      (6755399441055745 / 1125899906842624) :=
    (F64.mul_fin_fin (1351079888211149 / 2251799813685248) 10).trans (round_pos ((1351079888211149 /
        2251799813685248) * 10) (6755399441055745 / 1125899906842624) (2) 6755399441055745 (by
        norm_num) (by norm_num) (by norm_num) (by norm_num) (roundNearestEven_of_lt _ _ (by
        norm_num) (by norm_num)) (by norm_num))
  have hc8 : ⌈((6755399441055745 / 1125899906842624) : ℚ)⌉ = 7 :=
    by norm_num [ceil_eq_neg_floor_neg]
  have h9 : F64.div (F64.fin 7) (F64.fin 10) = F64.fin (3152519739159347 / 4503599627370496) :=
    (F64.div_fin_fin 7 10 (by norm_num)).trans (round_pos (7 / 10) (3152519739159347 /
        4503599627370496) (-1) 6305039478318694 (by norm_num) (by norm_num) (by norm_num) (by
        norm_num) (roundNearestEven_of_lt _ _ (by norm_num) (by norm_num)) (by norm_num))
  have h10 : F64.div (F64.fin 0) (F64.fin (3602879701896397 / 18014398509481984)) = F64.fin 0 :=
    (F64.div_fin_fin 0 (3602879701896397 / 18014398509481984) (by norm_num)).trans (round_of_eq_zero
        (0 / (3602879701896397 / 18014398509481984)) (by norm_num))
  have h11 : F64.mul (F64.fin 0) (F64.fin (3602879701896397 / 18014398509481984)) = F64.fin 0 :=
    (F64.mul_fin_fin 0 (3602879701896397 / 18014398509481984)).trans (round_of_eq_zero (0 *
        (3602879701896397 / 18014398509481984)) (by norm_num))
  have h12 : F64.mul (F64.fin 0) (F64.fin 10) = F64.fin 0 :=
    (F64.mul_fin_fin 0 10).trans (round_of_eq_zero (0 * 10) (by norm_num))
  have h13 : F64.div (F64.fin 0) (F64.fin 10) = F64.fin 0 :=
    (F64.div_fin_fin 0 10 (by norm_num)).trans (round_of_eq_zero (0 / 10) (by norm_num))
  have hb14 : decide (((3602879701896397 / 18014398509481984) : ℚ) = 0) = false :=
    by norm_num
  have hb15 : decide ((0 : ℚ) < (1 / 2)) = true :=
    by norm_num
  have h16 : F64.mul (F64.fin 3) (F64.fin (3602879701896397 / 18014398509481984)) = F64.fin
      (1351079888211149 / 2251799813685248) :=
    (F64.mul_fin_fin 3 (3602879701896397 / 18014398509481984)).trans (round_pos (3 *
        (3602879701896397 / 18014398509481984)) (1351079888211149 / 2251799813685248) (-1)
        5404319552844596 (by norm_num) (by norm_num) (by norm_num) (by norm_num)
        (roundNearestEven_tie _ 5404319552844595 _ (by norm_num) (by decide)) (by norm_num))
  have h17 : F64.mul (F64.fin 4) (F64.fin (3602879701896397 / 18014398509481984)) = F64.fin
      (3602879701896397 / 4503599627370496) :=
    (F64.mul_fin_fin 4 (3602879701896397 / 18014398509481984)).trans (round_pos (4 *
        (3602879701896397 / 18014398509481984)) (3602879701896397 / 4503599627370496) (-1)
        7205759403792794 (by norm_num) (by norm_num) (by norm_num) (by norm_num)
        (roundNearestEven_of_lt _ _ (by norm_num) (by norm_num)) (by norm_num))
  have hd : decimals64 (F64.fin (3602879701896397 / 18014398509481984)) = 1 :=
    decimals64_eq_one _ 2 (by norm_num) (by norm_num) (by norm_num)
      ((fl_of_round hl1).symm ▸ (by norm_num : fl (((2 : ℤ) : ℚ) / 10 ^ 1) = fl (1 / 5)))
  have hmk : Make64 (lit 0) (lit (1 / 2)) (lit (1 / 5)) u
      = { unit := u, stepsize := lit (1 / 5), low := F64.fin 0, high := lit (7 / 10) } := by
    rw [Make64_of_nonneg _ _ _ _ (by rw [hl1, F64.le_fin_fin]; norm_num)]
    simp only [ResetBoundaries64, lit_zero, hl1, hl2, hl3, h4, hc5, h6, h7, hc8, h9, h10, h11, h12,
        h13, hb14, hb15, h16, h17, hd, pow10_one, Nat.cast_one, F64.lt_fin_fin, F64.le_fin_fin,
        F64.eq_fin_fin, F64.floor_fin, F64.ceil_fin, Int.cast_ofNat, Int.cast_zero, Int.cast_one,
        Int.floor_zero, Bool.not_false, Bool.not_true, if_true, if_false, Bool.false_eq_true]
  refine ⟨hmk, ?_, ⟨_, _, hl1, hl3, ?_⟩⟩
  · intro k hk
    rw [hl1, hl3, F64.mul_fin_fin] at hk
    have hfl := fl_of_round hk
    rcases le_or_lt k 3 with h3 | h3
    · have h3' : (k : ℚ) ≤ 3 := by exact_mod_cast h3
      have := fl_mono (show (k : ℚ) * (3602879701896397 / 18014398509481984) ≤ 3 * (3602879701896397
          / 18014398509481984) by nlinarith)
      rw [hfl, fl_of_round ((F64.mul_fin_fin _ _).symm.trans h16)] at this
      norm_num at this
    · have h4' : (4 : ℚ) ≤ k := by exact_mod_cast h3
      have := fl_mono (show 4 * (3602879701896397 / 18014398509481984) ≤ (k : ℚ) * (3602879701896397
          / 18014398509481984) by nlinarith)
      rw [hfl, fl_of_round ((F64.mul_fin_fin _ _).symm.trans h17)] at this
      norm_num at this
  · intro k hk
    rcases le_or_lt k 3 with h3 | h3
    · have h3' : (k : ℚ) ≤ 3 := by exact_mod_cast h3
      nlinarith
    · have h4' : (4 : ℚ) ≤ k := by exact_mod_cast h3
      nlinarith

/-- C6 (the dust cleanup moves the high bound): in float64 arithmetic
`Make(0, 0.3, 0.1, u)` returns `high = 0.4`.  Before the cleanup the high bound is
`ceil(0.3/0.1) * 0.1 = 3 * 0.1 = 0.30000000000000004`, a multiple of the stepsize that
is `>= 0.3`; the cleanup `ceil(0.30000000000000004 * 10) / 10` lifts it a whole step,
so the returned high bound is neither `ceil(max/s) * s` nor the least multiple of the
stepsize that is `>= max(a, b)`. -/
theorem C6_cleanup_moves_high (u : String) :
    Make64 (lit 0) (lit (3 / 10)) (lit (1 / 10)) u
      = { unit := u, stepsize := lit (1 / 10), low := F64.fin 0, high := lit (2 / 5) } ∧
    F64.mul (F64.ceil (F64.div (lit (3 / 10)) (lit (1 / 10)))) (lit (1 / 10))
      = F64.mul (F64.fin 3) (lit (1 / 10)) ∧
    F64.le (lit (3 / 10)) (F64.mul (F64.fin 3) (lit (1 / 10))) = true ∧
    F64.lt (F64.mul (F64.fin 3) (lit (1 / 10))) (lit (2 / 5)) = true := by
  have hl1 : lit (1 / 10) = F64.fin (3602879701896397 / 36028797018963968) :=
    (round_pos (1 / 10) (3602879701896397 / 36028797018963968) (-4) 7205759403792794 (by norm_num)
        (by norm_num) (by norm_num) (by norm_num) (roundNearestEven_of_lt _ _ (by norm_num) (by
        norm_num)) (by norm_num))
  have hl2 : lit (3 / 10) = F64.fin (5404319552844595 / 18014398509481984) :=
    (round_pos (3 / 10) (5404319552844595 / 18014398509481984) (-2) 5404319552844595 (by norm_num)
        (by norm_num) (by norm_num) (by norm_num) (roundNearestEven_of_lt _ _ (by norm_num) (by
        norm_num)) (by norm_num))
  have hl3 : lit (2 / 5) = F64.fin (3602879701896397 / 9007199254740992) :=
    (round_pos (2 / 5) (3602879701896397 / 9007199254740992) (-2) 7205759403792794 (by norm_num) (by
        norm_num) (by norm_num) (by norm_num) (roundNearestEven_of_lt _ _ (by norm_num) (by
        norm_num)) (by norm_num))
  have h4 : F64.div (F64.fin (5404319552844595 / 18014398509481984)) (F64.fin (3602879701896397 /
      36028797018963968)) = F64.fin (6755399441055743 / 2251799813685248) :=
    (F64.div_fin_fin (5404319552844595 / 18014398509481984) (3602879701896397 / 36028797018963968)
        (by norm_num)).trans (round_pos ((5404319552844595 / 18014398509481984) / (3602879701896397
        / 36028797018963968)) (6755399441055743 / 2251799813685248) (1) 6755399441055743 (by
        norm_num) (by norm_num) (by norm_num) (by norm_num) (roundNearestEven_of_lt _ _ (by
        norm_num) (by norm_num)) (by norm_num))
  have hc5 : ⌈((6755399441055743 / 2251799813685248) : ℚ)⌉ = 3 :=
    by norm_num [ceil_eq_neg_floor_neg]
  have h6 : F64.mul (F64.fin 3) (F64.fin (3602879701896397 / 36028797018963968)) = F64.fin
      (1351079888211149 / 4503599627370496) :=
    (F64.mul_fin_fin 3 (3602879701896397 / 36028797018963968)).trans (round_pos (3 *
        (3602879701896397 / 36028797018963968)) (1351079888211149 / 4503599627370496) (-2)
        5404319552844596 (by norm_num) (by norm_num) (by norm_num) (by norm_num)
        (roundNearestEven_tie _ 5404319552844595 _ (by norm_num) (by decide)) (by norm_num))
  have h7 : F64.mul (F64.fin (1351079888211149 / 4503599627370496)) (F64.fin 10) = F64.fin
      (6755399441055745 / 2251799813685248) :=
    (F64.mul_fin_fin (1351079888211149 / 4503599627370496) 10).trans (round_pos ((1351079888211149 /
        4503599627370496) * 10) (6755399441055745 / 2251799813685248) (1) 6755399441055745 (by
        norm_num) (by norm_num) (by norm_num) (by norm_num) (roundNearestEven_of_lt _ _ (by
        norm_num) (by norm_num)) (by norm_num))
  have hc8 : ⌈((6755399441055745 / 2251799813685248) : ℚ)⌉ = 4 :=
    by norm_num [ceil_eq_neg_floor_neg]
  have h9 : F64.div (F64.fin 4) (F64.fin 10) = F64.fin (3602879701896397 / 9007199254740992) :=
    (F64.div_fin_fin 4 10 (by norm_num)).trans (round_pos (4 / 10) (3602879701896397 /
        9007199254740992) (-2) 7205759403792794 (by norm_num) (by norm_num) (by norm_num) (by
        norm_num) (roundNearestEven_of_lt _ _ (by norm_num) (by norm_num)) (by norm_num))
  have h10 : F64.div (F64.fin 0) (F64.fin (3602879701896397 / 36028797018963968)) = F64.fin 0 :=
    (F64.div_fin_fin 0 (3602879701896397 / 36028797018963968) (by norm_num)).trans (round_of_eq_zero
        (0 / (3602879701896397 / 36028797018963968)) (by norm_num))
  have h11 : F64.mul (F64.fin 0) (F64.fin (3602879701896397 / 36028797018963968)) = F64.fin 0 :=
    (F64.mul_fin_fin 0 (3602879701896397 / 36028797018963968)).trans (round_of_eq_zero (0 *
        (3602879701896397 / 36028797018963968)) (by norm_num))
  have h12 : F64.mul (F64.fin 0) (F64.fin 10) = F64.fin 0 :=
    (F64.mul_fin_fin 0 10).trans (round_of_eq_zero (0 * 10) (by norm_num))
  have h13 : F64.div (F64.fin 0) (F64.fin 10) = F64.fin 0 :=
    (F64.div_fin_fin 0 10 (by norm_num)).trans (round_of_eq_zero (0 / 10) (by norm_num))
  have hb14 : decide (((3602879701896397 / 36028797018963968) : ℚ) = 0) = false :=
    by norm_num
  have hb15 : decide ((0 : ℚ) < (5404319552844595 / 18014398509481984)) = true :=
    by norm_num
  have hd : decimals64 (F64.fin (3602879701896397 / 36028797018963968)) = 1 :=
    decimals64_eq_one _ 1 (by norm_num) (by norm_num) (by norm_num)
      ((fl_of_round hl1).symm ▸ (by norm_num : fl (((1 : ℤ) : ℚ) / 10 ^ 1) = fl (1 / 10)))
  refine ⟨?_, ?_, ?_, ?_⟩
  · rw [Make64_of_nonneg _ _ _ _ (by rw [hl1, F64.le_fin_fin]; norm_num)]
    simp only [ResetBoundaries64, lit_zero, hl1, hl2, hl3, h4, hc5, h6, h7, hc8, h9, h10, h11, h12,
        h13, hb14, hb15, hd, pow10_one, Nat.cast_one, F64.lt_fin_fin, F64.le_fin_fin,
        F64.eq_fin_fin, F64.floor_fin, F64.ceil_fin, Int.cast_ofNat, Int.cast_zero, Int.cast_one,
        Int.floor_zero, Bool.not_false, Bool.not_true, if_true, if_false, Bool.false_eq_true]
  · simp only [hl1, hl2, h4, hc5, F64.lt_fin_fin, F64.le_fin_fin, F64.eq_fin_fin, F64.floor_fin,
      F64.ceil_fin, Int.cast_ofNat, Int.cast_zero, Int.cast_one, Int.floor_zero, Bool.not_false,
      Bool.not_true, if_true, if_false, Bool.false_eq_true]
  · rw [hl1, hl2, h6, F64.le_fin_fin]; norm_num
  · rw [hl1, hl3, h6, F64.lt_fin_fin]; norm_num

/-- C10 (the calculated stepsize is not always a nice number): in float64 arithmetic
`Make(5e-7, 3.2e-6, -3, u)` (`a != b`, `maxSteps = 3`) has the stepsize
`2.5 * math.Pow(10, -6)`, the second candidate of the ladder and the first one that
passes the budget test.  This product is the float64 `2.4999999999999998e-06`, below
the float64 `2.5e-06`; for every integer `k` and every `m` in `1, 2.5, 5` it differs
from the float64 nearest to `m * 10^k` and from the number `m * 10^k` itself. -/
theorem C10_stepsize_not_nice (u : String) :
    (Make64 (lit (5 / 10 ^ 7)) (lit (32 / 10 ^ 7)) (lit (-3)) u).stepsize
      = F64.mul (F64.fin (5 / 2)) (pow10 (-6)) ∧
    budgetTest64 (lit (5 / 10 ^ 7)) (lit (32 / 10 ^ 7)) (F64.fin 3)
      (F64.mul (F64.fin 1) (pow10 (-6))) = false ∧
    budgetTest64 (lit (5 / 10 ^ 7)) (lit (32 / 10 ^ 7)) (F64.fin 3)
      (F64.mul (F64.fin (5 / 2)) (pow10 (-6))) = true ∧
    F64.lt (Make64 (lit (5 / 10 ^ 7)) (lit (32 / 10 ^ 7)) (lit (-3)) u).stepsize
      (lit (25 / 10 ^ 7)) = true ∧
    (∀ (k : ℤ) (m : ℚ), m = 1 ∨ m = 5 / 2 ∨ m = 5 →
      lit (m * 10 ^ k) ≠ (Make64 (lit (5 / 10 ^ 7)) (lit (32 / 10 ^ 7)) (lit (-3)) u).stepsize) ∧
    (∃ v : ℚ, (Make64 (lit (5 / 10 ^ 7)) (lit (32 / 10 ^ 7)) (lit (-3)) u).stepsize = F64.fin v ∧
      ∀ (k : ℤ) (m : ℚ), m = 1 ∨ m = 5 / 2 ∨ m = 5 → m * 10 ^ k ≠ v) := by
  have hl1 : lit (5 / 10 ^ 7) = F64.fin (4722366482869645 / 9444732965739290427392) :=
    (round_pos (5 / 10 ^ 7) (4722366482869645 / 9444732965739290427392) (-21) 4722366482869645 (by
        norm_num) (by norm_num) (by norm_num) (by norm_num) (roundNearestEven_of_lt _ _ (by
        norm_num) (by norm_num)) (by norm_num))
  have hl2 : lit (32 / 10 ^ 7) = F64.fin (944473296573929 / 295147905179352825856) :=
    (round_pos (32 / 10 ^ 7) (944473296573929 / 295147905179352825856) (-19) 7555786372591432 (by
        norm_num) (by norm_num) (by norm_num) (by norm_num) (roundNearestEven_of_lt _ _ (by
        norm_num) (by norm_num)) (by norm_num))
  have hl3 : lit (-3) = F64.fin (-3) :=
    (round_neg (-3) (-3) (1) 6755399441055744 (by norm_num) (by norm_num) (by norm_num) (by
        norm_num) (roundNearestEven_of_lt _ _ (by norm_num) (by norm_num)) (by norm_num))
  have hb4 : decide ((0 : ℚ) ≤ (-3)) = false :=
    by norm_num
  have h5 : F64.sub (F64.fin (944473296573929 / 295147905179352825856)) (F64.fin (4722366482869645 /
      9444732965739290427392)) = F64.fin (6375194751874021 / 2361183241434822606848) :=
    (F64.sub_fin_fin (944473296573929 / 295147905179352825856) (4722366482869645 /
        9444732965739290427392)).trans (round_pos ((944473296573929 / 295147905179352825856) -
        (4722366482869645 / 9444732965739290427392)) (6375194751874021 / 2361183241434822606848)
        (-19) 6375194751874021 (by norm_num) (by norm_num) (by norm_num) (by norm_num)
        (roundNearestEven_of_lt _ _ (by norm_num) (by norm_num)) (by norm_num))
  have hb6 : decide (((6375194751874021 / 2361183241434822606848) : ℚ) < 0) = false :=
    by norm_num
  have h7 : F64.div (F64.fin (6375194751874021 / 2361183241434822606848)) (F64.fin 3) = F64.fin
      (8500259669165361 / 9444732965739290427392) :=
    (F64.div_fin_fin (6375194751874021 / 2361183241434822606848) 3 (by norm_num)).trans (round_pos
        ((6375194751874021 / 2361183241434822606848) / 3) (8500259669165361 /
        9444732965739290427392) (-21) 8500259669165361 (by norm_num) (by norm_num) (by norm_num) (by
        norm_num) (roundNearestEven_of_lt _ _ (by norm_num) (by norm_num)) (by norm_num))
  have h8 : F64.mul (F64.fin 1) (F64.fin (4722366482869645 / 4722366482869645213696)) = F64.fin
      (4722366482869645 / 4722366482869645213696) :=
    (F64.mul_fin_fin 1 (4722366482869645 / 4722366482869645213696)).trans (round_pos (1 *
        (4722366482869645 / 4722366482869645213696)) (4722366482869645 / 4722366482869645213696)
        (-20) 4722366482869645 (by norm_num) (by norm_num) (by norm_num) (by norm_num)
        (roundNearestEven_of_lt _ _ (by norm_num) (by norm_num)) (by norm_num))
  have h9 : F64.div (F64.fin (4722366482869645 / 9444732965739290427392)) (F64.fin (4722366482869645
      / 4722366482869645213696)) = F64.fin (1 / 2) :=
    (F64.div_fin_fin (4722366482869645 / 9444732965739290427392) (4722366482869645 /
        4722366482869645213696) (by norm_num)).trans (round_pos ((4722366482869645 /
        9444732965739290427392) / (4722366482869645 / 4722366482869645213696)) (1 / 2) (-1)
        4503599627370496 (by norm_num) (by norm_num) (by norm_num) (by norm_num)
        (roundNearestEven_of_lt _ _ (by norm_num) (by norm_num)) (by norm_num))
  have hf10 : ⌊((1 / 2) : ℚ)⌋ = 0 :=
    by norm_num
  have h11 : F64.mul (F64.fin 0) (F64.fin (4722366482869645 / 4722366482869645213696)) = F64.fin 0
      :=
    (F64.mul_fin_fin 0 (4722366482869645 / 4722366482869645213696)).trans (round_of_eq_zero (0 *
        (4722366482869645 / 4722366482869645213696)) (by norm_num))
  have h12 : F64.div (F64.fin (944473296573929 / 295147905179352825856)) (F64.fin (4722366482869645
      / 4722366482869645213696)) = F64.fin (3602879701896397 / 1125899906842624) :=
    (F64.div_fin_fin (944473296573929 / 295147905179352825856) (4722366482869645 /
        4722366482869645213696) (by norm_num)).trans (round_pos ((944473296573929 /
        295147905179352825856) / (4722366482869645 / 4722366482869645213696)) (3602879701896397 /
        1125899906842624) (1) 7205759403792794 (by norm_num) (by norm_num) (by norm_num) (by
        norm_num) (roundNearestEven_of_lt _ _ (by norm_num) (by norm_num)) (by norm_num))
  have hc13 : ⌈((3602879701896397 / 1125899906842624) : ℚ)⌉ = 4 :=
    by norm_num [ceil_eq_neg_floor_neg]
  have h14 : F64.mul (F64.fin 4) (F64.fin (4722366482869645 / 4722366482869645213696)) = F64.fin
      (4722366482869645 / 1180591620717411303424) :=
    (F64.mul_fin_fin 4 (4722366482869645 / 4722366482869645213696)).trans (round_pos (4 *
        (4722366482869645 / 4722366482869645213696)) (4722366482869645 / 1180591620717411303424)
        (-18) 4722366482869645 (by norm_num) (by norm_num) (by norm_num) (by norm_num)
        (roundNearestEven_of_lt _ _ (by norm_num) (by norm_num)) (by norm_num))
  have h15 : F64.sub (F64.fin (4722366482869645 / 1180591620717411303424)) (F64.fin 0) = F64.fin
      (4722366482869645 / 1180591620717411303424) :=
    (F64.sub_fin_fin (4722366482869645 / 1180591620717411303424) 0).trans (round_pos
        ((4722366482869645 / 1180591620717411303424) - 0) (4722366482869645 /
        1180591620717411303424) (-18) 4722366482869645 (by norm_num) (by norm_num) (by norm_num) (by
        norm_num) (roundNearestEven_of_lt _ _ (by norm_num) (by norm_num)) (by norm_num))
  have h16 : F64.mul (F64.fin (4722366482869645 / 4722366482869645213696)) (F64.fin 3) = F64.fin
      (1770887431076117 / 590295810358705651712) :=
    (F64.mul_fin_fin (4722366482869645 / 4722366482869645213696) 3).trans (round_pos
        ((4722366482869645 / 4722366482869645213696) * 3) (1770887431076117 / 590295810358705651712)
        (-19) 7083549724304468 (by norm_num) (by norm_num) (by norm_num) (by norm_num)
        (roundNearestEven_tie _ 7083549724304467 _ (by norm_num) (by decide)) (by norm_num))
  have hb17 : decide (((4722366482869645 / 1180591620717411303424) : ℚ) ≤ (1770887431076117 /
      590295810358705651712)) = false :=
    by norm_num
  have h18 : F64.mul (F64.fin (5 / 2)) (F64.fin (4722366482869645 / 4722366482869645213696)) =
      F64.fin (368934881474191 / 147573952589676412928) :=
    (F64.mul_fin_fin (5 / 2) (4722366482869645 / 4722366482869645213696)).trans (round_pos ((5 / 2)
        * (4722366482869645 / 4722366482869645213696)) (368934881474191 / 147573952589676412928)
        (-19) 5902958103587056 (by norm_num) (by norm_num) (by norm_num) (by norm_num)
        (roundNearestEven_of_lt _ _ (by norm_num) (by norm_num)) (by norm_num))
  have h19 : F64.div (F64.fin (4722366482869645 / 9444732965739290427392)) (F64.fin (368934881474191
      / 147573952589676412928)) = F64.fin (3602879701896397 / 18014398509481984) :=
    (F64.div_fin_fin (4722366482869645 / 9444732965739290427392) (368934881474191 /
        147573952589676412928) (by norm_num)).trans (round_pos ((4722366482869645 /
        9444732965739290427392) / (368934881474191 / 147573952589676412928)) (3602879701896397 /
        18014398509481984) (-3) 7205759403792794 (by norm_num) (by norm_num) (by norm_num) (by
        norm_num) (roundNearestEven_of_lt _ _ (by norm_num) (by norm_num)) (by norm_num))
  have hf20 : ⌊((3602879701896397 / 18014398509481984) : ℚ)⌋ = 0 :=
    by norm_num
  have h21 : F64.mul (F64.fin 0) (F64.fin (368934881474191 / 147573952589676412928)) = F64.fin 0 :=
    (F64.mul_fin_fin 0 (368934881474191 / 147573952589676412928)).trans (round_of_eq_zero (0 *
        (368934881474191 / 147573952589676412928)) (by norm_num))
  have h22 : F64.div (F64.fin (944473296573929 / 295147905179352825856)) (F64.fin (368934881474191 /
      147573952589676412928)) = F64.fin (5764607523034235 / 4503599627370496) :=
    (F64.div_fin_fin (944473296573929 / 295147905179352825856) (368934881474191 /
        147573952589676412928) (by norm_num)).trans (round_pos ((944473296573929 /
        295147905179352825856) / (368934881474191 / 147573952589676412928)) (5764607523034235 /
        4503599627370496) (0) 5764607523034235 (by norm_num) (by norm_num) (by norm_num) (by
        norm_num) (roundNearestEven_of_lt _ _ (by norm_num) (by norm_num)) (by norm_num))
  have hc23 : ⌈((5764607523034235 / 4503599627370496) : ℚ)⌉ = 2 :=
    by norm_num [ceil_eq_neg_floor_neg]
  have h24 : F64.mul (F64.fin 2) (F64.fin (368934881474191 / 147573952589676412928)) = F64.fin
      (368934881474191 / 73786976294838206464) :=
    (F64.mul_fin_fin 2 (368934881474191 / 147573952589676412928)).trans (round_pos (2 *
        (368934881474191 / 147573952589676412928)) (368934881474191 / 73786976294838206464) (-18)
        5902958103587056 (by norm_num) (by norm_num) (by norm_num) (by norm_num)
        (roundNearestEven_of_lt _ _ (by norm_num) (by norm_num)) (by norm_num))
  have h25 : F64.sub (F64.fin (368934881474191 / 73786976294838206464)) (F64.fin 0) = F64.fin
      (368934881474191 / 73786976294838206464) :=
    (F64.sub_fin_fin (368934881474191 / 73786976294838206464) 0).trans (round_pos ((368934881474191
        / 73786976294838206464) - 0) (368934881474191 / 73786976294838206464) (-18) 5902958103587056
        (by norm_num) (by norm_num) (by norm_num) (by norm_num) (roundNearestEven_of_lt _ _ (by
        norm_num) (by norm_num)) (by norm_num))
  have h26 : F64.mul (F64.fin (368934881474191 / 147573952589676412928)) (F64.fin 3) = F64.fin
      (1106804644422573 / 147573952589676412928) :=
    (F64.mul_fin_fin (368934881474191 / 147573952589676412928) 3).trans (round_pos ((368934881474191
        / 147573952589676412928) * 3) (1106804644422573 / 147573952589676412928) (-18)
        8854437155380584 (by norm_num) (by norm_num) (by norm_num) (by norm_num)
        (roundNearestEven_of_lt _ _ (by norm_num) (by norm_num)) (by norm_num))
  have hb27 : decide (((368934881474191 / 73786976294838206464) : ℚ) ≤ (1106804644422573 /
      147573952589676412928)) = true :=
    by norm_num
  have hnice : lit (25 / 10 ^ 7) = F64.fin (5902958103587057 / 2361183241434822606848) :=
    (round_pos (25 / 10 ^ 7) (5902958103587057 / 2361183241434822606848) (-19) 5902958103587057 (by
        norm_num) (by norm_num) (by norm_num) (by norm_num) (roundNearestEven_of_lt _ _ (by
        norm_num) (by norm_num)) (by norm_num))
  rw [Make64_stepsize_example u]
  refine ⟨?_, ?_, ?_, ?_, fun k m hm => (stepsize_example_not_nice k m hm).1,
    ⟨_, rfl, fun k m hm => (stepsize_example_not_nice k m hm).2⟩⟩
  · simp only [pow10_neg_six, hl1, hl2, hl3, hb4, h5, hb6, h7, h8, h9, hf10, h11, h12, hc13, h14,
      h15, h16, hb17, h18, h19, hf20, h21, h22, hc23, h24, h25, h26, hb27]
  · simp only [budgetTest64, pow10_neg_six, hl1, hl2, hl3, hb4, h5, hb6, h7, h8, h9, hf10, h11, h12,
      hc13, h14, h15, h16, hb17, h18, h19, hf20, h21, h22, hc23, h24, h25, h26, hb27,
      F64.lt_fin_fin, F64.le_fin_fin, F64.eq_fin_fin, F64.floor_fin, F64.ceil_fin, Int.cast_ofNat,
      Int.cast_zero, Int.cast_one, Int.floor_zero, Bool.not_false, Bool.not_true, if_true, if_false,
      Bool.false_eq_true]
  · simp only [budgetTest64, pow10_neg_six, hl1, hl2, hl3, hb4, h5, hb6, h7, h8, h9, hf10, h11, h12,
      hc13, h14, h15, h16, hb17, h18, h19, hf20, h21, h22, hc23, h24, h25, h26, hb27,
      F64.lt_fin_fin, F64.le_fin_fin, F64.eq_fin_fin, F64.floor_fin, F64.ceil_fin, Int.cast_ofNat,
      Int.cast_zero, Int.cast_one, Int.floor_zero, Bool.not_false, Bool.not_true, if_true, if_false,
      Bool.false_eq_true]
  · rw [hnice, F64.lt_fin_fin]; norm_num

/-- C11 (overflow of the span): the range `Make(-2^1023, 2^1023, 0, "m")` has finite
bounds `low < high`, and `Progress(high)` is NaN, not 1: `high - low` overflows to
`+Inf`, in the span and in the numerator, and `+Inf / +Inf` is NaN, which neither clamp
test catches. -/
theorem C11_progress_nan_on_overflow :
    Make64 (F64.fin (-(2 ^ (1023 : ℤ)))) (F64.fin (2 ^ (1023 : ℤ))) (F64.fin 0) "m"
      = { unit := "m", stepsize := F64.fin 0, low := F64.fin (-(2 ^ (1023 : ℤ))),
          high := F64.fin (2 ^ (1023 : ℤ)) } ∧
    fl (2 ^ (1023 : ℤ)) = 2 ^ (1023 : ℤ) ∧ fl (-(2 ^ (1023 : ℤ))) = -(2 ^ (1023 : ℤ)) ∧
    -((2 : ℚ) ^ (1023 : ℤ)) < 2 ^ (1023 : ℤ) ∧
    Progress64 (Make64 (F64.fin (-(2 ^ (1023 : ℤ)))) (F64.fin (2 ^ (1023 : ℤ))) (F64.fin 0) "m")
      (F64.fin (2 ^ (1023 : ℤ))) = F64.nan ∧
    Progress64 (Make64 (F64.fin (-(2 ^ (1023 : ℤ)))) (F64.fin (2 ^ (1023 : ℤ))) (F64.fin 0) "m")
      (F64.fin (2 ^ (1023 : ℤ))) ≠ F64.fin 1 := by
  have hP : (0 : ℚ) < 2 ^ (1023 : ℤ) := two_zpow_pos _
  have hp : fl ((2 : ℚ) ^ (1023 : ℤ)) = 2 ^ (1023 : ℤ) := fl_two_zpow 1023 (by norm_num)
  have hov : F64.round ((2 : ℚ) ^ (1023 : ℤ) - -(2 ^ (1023 : ℤ))) = F64.posInf := by
    apply round_overflow
    have : (2 : ℚ) ^ (1024 : ℤ) = 2 ^ (1023 : ℤ) * 2 :=
      zpow_add_one₀ (by norm_num : (2 : ℚ) ≠ 0) 1023
    rw [this]; linarith
  obtain ⟨hmk, hnan⟩ := Progress64_nan_of_overflow "m" _ hP hov
  refine ⟨hmk, hp, by rw [fl_neg, hp], neg_lt_self hP, hnan, ?_⟩
  rw [hnan]; exact fun h => F64.noConfusion h

/-- C11 (amended): `Progress` is the clamped linear interpolation on every range whose
span does not overflow.  For a range with finite bounds `low < high` such that
`high - low` is not `+Inf`: `Progress(v)` is 0 for every finite `v <= low` and for
`-Inf`, 1 for every finite `v >= high` and for `+Inf`, and the float64 quotient
`(v - low) / (high - low)` for `low < v < high`; hence `Progress(low) = 0`,
`Progress(high) = 1`, and the result for a finite `v` is a number of `[0, 1]`.  The two
cases of `TestProgress` hold: `Make(0, 100, 1, u).Progress(10) = 0.1` and
`Make(10000, 20000, 1, u).Progress(12000) = 0.2`. -/
theorem C11_progress_clamped_without_overflow (dr : DataRange64) (l h x : ℚ)
    (hlow : dr.low = F64.fin l) (hhigh : dr.high = F64.fin h)
    (hl : fl l = l) (hh : fl h = h) (hlt : l < h)
    (hfin : F64.sub dr.high dr.low ≠ F64.posInf) :
    (x ≤ l → Progress64 dr (F64.fin x) = F64.fin 0) ∧
    (h ≤ x → Progress64 dr (F64.fin x) = F64.fin 1) ∧
    (l < x → x < h → Progress64 dr (F64.fin x)
      = F64.div (F64.sub (F64.fin x) dr.low) (F64.sub dr.high dr.low)) ∧
    Progress64 dr F64.negInf = F64.fin 0 ∧
    Progress64 dr F64.posInf = F64.fin 1 ∧
    Progress64 dr dr.low = F64.fin 0 ∧
    Progress64 dr dr.high = F64.fin 1 ∧
    (∃ r : ℚ, Progress64 dr (F64.fin x) = F64.fin r ∧ 0 ≤ r ∧ r ≤ 1) ∧
    (∀ u : String, Progress64 (Make64 (lit 0) (lit 100) (lit 1) u) (lit 10) = lit (1 / 10)) ∧
    (∀ u : String,
      Progress64 (Make64 (lit 10000) (lit 20000) (lit 1) u) (lit 12000) = lit (1 / 5)) := by
  rw [hlow, hhigh] at hfin
  obtain ⟨rng, hr, hpos⟩ := span_of_not_overflow hl hh hlt hfin
  refine ⟨Progress64_le_low hlow hhigh hr hpos, Progress64_ge_high hlow hhigh hr hpos,
    fun h1 h2 => (Progress64_between hlow hhigh hr hpos h1.le h2.le).1, ?_, ?_, ?_, ?_, ?_,
    Progress64_example_tenth, Progress64_example_fifth⟩
  · rw [Progress64_of_span hlow hhigh hr hpos]
    simp [F64.sub, F64.div, F64.lt, hpos.le]
  · rw [Progress64_of_span hlow hhigh hr hpos]
    simp [F64.sub, F64.div, F64.lt, hpos.le]
  · rw [hlow]; exact Progress64_le_low hlow hhigh hr hpos le_rfl
  · rw [hhigh]; exact Progress64_ge_high hlow hhigh hr hpos le_rfl
  · rcases le_or_lt x l with c1 | c1
    · exact ⟨0, Progress64_le_low hlow hhigh hr hpos c1, le_rfl, zero_le_one⟩
    · rcases le_or_lt h x with c2 | c2
      · exact ⟨1, Progress64_ge_high hlow hhigh hr hpos c2, zero_le_one, le_rfl⟩
      · exact (Progress64_between hlow hhigh hr hpos c1.le c2.le).2

/-- C11 (amended), at the range `[0, 100]` and the value 25. -/
theorem C11_progress_clamped_without_overflow_witness :
    fl 0 = 0 ∧ fl 100 = 100 ∧ (0 : ℚ) < 100 ∧
    F64.sub (F64.fin 100) (F64.fin 0) ≠ F64.posInf ∧
    Progress64 { unit := "meter", stepsize := F64.fin 1, low := F64.fin 0, high := F64.fin 100 }
      (F64.fin 25)
      = F64.div (F64.sub (F64.fin 25) (F64.fin 0)) (F64.sub (F64.fin 100) (F64.fin 0)) :=
  have h100 : fl 100 = 100 := by simpa using fl_intCast 100 (by norm_num)
  have hsub : F64.sub (F64.fin 100) (F64.fin 0) ≠ F64.posInf := by
    rw [F64.sub_fin_fin, round_of_fl_bounds (100 - 0) 100 (by norm_num [h100])
      (by norm_num [maxFloat]) (by norm_num [maxFloat])]
    exact fun h => F64.noConfusion h
  ⟨fl_zero, h100, by norm_num, hsub,
    (C11_progress_clamped_without_overflow
      { unit := "meter", stepsize := F64.fin 1, low := F64.fin 0, high := F64.fin 100 }
      0 100 25 rfl rfl fl_zero h100 (by norm_num) hsub).2.2.1 (by norm_num) (by norm_num)⟩

/-- C15 (overflow of the cleanup ratio): the stepsize `1e-310` is finite and `>= 0`;
on the range `Make(0, 1, 1e-310, "m")`, whose stepsize it is, `Enlarge(0)` and
`Enlarge(-1)` leave NaN, not 0, in both bounds.  The stepsize has 310 decimals, the
cleanup ratio `math.Pow(10, 310)` is `+Inf`, and `0 * +Inf` is NaN. -/
theorem C15_enlarge_tiny_stepsize_nan :
    F64.le (F64.fin 0) (lit (1 / 10 ^ 310)) = true ∧
    (Make64 (lit 0) (lit 1) (lit (1 / 10 ^ 310)) "m").stepsize = lit (1 / 10 ^ 310) ∧
    decimals64 (lit (1 / 10 ^ 310)) = 310 ∧
    (Enlarge64 (Make64 (lit 0) (lit 1) (lit (1 / 10 ^ 310)) "m") (F64.fin 0)).low = F64.nan ∧
    (Enlarge64 (Make64 (lit 0) (lit 1) (lit (1 / 10 ^ 310)) "m") (F64.fin 0)).high = F64.nan ∧
    (Enlarge64 (Make64 (lit 0) (lit 1) (lit (1 / 10 ^ 310)) "m") (F64.fin (-1))).low
      = F64.nan ∧
    (Enlarge64 (Make64 (lit 0) (lit 1) (lit (1 / 10 ^ 310)) "m") (F64.fin (-1))).high
      = F64.nan ∧
    F64.nan ≠ F64.fin 0 := by
  have hle : F64.le (F64.fin 0) (lit (1 / 10 ^ 310)) = true := by
    rw [lit_tiny, F64.le_fin_fin]; exact decide_eq_true (by positivity)
  have hst : (Make64 (lit 0) (lit 1) (lit (1 / 10 ^ 310)) "m").stepsize
      = lit (1 / 10 ^ 310) := by
    rw [Make64_of_nonneg _ _ _ _ hle, ResetBoundaries64_stepsize]
  have h0 : F64.lt (F64.fin 0) (F64.fin 0) = false := by
    rw [F64.lt_fin_fin]; exact decide_eq_false (lt_irrefl 0)
  have h1 : F64.lt (F64.fin 0) (F64.fin (-1)) = false := by
    rw [F64.lt_fin_fin]; exact decide_eq_false (by norm_num)
  refine ⟨hle, hst, decimals64_tiny, ?_, ?_, ?_, ?_, fun h => F64.noConfusion h⟩
  · rw [Enlarge64_of_not_pos _ _ h0, ResetBoundaries64_tiny _ hst]
  · rw [Enlarge64_of_not_pos _ _ h0, ResetBoundaries64_tiny _ hst]
  · rw [Enlarge64_of_not_pos _ _ h1, ResetBoundaries64_tiny _ hst]
  · rw [Enlarge64_of_not_pos _ _ h1, ResetBoundaries64_tiny _ hst]

/-- C15 (amended): `Enlarge` with a non-positive coefficient resets the boundaries to 0
on every range whose stepsize is finite and has at most 308 decimals (so that the
cleanup ratio `math.Pow(10, decimals)` is finite): for every `coef <= 0`, `-Inf`
included, after `Enlarge(coef)` `low = 0` and `high = 0`, the stepsize and the unit
being unchanged. -/
theorem C15_enlarge_nonpositive_resets_finite_ratio (dr : DataRange64) (coef : F64) (s : ℚ)
    (hs : dr.stepsize = F64.fin s) (hd : decimals64 dr.stepsize ≤ 308)
    (hc : F64.le coef (F64.fin 0) = true) :
    (Enlarge64 dr coef).low = F64.fin 0 ∧ (Enlarge64 dr coef).high = F64.fin 0 ∧
    (Enlarge64 dr coef).stepsize = dr.stepsize ∧ (Enlarge64 dr coef).unit = dr.unit := by
  rw [Enlarge64_of_not_pos dr coef (F64.not_pos_of_le_zero coef hc)]
  exact ⟨(ResetBoundaries64_zero_zero dr s hs hd).1, (ResetBoundaries64_zero_zero dr s hs hd).2,
    ResetBoundaries64_stepsize dr _ _, ResetBoundaries64_unit dr _ _⟩

/-- C15 (amended), at the range `[10, 20]` of stepsize 1 and the coefficient `-1`. -/
theorem C15_enlarge_nonpositive_resets_finite_ratio_witness :
    decimals64 (F64.fin 1) ≤ 308 ∧ F64.le (F64.fin (-1)) (F64.fin 0) = true ∧
    (Enlarge64 { unit := "m", stepsize := F64.fin 1, low := F64.fin 10, high := F64.fin 20 }
      (F64.fin (-1))).low = F64.fin 0 ∧
    (Enlarge64 { unit := "m", stepsize := F64.fin 1, low := F64.fin 10, high := F64.fin 20 }
      (F64.fin (-1))).high = F64.fin 0 :=
  have hd : decimals64 (F64.fin 1) ≤ 308 := by rw [decimals64_one]; norm_num
  have hc : F64.le (F64.fin (-1)) (F64.fin 0) = true := by
    rw [F64.le_fin_fin]; exact decide_eq_true (by norm_num)
  have h := C15_enlarge_nonpositive_resets_finite_ratio
    { unit := "m", stepsize := F64.fin 1, low := F64.fin 10, high := F64.fin 20 }
    (F64.fin (-1)) 1 rfl hd hc
  ⟨hd, hc, h.1, h.2.1⟩

/-- C20 (the step count is a truncated quotient): in float64 arithmetic
`Make(0, 1.9, 0.1, u)` returns the range `[0, 1.9]`, built from `ceil(1.9/0.1) = 19`
steps, and `Steps()` is 18: the quotient `(1.9 - 0) / 0.1` is `18.999999999999996` and
the conversion to `uint` truncates it; `18 * 0.1` is `1.8`, not `high - low`. -/
theorem C20_steps_truncated (u : String) :
    Make64 (lit 0) (lit (19 / 10)) (lit (1 / 10)) u
      = { unit := u, stepsize := lit (1 / 10), low := F64.fin 0, high := lit (19 / 10) } ∧
    F64.ceil (F64.div (lit (19 / 10)) (lit (1 / 10))) = F64.fin 19 ∧
    Steps64 { unit := u, stepsize := lit (1 / 10), low := F64.fin 0, high := lit (19 / 10) }
      = 18 ∧
    (∃ f : ℚ, F64.div (F64.sub (lit (19 / 10)) (F64.fin 0)) (lit (1 / 10)) = F64.fin f ∧
      18 < f ∧ f < 19) ∧
    F64.mul (F64.fin 18) (lit (1 / 10)) ≠ F64.sub (lit (19 / 10)) (F64.fin 0) := by
  have hl1 : lit (1 / 10) = F64.fin (3602879701896397 / 36028797018963968) :=
    (round_pos (1 / 10) (3602879701896397 / 36028797018963968) (-4) 7205759403792794 (by norm_num)
        (by norm_num) (by norm_num) (by norm_num) (roundNearestEven_of_lt _ _ (by norm_num) (by
        norm_num)) (by norm_num))
  have hl2 : lit (19 / 10) = F64.fin (4278419646001971 / 2251799813685248) :=
    (round_pos (19 / 10) (4278419646001971 / 2251799813685248) (0) 8556839292003942 (by norm_num)
        (by norm_num) (by norm_num) (by norm_num) (roundNearestEven_of_lt _ _ (by norm_num) (by
        norm_num)) (by norm_num))
  have h3 : F64.div (F64.fin (4278419646001971 / 2251799813685248)) (F64.fin (3602879701896397 /
      36028797018963968)) = F64.fin (5348024557502463 / 281474976710656) :=
    (F64.div_fin_fin (4278419646001971 / 2251799813685248) (3602879701896397 / 36028797018963968)
        (by norm_num)).trans (round_pos ((4278419646001971 / 2251799813685248) / (3602879701896397 /
        36028797018963968)) (5348024557502463 / 281474976710656) (4) 5348024557502463 (by norm_num)
        (by norm_num) (by norm_num) (by norm_num) (roundNearestEven_of_lt _ _ (by norm_num) (by
        norm_num)) (by norm_num))
  have hc4 : ⌈((5348024557502463 / 281474976710656) : ℚ)⌉ = 19 :=
    by norm_num [ceil_eq_neg_floor_neg]
  have h5 : F64.mul (F64.fin 19) (F64.fin (3602879701896397 / 36028797018963968)) = F64.fin
      (8556839292003943 / 4503599627370496) :=
    (F64.mul_fin_fin 19 (3602879701896397 / 36028797018963968)).trans (round_pos (19 *
        (3602879701896397 / 36028797018963968)) (8556839292003943 / 4503599627370496) (0)
        8556839292003943 (by norm_num) (by norm_num) (by norm_num) (by norm_num)
        (roundNearestEven_of_lt _ _ (by norm_num) (by norm_num)) (by norm_num))
  have h6 : F64.mul (F64.fin (8556839292003943 / 4503599627370496)) (F64.fin 10) = F64.fin 19 :=
    (F64.mul_fin_fin (8556839292003943 / 4503599627370496) 10).trans (round_pos ((8556839292003943 /
        4503599627370496) * 10) 19 (4) 5348024557502464 (by norm_num) (by norm_num) (by norm_num)
        (by norm_num) (roundNearestEven_of_lt _ _ (by norm_num) (by norm_num)) (by norm_num))
  have hc7 : ⌈(19 : ℚ)⌉ = 19 :=
    by norm_num [ceil_eq_neg_floor_neg]
  have h8 : F64.div (F64.fin 19) (F64.fin 10) = F64.fin (4278419646001971 / 2251799813685248) :=
    (F64.div_fin_fin 19 10 (by norm_num)).trans (round_pos (19 / 10) (4278419646001971 /
        2251799813685248) (0) 8556839292003942 (by norm_num) (by norm_num) (by norm_num) (by
        norm_num) (roundNearestEven_of_lt _ _ (by norm_num) (by norm_num)) (by norm_num))
  have h9 : F64.div (F64.fin 0) (F64.fin (3602879701896397 / 36028797018963968)) = F64.fin 0 :=
    (F64.div_fin_fin 0 (3602879701896397 / 36028797018963968) (by norm_num)).trans (round_of_eq_zero
        (0 / (3602879701896397 / 36028797018963968)) (by norm_num))
  have h10 : F64.mul (F64.fin 0) (F64.fin (3602879701896397 / 36028797018963968)) = F64.fin 0 :=
    (F64.mul_fin_fin 0 (3602879701896397 / 36028797018963968)).trans (round_of_eq_zero (0 *
        (3602879701896397 / 36028797018963968)) (by norm_num))
  have h11 : F64.mul (F64.fin 0) (F64.fin 10) = F64.fin 0 :=
    (F64.mul_fin_fin 0 10).trans (round_of_eq_zero (0 * 10) (by norm_num))
  have h12 : F64.div (F64.fin 0) (F64.fin 10) = F64.fin 0 :=
    (F64.div_fin_fin 0 10 (by norm_num)).trans (round_of_eq_zero (0 / 10) (by norm_num))
  have hb13 : decide (((3602879701896397 / 36028797018963968) : ℚ) = 0) = false :=
    by norm_num
  have hb14 : decide ((0 : ℚ) < (4278419646001971 / 2251799813685248)) = true :=
    by norm_num
  have h15 : F64.sub (F64.fin (4278419646001971 / 2251799813685248)) (F64.fin 0) = F64.fin
      (4278419646001971 / 2251799813685248) :=
    (F64.sub_fin_fin (4278419646001971 / 2251799813685248) 0).trans (round_pos ((4278419646001971 /
        2251799813685248) - 0) (4278419646001971 / 2251799813685248) (0) 8556839292003942 (by
        norm_num) (by norm_num) (by norm_num) (by norm_num) (roundNearestEven_of_lt _ _ (by
        norm_num) (by norm_num)) (by norm_num))
  have h16 : F64.div (F64.fin (4278419646001971 / 2251799813685248)) (F64.fin (3602879701896397 /
      36028797018963968)) = F64.fin (5348024557502463 / 281474976710656) :=
    (F64.div_fin_fin (4278419646001971 / 2251799813685248) (3602879701896397 / 36028797018963968)
        (by norm_num)).trans (round_pos ((4278419646001971 / 2251799813685248) / (3602879701896397 /
        36028797018963968)) (5348024557502463 / 281474976710656) (4) 5348024557502463 (by norm_num)
        (by norm_num) (by norm_num) (by norm_num) (roundNearestEven_of_lt _ _ (by norm_num) (by
        norm_num)) (by norm_num))
  have hf17 : ⌊((5348024557502463 / 281474976710656) : ℚ)⌋ = 18 :=
    by norm_num
  have h18 : F64.mul (F64.fin 18) (F64.fin (3602879701896397 / 36028797018963968)) = F64.fin
      (8106479329266893 / 4503599627370496) :=
    (F64.mul_fin_fin 18 (3602879701896397 / 36028797018963968)).trans (round_pos (18 *
        (3602879701896397 / 36028797018963968)) (8106479329266893 / 4503599627370496) (0)
        8106479329266893 (by norm_num) (by norm_num) (by norm_num) (by norm_num)
        (roundNearestEven_of_lt _ _ (by norm_num) (by norm_num)) (by norm_num))
  have hd : decimals64 (F64.fin (3602879701896397 / 36028797018963968)) = 1 :=
    decimals64_eq_one _ 1 (by norm_num) (by norm_num) (by norm_num)
      ((fl_of_round hl1).symm ▸ (by norm_num : fl (((1 : ℤ) : ℚ) / 10 ^ 1) = fl (1 / 10)))
  have hneg : decide (((5348024557502463 / 281474976710656) : ℚ) < 0) = false := by norm_num
  refine ⟨?_, ?_, ?_, ⟨(5348024557502463 / 281474976710656), ?_, ?_, ?_⟩, ?_⟩
  · rw [Make64_of_nonneg _ _ _ _ (by rw [hl1, F64.le_fin_fin]; norm_num)]
    simp only [ResetBoundaries64, lit_zero, hl1, hl2, h3, hc4, h5, h6, hc7, h8, h9, h10, h11, h12,
        hb13, hb14, h15, h16, hf17, h18, hd, pow10_one, Nat.cast_one, F64.lt_fin_fin,
        F64.le_fin_fin, F64.eq_fin_fin, F64.floor_fin, F64.ceil_fin, Int.cast_ofNat, Int.cast_zero,
        Int.cast_one, Int.floor_zero, Bool.not_false, Bool.not_true, if_true, if_false,
        Bool.false_eq_true]
  · simp only [hl1, hl2, h3, hc4, F64.lt_fin_fin, F64.le_fin_fin, F64.eq_fin_fin, F64.floor_fin,
      F64.ceil_fin, Int.cast_ofNat, Int.cast_zero, Int.cast_one, Int.floor_zero, Bool.not_false,
      Bool.not_true, if_true, if_false, Bool.false_eq_true]
  · simp only [Steps64, hl1, hl2, h15, h16, hneg, toUint, F64.lt_fin_fin, F64.le_fin_fin,
      F64.eq_fin_fin, F64.floor_fin, F64.ceil_fin, Int.cast_ofNat, Int.cast_zero, Int.cast_one,
      Int.floor_zero, Bool.not_false, Bool.not_true, if_true, if_false, Bool.false_eq_true]
    norm_num [← Int.floor_toNat, hf17]
    rfl
  · simp only [hl1, hl2, h15, h16]
  · norm_num
  · norm_num
  · rw [hl1, hl2, h15, h18]
    intro h
    have := F64.fin.inj h
    norm_num at this

end Datarange
